import Mathlib

/-!
# qa-playground gateway: adapter resolution, reverse proxy and auth gates

A shallow embedding of `api-gateway/adapters/proxy.go` and
`api-gateway/middleware/auth.go`.

Conventions of the embedding

* Go strings are Lean strings (sequences of code points).  Every literal the
  code slices or compares against is ASCII, so byte offsets and character
  offsets coincide wherever the code indexes a string.
* A Go `error` is its message; `nil` is `none`.
* `http.Header` (a `map[string][]string`) is an association list; the order of
  the list is the order in which a `range` loop happens to visit the map.
* The gin context is an explicit record threaded through every handler;
  `c.Next()` is the application of the rest of the handler chain.
* Calls into `net/http` and gin follow the documented contract of the call:
  `Header.Add`, `Header.Set`, `Header.Del` and `Header.Get` canonicalise the
  key, `c.Header` is `Set` (or `Del` for an empty value), `c.Status` sets the
  status code, `c.JSON` sets the status, the content type and writes the
  encoded object, `c.AbortWithStatusJSON` is `c.Abort` followed by `c.JSON`.
* What the handlers cannot see from inside (the tokenizer, request
  construction, the backend) is an argument of the handler.
-/

namespace Gateway

/-! ## Go strings -/

/-- Go `strings.HasPrefix`. -/
def HasPrefix (s p : String) : Bool :=
  p.data.isPrefixOf s.data

/-- Go `strings.TrimPrefix`: `s` without the leading `p`, or `s` itself. -/
def TrimPrefix (s p : String) : String :=
  if HasPrefix s p then ⟨s.data.drop p.data.length⟩ else s

/-- Go `os.Getenv` over an environment `env`: the value of the variable, or the
empty string when it is not set. -/
def Getenv (env : String → Option String) (key : String) : String :=
  (env key).getD ""

/-! ## `ResolveAdapterURL` -/

/-- Source: `ResolveAdapterURL` in adapters/proxy.go.  The result is the Go pair
`(url, err)`. -/
def ResolveAdapterURL (env : String → Option String) (model : String) :
    String × Option String :=
  match model with
  | "adapter-a" =>
    let u := Getenv env "ADAPTER_A_URL"
    if u ≠ "" then (u, none) else ("http://localhost:8081", none)
  | "adapter-b" =>
    let u := Getenv env "ADAPTER_B_URL"
    if u ≠ "" then (u, none) else ("http://localhost:8082", none)
  | _ => ("", some "unknown model")

/-- The resolver as the specification words it: a table from the two model
names to an override variable and a default, and a failure for anything else. -/
def resolveSpec (env : String → Option String) (model : String) :
    String × Option String :=
  if model = "adapter-a" then
    match env "ADAPTER_A_URL" with
    | some u => if u = "" then ("http://localhost:8081", none) else (u, none)
    | none => ("http://localhost:8081", none)
  else if model = "adapter-b" then
    match env "ADAPTER_B_URL" with
    | some u => if u = "" then ("http://localhost:8082", none) else (u, none)
    | none => ("http://localhost:8082", none)
  else ("", some "unknown model")

/-! ## `strings.ToLower` and the hop-by-hop denylist -/

/-- A byte below `utf8.RuneSelf`. -/
def isASCII (c : Char) : Bool := c.toNat < 128

/-- Go `strings.ToLower`.  A string of ASCII bytes only takes the fast path,
which adds `'a' - 'A'` to every byte in `'A'..'Z'` (that is `Char.toLower`);
any other string is mapped rune by rune through `unicode.ToLower`, which is
not part of this repository and is the argument `unicodeToLower`. -/
def ToLower (unicodeToLower : Char → Char) (s : String) : String :=
  if s.data.all isASCII then ⟨s.data.map Char.toLower⟩
  else ⟨s.data.map unicodeToLower⟩

/-- Source: `isHopByHopHeader` in adapters/proxy.go. -/
def isHopByHopHeader (unicodeToLower : Char → Char) (header : String) : Bool :=
  match ToLower unicodeToLower header with
  | "connection" | "keep-alive" | "proxy-authenticate" | "proxy-authorization"
  | "te" | "trailers" | "transfer-encoding" | "upgrade" => true
  | _ => false

/-- The eight hop-by-hop header names the specification lists. -/
def hopByHopNames : List String :=
  ["connection", "keep-alive", "proxy-authenticate", "proxy-authorization",
   "te", "trailers", "transfer-encoding", "upgrade"]

/-- The header name `name` is `hop` up to the case of its ASCII letters. -/
def EqualFold (name hop : String) : Prop :=
  name.data.map Char.toLower = hop.data.map Char.toLower

instance (name hop : String) : Decidable (EqualFold name hop) := by
  unfold EqualFold; infer_instance

/-- The header name `name` is, case-insensitively, one of the eight
hop-by-hop names. -/
def IsHopByHopName (name : String) : Prop :=
  ∃ hop ∈ hopByHopNames, EqualFold name hop

instance (name : String) : Decidable (IsHopByHopName name) := by
  unfold IsHopByHopName; infer_instance

/-! ## `net/http` headers -/

/-- Go `http.Header`, a `map[string][]string`, as an association list. -/
abbrev Header := List (String × List String)

/-- The bytes `net/textproto` accepts in a header field name (the token
characters of RFC 7230): digits, letters, and the fifteen punctuation bytes
listed by code point. -/
def validHeaderFieldByte (c : Char) : Bool :=
  let n := c.toNat
  (48 ≤ n && n ≤ 57) || (65 ≤ n && n ≤ 90) || (97 ≤ n && n ≤ 122) ||
    [33, 35, 36, 37, 38, 39, 42, 43, 45, 46, 94, 95, 96, 124, 126].contains n

/-- The canonicalisation loop of `net/textproto`: upper case for the first
letter and for a letter following `-`, lower case for every other letter. -/
def canonicalFrom : Bool → List Char → List Char
  | _, [] => []
  | upper, c :: cs =>
    let d := if upper then c.toUpper else c.toLower
    d :: canonicalFrom (d == '-') cs

/-- Go `textproto.CanonicalMIMEHeaderKey`: a key holding a byte that is not a
field-name byte is returned unchanged, any other key is canonicalised. -/
def CanonicalMIMEHeaderKey (s : String) : String :=
  if s.data.all validHeaderFieldByte then ⟨canonicalFrom true s.data⟩ else s

/-- The values stored in the map under exactly the key `key` (`h[key]`). -/
def Header.values (h : Header) (key : String) : List String :=
  (h.lookup key).getD []

/-- The keys of the map, in iteration order. -/
def Header.keys (h : Header) : List String := h.map Prod.fst

/-- Go `Header.Get`: the first value under the canonical form of `key`, or
the empty string. -/
def Header.Get (h : Header) (key : String) : String :=
  (Header.values h (CanonicalMIMEHeaderKey key)).headD ""

/-- The statement `h[k] = f(h[k])` of a Go map, `h[k]` being nil when absent. -/
def Header.update (h : Header) (k : String) (f : List String → List String) : Header :=
  if (Header.keys h).contains k then
    h.map (fun e => (e.1, if e.1 = k then f e.2 else e.2))
  else h ++ [(k, f [])]

/-- Go `Header.Add`: append `value` to the values under the canonical key. -/
def Header.Add (h : Header) (key value : String) : Header :=
  Header.update h (CanonicalMIMEHeaderKey key) (fun vs => vs ++ [value])

/-- Go `Header.Set`: replace the values under the canonical key by `[value]`. -/
def Header.Set (h : Header) (key value : String) : Header :=
  Header.update h (CanonicalMIMEHeaderKey key) (fun _ => [value])

/-- Go `Header.Del`: delete the canonical key. -/
def Header.Del (h : Header) (key : String) : Header :=
  h.filter (fun e => e.1 ≠ CanonicalMIMEHeaderKey key)

/-- The invariant of a header map produced by `net/http` when it parses a
message: the keys are distinct (it is a map), every key is a valid field
name, and every key is in canonical form. -/
def Header.WellFormed (h : Header) : Prop :=
  (Header.keys h).Nodup ∧
  ∀ k ∈ Header.keys h, k.data.all validHeaderFieldByte = true ∧ CanonicalMIMEHeaderKey k = k

instance (h : Header) : Decidable (Header.WellFormed h) := by
  unfold Header.WellFormed; infer_instance

/-! ## Requests, responses and the gin context -/

/-- A byte string (a request or response body). -/
abbrev Bytes := List UInt8

/-- The inbound `*http.Request` as far as the handlers read it. -/
structure Request where
  /-- The field `c.Request.Method`. -/
  method : String
  /-- The field `c.Request.URL.Path`. -/
  path : String
  /-- The field `c.Request.URL.RawQuery`. -/
  rawQuery : String
  /-- The field `c.Request.Header`. -/
  header : Header
  /-- The field `c.Request.Body`: `none` is a nil body, `some b` a body that
  `io.ReadAll` reads as `b`. -/
  body : Option Bytes
  deriving DecidableEq, Repr

/-- The invariant of a request that `net/http` hands to a handler: the method
is not empty and the header map is well formed. -/
def Request.WellFormed (r : Request) : Prop :=
  r.method ≠ "" ∧ Header.WellFormed r.header

instance (r : Request) : Decidable (Request.WellFormed r) := by
  unfold Request.WellFormed; infer_instance

/-- The outbound `*http.Request` that `ProxyToAdapter` builds. -/
structure ProxyRequest where
  /-- The method of the outbound request. -/
  method : String
  /-- The URL string given to `http.NewRequestWithContext`. -/
  url : String
  /-- The header map of the outbound request. -/
  header : Header
  /-- The body reader: `none` is a nil reader. -/
  body : Option Bytes
  deriving DecidableEq, Repr

/-- The `*http.Response` that `client.Do` returns. -/
structure BackendResponse where
  /-- The field `resp.StatusCode`. -/
  statusCode : Int
  /-- The field `resp.Header`. -/
  header : Header
  /-- The bytes that reading `resp.Body` to its end yields. -/
  body : Bytes
  deriving DecidableEq, Repr

/-- A `gin.H` whose values are strings, as every `gin.H` of these handlers is. -/
abbrev H := List (String × String)

/-- A string or an integer inside a `gin.H`. -/
inductive JSONScalar where
  /-- A Go string. -/
  | str (s : String)
  /-- A Go int. -/
  | int (n : Int)
  deriving DecidableEq, Repr

/-- A value of a `gin.H` that is not only made of strings: a scalar, or a
nested `gin.H` of scalars. -/
inductive JSONField where
  /-- A string or an integer. -/
  | scalar (v : JSONScalar)
  /-- A nested object. -/
  | object (fields : List (String × JSONScalar))
  deriving DecidableEq, Repr

/-- One write onto the client response body. -/
inductive Payload where
  /-- The JSON encoding of an object, written by `c.JSON`. -/
  | json (obj : H)
  /-- Bytes written as they are. -/
  | raw (bytes : Bytes)
  /-- The JSON encoding of an object with integers and a nested object. -/
  | doc (obj : List (String × JSONField))
  deriving DecidableEq, Repr

/-- The `*gin.Context`: the inbound request, the route parameters, the key
store of `c.Set`, and the client response under construction.  The last two
fields are ghost state: they record the calls made to the tokenizer and to the
backend, and no handler reads them. -/
structure Context where
  /-- The inbound request. -/
  request : Request
  /-- The route parameters (`c.Params`). -/
  params : List (String × String) := []
  /-- The key store (`c.Keys`). -/
  keys : List (String × String) := []
  /-- The status code of the client response. -/
  status : Int := 200
  /-- The header map of the client response (`c.Writer.Header()`). -/
  header : Header := []
  /-- The writes made onto the client response body, oldest first. -/
  body : List Payload := []
  /-- Whether `c.Abort` was called. -/
  aborted : Bool := false
  /-- Ghost: the tokens passed to `tokenizer.ValidateToken`, oldest first. -/
  tokenizerCalls : List String := []
  /-- Ghost: the requests passed to `client.Do`, oldest first. -/
  backendCalls : List ProxyRequest := []
  deriving DecidableEq, Repr

/-- The gin call `c.GetHeader(key)`, which is `c.Request.Header.Get(key)`. -/
def Context.GetHeader (c : Context) (key : String) : String :=
  Header.Get c.request.header key

/-- The gin call `c.Param(key)`: the value of the route parameter, or the empty string. -/
def Context.Param (c : Context) (key : String) : String :=
  (c.params.lookup key).getD ""

/-- The gin call `c.Set(key, value)`, which is `c.Keys[key] = value`. -/
def Context.Set (c : Context) (key value : String) : Context :=
  { c with keys := (key, value) :: c.keys.filter (fun e => e.1 ≠ key) }

/-- The gin call `c.Get(key)`. -/
def Context.Get (c : Context) (key : String) : Option String :=
  c.keys.lookup key

/-- The gin call `c.Status(code)`: set the response status code. -/
def Context.Status (c : Context) (code : Int) : Context :=
  { c with status := code }

/-- The gin call `c.Header(key, value)`: `c.Writer.Header().Set(key, value)`, and
`c.Writer.Header().Del(key)` when `value` is empty. -/
def Context.Header (c : Context) (key value : String) : Context :=
  { c with header := if value = "" then Header.Del c.header key
                     else Header.Set c.header key value }

/-- A write onto the response body (`c.Writer.Write`, `io.Copy(c.Writer, _)`). -/
def Context.Write (c : Context) (p : Payload) : Context :=
  { c with body := c.body ++ [p] }

/-- The gin call `c.JSON(code, obj)`: set the status, set the content type to JSON
unless one is set already, and write the JSON encoding of `obj`. -/
def Context.JSON (c : Context) (code : Int) (obj : H) : Context :=
  let c := c.Status code
  let c := if Header.values c.header "Content-Type" = [] then
      { c with header := Header.update c.header "Content-Type"
                (fun _ => ["application/json; charset=utf-8"]) }
    else c
  c.Write (Payload.json obj)

/-- The gin call `c.JSON(code, obj)` for an object that is not only made of
strings. -/
def Context.JSONDoc (c : Context) (code : Int) (obj : List (String × JSONField)) : Context :=
  let c := c.Status code
  let c := if Header.values c.header "Content-Type" = [] then
      { c with header := Header.update c.header "Content-Type"
                (fun _ => ["application/json; charset=utf-8"]) }
    else c
  c.Write (Payload.doc obj)

/-- The gin call `c.Abort()`: no pending handler runs. -/
def Context.Abort (c : Context) : Context :=
  { c with aborted := true }

/-- The gin call `c.AbortWithStatusJSON(code, obj)`: `c.Abort()` then `c.JSON(code, obj)`. -/
def Context.AbortWithStatusJSON (c : Context) (code : Int) (obj : H) : Context :=
  c.Abort.JSON code obj

/-- The `users.Tokenizer` capability: `ValidateToken(token)` returns the Go pair
`(userID, err)`. -/
structure Tokenizer where
  /-- The method `ValidateToken`. -/
  ValidateToken : String → String × Option String

/-- Ghost: record a call of `tokenizer.ValidateToken(token)`. -/
def Context.logValidateToken (c : Context) (token : String) : Context :=
  { c with tokenizerCalls := c.tokenizerCalls ++ [token] }

/-- Ghost: record a call of `client.Do(req)`. -/
def Context.logDo (c : Context) (req : ProxyRequest) : Context :=
  { c with backendCalls := c.backendCalls ++ [req] }

/-! ## The two auth gates

A middleware takes the rest of the handler chain as `next`; the call
`c.Next()` is `next c`. -/

/-- Source: `JwtOrAPIKeyMiddleware` in middleware/auth.go.  The test
`len(auth) > 7 && auth[:7] == "Bearer "` has the same value counted in bytes or
in code points, the seven bytes compared being ASCII. -/
def JwtOrAPIKeyMiddleware (tokenizer : Tokenizer) (serviceKey : String)
    (next : Context → Context) (c : Context) : Context :=
  let auth := c.GetHeader "Authorization"
  if auth ≠ "" then
    if auth.data.length > 7 ∧ auth.data.take 7 = "Bearer ".data then
      let token : String := ⟨auth.data.drop 7⟩
      let r := tokenizer.ValidateToken token
      let c := c.logValidateToken token
      if r.2 = none ∧ r.1 ≠ "" then
        next (c.Set "userID" r.1)
      else
        c.AbortWithStatusJSON 401 [("error", "invalid token")]
    else
      -- Malformed Authorization header
      c.AbortWithStatusJSON 401 [("error", "invalid authorization")]
  else if serviceKey ≠ "" ∧ c.GetHeader "x-api-key" = serviceKey then
    next c
  else
    c.AbortWithStatusJSON 401 [("error", "unauthorized")]

/-- Lines 74 to 78 of adapters/proxy.go, the tail of `AdapterProxyAuth` that
every path not returning earlier runs into: the service-key check. -/
def adapterServiceKeyCheck (serviceKey : String) (next : Context → Context)
    (c : Context) : Context :=
  if serviceKey ≠ "" ∧ c.GetHeader "x-api-key" = serviceKey then
    next c
  else
    c.AbortWithStatusJSON 401 [("error", "unauthorized")]

/-- Source: `AdapterProxyAuth` in adapters/proxy.go. -/
def AdapterProxyAuth (tokenizer : Tokenizer) (serviceKey healthPath : String)
    (next : Context → Context) (c : Context) : Context :=
  if c.request.method = "GET" ∧ c.request.path = healthPath then
    next c
  else
    let auth := c.GetHeader "Authorization"
    if HasPrefix auth "Bearer " then
      let token := TrimPrefix auth "Bearer "
      let r := tokenizer.ValidateToken token
      let c := c.logValidateToken token
      if r.2 = none ∧ r.1 ≠ "" then
        next (c.Set "userID" r.1)
      else
        adapterServiceKeyCheck serviceKey next c
    else
      adapterServiceKeyCheck serviceKey next c

/-! ## `ProxyToAdapter` -/

/-- What lies outside `ProxyToAdapter`: whether `http.NewRequestWithContext`
rejects a method and URL, and what `client.Do` returns for a request, an
`*http.Response` or a transport error. -/
structure Backend where
  /-- Whether `http.NewRequestWithContext(ctx, method, url, body)` returns an error. -/
  newRequestFails : String → String → Bool
  /-- The call `client.Do(req)`. -/
  Do : ProxyRequest → Except String BackendResponse

/-- Lines 103 to 111 of adapters/proxy.go: the URL of the backend call. -/
def proxyURL (targetURL : String) (c : Context) : String :=
  let path := c.Param "path"
  let path := if path = "" then "/" else path
  let path := TrimPrefix path "/"
  let fullURL := targetURL ++ "/" ++ path
  if c.request.rawQuery ≠ "" then fullURL ++ "?" ++ c.request.rawQuery else fullURL

/-- Go `http.NewRequestWithContext` when it succeeds: a request with the given
method (an empty method meaning `GET`), URL and body, and an empty header map. -/
def NewRequest (method url : String) (body : Option Bytes) : ProxyRequest :=
  { method := if method = "" then "GET" else method, url := url, header := [], body := body }

/-- Lines 123 to 129 of adapters/proxy.go: the loop over `c.Request.Header`. -/
def copyRequestHeaders (unicodeToLower : Char → Char) (inbound : Header)
    (req : ProxyRequest) : ProxyRequest :=
  inbound.foldl (fun req e =>
    if !isHopByHopHeader unicodeToLower e.1 then
      e.2.foldl (fun req value => { req with header := Header.Add req.header e.1 value }) req
    else req) req

/-- Lines 136 to 142 of adapters/proxy.go: the loop over `resp.Header`. -/
def copyResponseHeaders (unicodeToLower : Char → Char) (respHeader : Header)
    (c : Context) : Context :=
  respHeader.foldl (fun c e =>
    if !isHopByHopHeader unicodeToLower e.1 then
      e.2.foldl (fun c value => c.Header e.1 value) c
    else c) c

/-- Lines 103 to 129 of adapters/proxy.go: the request that `ProxyToAdapter`
passes to `client.Do`, when `http.NewRequestWithContext` succeeds. -/
def outboundRequest (unicodeToLower : Char → Char) (targetURL : String)
    (c : Context) : ProxyRequest :=
  copyRequestHeaders unicodeToLower c.request.header
    (NewRequest c.request.method (proxyURL targetURL c) c.request.body)

/-- Source: `ProxyToAdapter` in adapters/proxy.go. -/
def ProxyToAdapter (unicodeToLower : Char → Char) (backend : Backend)
    (targetURL : String) (c : Context) : Context :=
  if backend.newRequestFails c.request.method (proxyURL targetURL c) then
    c.JSON 500 [("error", "failed to create proxy request")]
  else
    let req := outboundRequest unicodeToLower targetURL c
    let c := c.logDo req
    match backend.Do req with
    | .error _ => c.JSON 502 [("error", "adapter unavailable")]
    | .ok resp =>
      let c := copyResponseHeaders unicodeToLower resp.header c
      let c := c.Status resp.statusCode
      c.Write (Payload.raw resp.body)

/-- The values that the loop over the inbound header map adds under the
outbound key `k`, in the order it adds them: the values of every entry that is
not on the denylist and whose canonical key is `k`. -/
def forwardedValues (unicodeToLower : Char → Char) (k : String) : Header → List String
  | [] => []
  | e :: es =>
    (if !isHopByHopHeader unicodeToLower e.1 && CanonicalMIMEHeaderKey e.1 == k then e.2 else [])
      ++ forwardedValues unicodeToLower k es

/-- The effect on the client header map `h` of the calls `c.Header(key, v)` for
the values `v` of one backend header, in order. -/
def writtenValues (key : String) (vs : List String) (h : Header) : Header :=
  vs.foldl (fun h value => if value = "" then Header.Del h key else Header.Set h key value) h

/-- The effect on the client header map `h` of the loop over `resp.Header`. -/
def copiedResponseHeader (unicodeToLower : Char → Char) (respHeader : Header)
    (h : Header) : Header :=
  respHeader.foldl (fun h e =>
    if !isHopByHopHeader unicodeToLower e.1 then writtenValues e.1 e.2 h else h) h

/-! ## `CallAdapter` -/

/-- Go `unicode.IsSpace`: the code points with the White_Space property. -/
def isSpace (c : Char) : Bool :=
  let n := c.toNat
  (9 ≤ n && n ≤ 13) || n == 32 || n == 0x85 || n == 0xA0 || n == 0x1680 ||
    (0x2000 ≤ n && n ≤ 0x200A) || n == 0x2028 || n == 0x2029 || n == 0x202F ||
    n == 0x205F || n == 0x3000

/-- Go `strings.TrimSpace`: `s` without its leading and trailing white space. -/
def TrimSpace (s : String) : String :=
  ⟨((s.data.dropWhile isSpace).reverse.dropWhile isSpace).reverse⟩

/-- The `*http.Response` of the completion backend as far as `CallAdapter`
reads it. -/
structure AdapterResponse where
  /-- The field `resp.StatusCode`. -/
  statusCode : Int
  /-- The field `resp.Status`, the status line such as `503 Service Unavailable`. -/
  status : String
  /-- The bytes that `io.ReadAll(resp.Body)` yields. -/
  body : Bytes
  deriving DecidableEq, Repr

/-- The two uses `CallAdapter` makes of `encoding/json`, which is not part of
this repository. -/
structure EncodingJSON where
  /-- The call `json.Marshal(payload)` on a `map[string]string`. -/
  Marshal : H → Bytes
  /-- The call `json.Unmarshal(rb, &tmp)` into a struct with the one field
  `Completion string`: the message of the decode error, or `tmp.Completion`. -/
  UnmarshalCompletion : Bytes → Except String String

/-- What lies outside `CallAdapter`: whether `http.NewRequestWithContext`
rejects the URL, and what the calls of `client.Do` return, one after the
other: `Do n req` is the outcome of the call made after `n` earlier ones. -/
structure CompletionBackend where
  /-- Whether `http.NewRequestWithContext(ctx, "POST", url, body)` returns an error. -/
  newRequestFails : String → Bool
  /-- The outcome of the call `client.Do(req)` that follows `n` earlier calls. -/
  Do : Nat → ProxyRequest → Except String AdapterResponse

/-- What a call of `CallAdapter` does.  The field `returned` is the Go pair
`(completion, err)`, or `none` when the call panics; the other two fields are
ghost state, the requests passed to `client.Do` and the durations in
milliseconds passed to `time.Sleep`, oldest first. -/
structure CallResult where
  /-- The pair returned, or `none` for a panic. -/
  returned : Option (String × Option String)
  /-- Ghost: the requests passed to `client.Do`. -/
  requests : List ProxyRequest
  /-- Ghost: the milliseconds passed to `time.Sleep`. -/
  sleeps : List Nat
  deriving DecidableEq, Repr

/-- Lines 24 to 33 of adapters/proxy.go: the request of one attempt, when
`http.NewRequestWithContext` succeeds. -/
def completionRequest (json : EncodingJSON) (c : Context)
    (baseURL prompt model failHeader : String) : ProxyRequest :=
  let body := json.Marshal [("prompt", prompt), ("model", model)]
  let req := NewRequest "POST" (baseURL ++ "/complete") (some body)
  let req := { req with header := Header.Set req.header "content-type" "application/json" }
  let auth := c.GetHeader "Authorization"
  let req :=
    if TrimSpace auth ≠ "" then
      { req with header := Header.Set req.header "Authorization" auth }
    else
      { req with header := Header.Set req.header "Authorization" "Bearer internal-service" }
  if failHeader ≠ "" then
    { req with header := Header.Set req.header "x-test-fail" failHeader }
  else req

/-- Lines 35 to 52 of adapters/proxy.go: what one attempt makes of the outcome
of `client.Do`, either the completion it returns or the error it stores in
`lastErr`. -/
def attemptOutcome (json : EncodingJSON) (o : Except String AdapterResponse) :
    Except String String :=
  match o with
  | .error err => .error err
  | .ok resp =>
    if 200 ≤ resp.statusCode ∧ resp.statusCode < 300 then
      match json.UnmarshalCompletion resp.body with
      | .error err => .error ("invalid adapter response: " ++ err)
      | .ok completion => .ok completion
    else .error ("adapter status " ++ resp.status)

/-- The loop `for attempt := 0; attempt < 3; attempt++` of `CallAdapter`, with
`remaining = 3 - attempt` iterations left to run.  A nil `req` (request
construction failed, its error being discarded) makes `req.Header.Set` panic. -/
def callAdapterLoop (json : EncodingJSON) (backend : CompletionBackend) (c : Context)
    (baseURL prompt model failHeader : String) :
    Nat → Nat → Option String → List ProxyRequest → List Nat → CallResult
  | 0, _, lastErr, requests, sleeps =>
    { returned := some ("", lastErr), requests := requests, sleeps := sleeps }
  | remaining + 1, attempt, _, requests, sleeps =>
    if backend.newRequestFails (baseURL ++ "/complete") then
      { returned := none, requests := requests, sleeps := sleeps }
    else
      let req := completionRequest json c baseURL prompt model failHeader
      let requests := requests ++ [req]
      match attemptOutcome json (backend.Do attempt req) with
      | .ok completion =>
        { returned := some (completion, none), requests := requests, sleeps := sleeps }
      | .error err =>
        callAdapterLoop json backend c baseURL prompt model failHeader
          remaining (attempt + 1) (some err) requests (sleeps ++ [100 * (attempt + 1)])

/-- Source: `CallAdapter` in adapters/proxy.go. -/
def CallAdapter (json : EncodingJSON) (backend : CompletionBackend) (c : Context)
    (baseURL prompt model failHeader : String) : CallResult :=
  callAdapterLoop json backend c baseURL prompt model failHeader 3 0 none [] []

/-! ## `AiComplete` -/

/-- Source: `AiComplete` in routes/ai.go.  The argument `bindJSON` is the call
`c.BindJSON(&body)` on the struct with the fields `Prompt` and `Model`: the
bind error, or the two fields; on an error gin has already set the status 400
and aborted the context.  The argument `now` is `time.Now().UnixNano()`.  The
result is `none` when `CallAdapter` panics.  The requests of `CallAdapter` are
recorded in the ghost field `backendCalls`. -/
def AiComplete (env : String → Option String) (json : EncodingJSON)
    (backend : CompletionBackend)
    (bindJSON : Option Bytes → Except String (String × String)) (now : Int)
    (c : Context) : Option Context :=
  match bindJSON c.request.body with
  | .error _ => some (((c.Status 400).Abort).JSON 400 [("error", "invalid payload")])
  | .ok (prompt, model) =>
    if prompt = "" ∨ model = "" then
      some (c.JSON 400 [("error", "invalid payload")])
    else
      let resolved := ResolveAdapterURL env model
      match resolved.2 with
      | some err => some (c.JSON 400 [("error", err)])
      | none =>
        let failHeader := c.GetHeader "x-test-fail"
        let called := CallAdapter json backend c resolved.1 prompt model failHeader
        let c := { c with backendCalls := c.backendCalls ++ called.requests }
        match called.returned with
        | none => none
        | some (_, some err) =>
          some (c.JSON 502 [("error", err), ("model", model), ("completion", "")])
        | some (completion, none) =>
          some (c.JSONDoc 200
            [("model", .scalar (.str model)),
             ("completion", .scalar (.str completion)),
             ("usage", .object
               [("prompt_tokens", .int (prompt.utf8ByteSize / 4 : Nat)),
                ("completion_tokens", .int (completion.utf8ByteSize / 4 : Nat)),
                ("total_tokens",
                  .int ((prompt.utf8ByteSize / 4 + completion.utf8ByteSize / 4 : Nat)))]),
             ("traceId", .scalar (.int now))])

/-! ## Specification-side notions and example values -/

/-- An `Authorization` value of the form `Bearer ` followed by a non-empty
token; a non-empty value that is not of this form is malformed. -/
def WellFormedBearer (auth : String) : Prop :=
  ∃ token : String, token ≠ "" ∧ auth = "Bearer " ++ token

/-- A tokenizer that validates the token `good` to the user `u1` and rejects
every other token. -/
def exampleTokenizer : Tokenizer :=
  { ValidateToken := fun token =>
      if token = "good" then ("u1", none) else ("", some "invalid token") }

/-- A tokenizer that validates every token, the empty one included. -/
def acceptAllTokenizer : Tokenizer :=
  { ValidateToken := fun _ => ("u1", none) }

/-- A fresh context for a request with the given method, path and headers. -/
def contextWith (method path : String) (header : Header) : Context :=
  { request := { method := method, path := path, rawQuery := "", header := header,
                 body := some [] } }

/-- An inbound request to the adapter-a proxy route. -/
def exampleRequest : Request :=
  { method := "POST", path := "/v1/adapter-a/complete", rawQuery := "n=1",
    header := [("Connection", ["keep-alive"]), ("Accept", ["a/b", "c/d"]),
               ("X-Api-Key", ["service-secret"])],
    body := some [104, 105] }

/-- The context of `exampleRequest` on the route `/v1/adapter-a/*path`. -/
def exampleContext : Context :=
  { request := exampleRequest, params := [("path", "/complete")] }

/-- A backend response with a two-valued `Set-Cookie` header. -/
def exampleResponse : BackendResponse :=
  { statusCode := 503, header := [("Set-Cookie", ["a=1", "b=2"]), ("Upgrade", ["h2c"])],
    body := [111, 107] }

/-- A backend that answers every request with `exampleResponse`. -/
def exampleBackend : Backend :=
  { newRequestFails := fun _ _ => false, Do := fun _ => .ok exampleResponse }

/-- A backend that refuses every connection; the URL with the bad escape `%zz`
is one `http.NewRequestWithContext` cannot parse. -/
def downBackend : Backend :=
  { newRequestFails := fun _ url => url == "http://localhost:8081/%zz",
    Do := fun _ => .error "connection refused" }

/-- A request to `/v1/adapter-a/%25zz`, whose wildcard remainder is `/%zz`. -/
def badPathContext : Context :=
  { request := { exampleRequest with path := "/v1/adapter-a/%25zz", rawQuery := "" },
    params := [("path", "/%zz")] }

/-! ## Notions and example values for the gates and for `CallAdapter` -/

/-- A gin middleware: given the rest of the handler chain, a handler. -/
abbrev Middleware := (Context → Context) → Context → Context

/-- The gate passes the request on: there is a context that it hands to the
rest of the chain, whatever that rest is. -/
def Admits (gate : Middleware) (c : Context) : Prop :=
  ∃ c2 : Context, ∀ next : Context → Context, gate next c = next c2

/-- The request is a `GET` to the configured health path. -/
def HealthBypass (healthPath : String) (c : Context) : Prop :=
  c.request.method = "GET" ∧ c.request.path = healthPath

instance (healthPath : String) (c : Context) : Decidable (HealthBypass healthPath c) := by
  unfold HealthBypass; infer_instance

/-- The service key is configured and the `x-api-key` header equals it. -/
def KeyMatches (serviceKey : String) (c : Context) : Prop :=
  serviceKey ≠ "" ∧ c.GetHeader "x-api-key" = serviceKey

instance (serviceKey : String) (c : Context) : Decidable (KeyMatches serviceKey c) := by
  unfold KeyMatches; infer_instance

/-- The tokenizer accepts the token: no error and a non-empty user id. -/
def Validates (tokenizer : Tokenizer) (token : String) : Prop :=
  (tokenizer.ValidateToken token).2 = none ∧ (tokenizer.ValidateToken token).1 ≠ ""

instance (tokenizer : Tokenizer) (token : String) : Decidable (Validates tokenizer token) := by
  unfold Validates; infer_instance

/-- An `Authorization` value `Bearer ` followed by a token that the tokenizer
accepts. -/
def ValidBearer (tokenizer : Tokenizer) (auth : String) : Prop :=
  ∃ token : String, auth = "Bearer " ++ token ∧ Validates tokenizer token

/-- A service call: no `Authorization` header, `x-api-key: service-secret`. -/
def serviceContext : Context :=
  contextWith "POST" "/v1/adapter-a/complete" [("X-Api-Key", ["service-secret"])]

/-- A request with a bearer token that `exampleTokenizer` rejects and a
matching `x-api-key`. -/
def staleTokenContext : Context :=
  contextWith "POST" "/v1/adapter-a/complete"
    [("Authorization", ["Bearer expired"]), ("X-Api-Key", ["service-secret"])]

/-- A `GET` to the health path of adapter-a with a malformed `Authorization`. -/
def healthContext : Context :=
  contextWith "GET" "/v1/adapter-a/health" [("Authorization", ["Basic abc"])]

/-- An attempt fails, in the words of the specification: a transport error, a
status outside 200..299, or a 2xx body that does not decode. -/
def AttemptFails (json : EncodingJSON) (o : Except String AdapterResponse) : Prop :=
  match o with
  | .error _ => True
  | .ok resp =>
    ¬ (200 ≤ resp.statusCode ∧ resp.statusCode < 300) ∨
      ∃ d : String, json.UnmarshalCompletion resp.body = .error d

/-- An attempt succeeds with `completion`: a 2xx response whose body decodes
to `completion`. -/
def AttemptSucceeds (json : EncodingJSON) (o : Except String AdapterResponse)
    (completion : String) : Prop :=
  ∃ resp : AdapterResponse, o = .ok resp ∧
    (200 ≤ resp.statusCode ∧ resp.statusCode < 300) ∧
    json.UnmarshalCompletion resp.body = .ok completion

/-- The waits that follow the `n` failed attempts numbered from `attempt`
(counted from 0): `100 * (attempt + 1)` milliseconds and so on. -/
def backoffFrom : Nat → Nat → List Nat
  | _, 0 => []
  | attempt, n + 1 => 100 * (attempt + 1) :: backoffFrom (attempt + 1) n

/-- A decoder that fails on the empty body and reads `hello` from any other. -/
def exampleJSON : EncodingJSON :=
  { Marshal := fun _ => [123, 125],
    UnmarshalCompletion := fun b =>
      if b = [] then .error "unexpected end of JSON input" else .ok "hello" }

/-- A backend that answers 500, then drops the connection, then answers 200. -/
def flakyBackend : CompletionBackend :=
  { newRequestFails := fun _ => false,
    Do := fun n _ =>
      if n = 0 then .ok { statusCode := 500, status := "500 Internal Server Error", body := [] }
      else if n = 1 then .error "connection reset"
      else .ok { statusCode := 200, status := "200 OK", body := [123, 125] } }

/-- A backend that answers 500 twice and then 503. -/
def failingBackend : CompletionBackend :=
  { newRequestFails := fun _ => false,
    Do := fun n _ =>
      if n = 2 then .ok { statusCode := 503, status := "503 Service Unavailable", body := [] }
      else .ok { statusCode := 500, status := "500 Internal Server Error", body := [] } }

/-- A request to `/v1/ai/complete` with a bearer token. -/
def completionContext : Context :=
  contextWith "POST" "/v1/ai/complete" [("Authorization", ["Bearer good"])]

/-! ## `encoding/json` values, and examples for `AiComplete` -/

/-- A parsed JSON text, as `encoding/json` sees it. -/
inductive JValue where
  /-- The value `null`. -/
  | null
  /-- The values `true` and `false`. -/
  | bool (b : Bool)
  /-- A number, kept as its literal. -/
  | number (literal : String)
  /-- A string. -/
  | string (s : String)
  /-- An array. -/
  | array (items : List JValue)
  /-- An object: its members in the order of the text, repeated keys included. -/
  | object (members : List (String × JValue))

/-- The name `encoding/json` gives to the kind of a value in its type errors. -/
def JValue.kind : JValue → String
  | .null => "null"
  | .bool _ => "bool"
  | .number _ => "number"
  | .string _ => "string"
  | .array _ => "array"
  | .object _ => "object"

/-- One object member met by `json.Unmarshal` into the struct with the one field
`Completion string` tagged `completion`.  The state is the field and the first
type error saved so far.  A key matches the field up to the case of its ASCII
letters; a string is stored, `null` leaves the field alone, any other value is a
type error, after which decoding goes on. -/
def storeCompletion (st : String × Option String) (member : String × JValue) :
    String × Option String :=
  if EqualFold member.1 "completion" then
    match member.2 with
    | .string s => (s, st.2)
    | .null => st
    | v =>
      (st.1, match st.2 with
        | some e => some e
        | none => some ("json: cannot unmarshal " ++ v.kind ++
            " into Go struct field .completion of type string"))
  else st

/-- The outcome of `json.Unmarshal` for an object: the saved type error if there
is one, else the field. -/
def completionOf (members : List (String × JValue)) : Except String String :=
  match (members.foldl storeCompletion ("", none)).2 with
  | some e => .error e
  | none => .ok (members.foldl storeCompletion ("", none)).1

/-- The outcome of `json.Unmarshal` into the completion struct for a
syntactically valid text: `null` is a no-op, an object is decoded member by
member, any other value is a type error. -/
def unmarshalCompletionValue : JValue → Except String String
  | .null => .ok ""
  | .object members => completionOf members
  | v => .error ("json: cannot unmarshal " ++ v.kind ++
      " into Go value of type struct \x7b Completion string \"json:\\\"completion\\\"\" \x7d")

/-- The call `json.Unmarshal(rb, &tmp)` of `CallAdapter`: the syntax error of the
text, or the outcome of decoding its value.  The parser of `encoding/json` is
the argument `parse`. -/
def UnmarshalCompletionWith (parse : Bytes → Except String JValue) (b : Bytes) :
    Except String String :=
  match parse b with
  | .error e => .error e
  | .ok v => unmarshalCompletionValue v

/-- The `encoding/json` of `CallAdapter` with the decoding above. -/
def stdJSON (marshal : H → Bytes) (parse : Bytes → Except String JValue) : EncodingJSON :=
  { Marshal := marshal, UnmarshalCompletion := UnmarshalCompletionWith parse }

/-- The bytes of the text with the one member `completion` holding the string
`hello`. -/
def helloBody : Bytes :=
  [123, 34, 99, 111, 109, 112, 108, 101, 116, 105, 111, 110, 34, 58,
   34, 104, 101, 108, 108, 111, 34, 125]

/-- The bytes of the text with the one member `completion` holding `null`. -/
def nullCompletionBody : Bytes :=
  [123, 34, 99, 111, 109, 112, 108, 101, 116, 105, 111, 110, 34, 58,
   110, 117, 108, 108, 125]

/-- A parser that knows the texts of the empty object, the empty array, `null`,
`helloBody` and `nullCompletionBody`, and rejects every other text. -/
def exampleParse (b : Bytes) : Except String JValue :=
  if b = [123, 125] then .ok (.object [])
  else if b = [91, 93] then .ok (.array [])
  else if b = [110, 117, 108, 108] then .ok .null
  else if b = helloBody then .ok (.object [("completion", .string "hello")])
  else if b = nullCompletionBody then .ok (.object [("completion", .null)])
  else .error "invalid character"

/-- A backend that answers every request with 200 and the given body. -/
def bodyBackend (body : Bytes) : CompletionBackend :=
  { newRequestFails := fun _ => false,
    Do := fun _ _ => .ok { statusCode := 200, status := "200 OK", body := body } }

/-- The values the string field accepts: a string or `null`. -/
def JValue.isStringOrNull : JValue → Bool
  | .string _ => true
  | .null => true
  | _ => false

/-- Whether a value is `null`. -/
def JValue.isNull : JValue → Bool
  | .null => true
  | _ => false

/-- The bytes of a response text with the five members an adapter returns:
`model`, `completion` holding `hello`, `usage`, `request_id` and `created_at`. -/
def adapterBody : Bytes :=
  [123, 34, 109, 111, 100, 101, 108, 34, 58, 34, 97, 100, 97, 112, 116, 101,
   114, 45, 97, 34, 44, 34, 99, 111, 109, 112, 108, 101, 116, 105, 111, 110,
   34, 58, 34, 104, 101, 108, 108, 111, 34, 44, 34, 117, 115, 97, 103, 101,
   34, 58, 123, 125, 44, 34, 114, 101, 113, 117, 101, 115, 116, 95, 105, 100,
   34, 58, 34, 114, 101, 113, 45, 49, 34, 44, 34, 99, 114, 101, 97, 116,
   101, 100, 95, 97, 116, 34, 58, 34, 50, 48, 50, 53, 45, 48, 57, 45,
   49, 54, 84, 49, 48, 58, 51, 48, 58, 48, 48, 90, 34, 125]

/-- The members of the text `adapterBody`. -/
def adapterMembers : List (String × JValue) :=
  [("model", .string "adapter-a"), ("completion", .string "hello"), ("usage", .object []),
   ("request_id", .string "req-1"), ("created_at", .string "2025-09-16T10:30:00Z")]

/-- A parser that knows the text `adapterBody` and passes every other text to
`exampleParse`. -/
def adapterParse (b : Bytes) : Except String JValue :=
  if b = adapterBody then .ok (.object adapterMembers) else exampleParse b

/-- A completion request that carries `X-Test-Fail: timeout`. -/
def testFailContext : Context :=
  contextWith "POST" "/v1/ai/complete"
    [("Authorization", ["Bearer good"]), ("X-Test-Fail", ["timeout"])]

/-- A bind that yields the prompt `hi` and the model `adapter-a`. -/
def exampleBind (_ : Option Bytes) : Except String (String × String) :=
  .ok ("hi", "adapter-a")

/-- A bind that yields the prompt `hi` and the model `unknown`. -/
def unknownModelBind (_ : Option Bytes) : Except String (String × String) :=
  .ok ("hi", "unknown")

/-- An environment in which no variable is set. -/
def noEnv (_ : String) : Option String := none

/-! ## Pagination of the list handlers (`routes/workflows.go`, `routes/notifications.go`, `routes/audit.go`) -/

/-- Go's `int` on a 64-bit platform: the value of an arithmetic result after wrapping into the range from -2^63 to 2^63 - 1. -/
def wrapInt64 (x : Int) : Int :=
  (x + 9223372036854775808) % 18446744073709551616 - 9223372036854775808

/-- The window computation shared by `ListWorkflows`, `ListNotifications` and `GetAuditLogs`: `start := (page - 1) * limit`, clamped to `total` from above, then `end := start + limit`, clamped to `total` from above. The handlers slice `items[start:end]` with the result. -/
def pageWindow (page limit total : Int) : Int × Int :=
  let start := wrapInt64 ((page - 1) * limit)
  let start := if start > total then total else start
  let stop := wrapInt64 (start + limit)
  let stop := if stop > total then total else stop
  (start, stop)

/-- The limit `GetAuditLogs` uses for a parsed `limit` value `n`: 50 when `n <= 0`, at most 1000. -/
def auditLimit (n : Int) : Int :=
  let limit := if n ≤ 0 then 50 else n
  if limit > 1000 then 1000 else limit

/-- The condition under which the slice expression `items[start:end]` on a slice of length `total` does not panic. -/
def WindowInBounds (w : Int × Int) (total : Int) : Prop :=
  0 ≤ w.1 ∧ w.1 ≤ w.2 ∧ w.2 ≤ total

instance (w : Int × Int) (total : Int) : Decidable (WindowInBounds w total) := by
  unfold WindowInBounds; infer_instance

/-! ## Audit details (`routes/audit.go`) -/

/-- A `map[string]interface{}` of audit details, as an association list; the keys of a map are distinct, which the theorems state as `Nodup` of the key list. -/
abbrev Details := List (String × JValue)

/-- The assignment `out[k] = v` on a map. -/
def Details.set (m : Details) (k : String) (v : JValue) : Details :=
  if (m.map Prod.fst).contains k then m.map (fun e => (e.1, if e.1 = k then v else e.2))
  else m ++ [(k, v)]

/-- The function `sanitizeDetails` of `routes/audit.go`: `nil` for a `nil` input, else a fresh map filled by one pass over the input, in which a key whose `strings.ToLower` is `old_password` or `new_password` gets the value `***redacted***` and any other key its own value. The input is a value here, so it is not changed. -/
def sanitizeDetails (unicodeToLower : Char → Char) (input : Option Details) : Option Details :=
  match input with
  | none => none
  | some m =>
    some (m.foldl (fun out e =>
      let key := ToLower unicodeToLower e.1
      if key = "old_password" ∨ key = "new_password" then
        Details.set out e.1 (.string "***redacted***")
      else Details.set out e.1 e.2) [])

/-- A key that equals `old_password` or `new_password` up to ASCII letter case. -/
def IsPasswordKey (k : String) : Prop :=
  EqualFold k "old_password" ∨ EqualFold k "new_password"

instance (k : String) : Decidable (IsPasswordKey k) := by
  unfold IsPasswordKey; infer_instance

/-- The entry the claim expects for an input entry. -/
def redact (e : String × JValue) : String × JValue :=
  (e.1, if IsPasswordKey e.1 then .string "***redacted***" else e.2)

/-- What the theorems need of `unicode.ToLower`: it maps no non-ASCII character to a character of `old_password` or `new_password`. The only non-ASCII characters whose lower case is ASCII are U+0130 and U+212A, which go to `i` and `k`. -/
def UnicodeLowerSound (unicodeToLower : Char → Char) : Prop :=
  ∀ ch : Char, isASCII ch = false →
    unicodeToLower ch ∉ "old_password".data ∧ unicodeToLower ch ∉ "new_password".data

/-- A details map with both password keys in mixed case, a key `password` and another key. -/
def exampleDetails : Details :=
  [("Old_Password", .string "hunter2"), ("password", .string "keep"),
   ("NEW_PASSWORD", .number "7"), ("note", .null)]

/-! ## `StrictAuthValidation` (`middleware/auth.go`) -/

/-- The pieces the two anchored patterns of `StrictAuthValidation` are made of. -/
inductive RegexItem where
  /-- One or more characters of a class, as in `[^\s@]+`. -/
  | plus (cls : Char → Bool)
  /-- One literal character, as in `@` or `\.`. -/
  | lit (c : Char)

/-- Whether the whole string matches the sequence of pieces: `regexp.MatchString` for a pattern `^...$` made of them. -/
def matchItems : List RegexItem → List Char → Bool
  | [], [] => true
  | [], _ :: _ => false
  | _ :: _, [] => false
  | .lit c :: items, x :: xs => x == c && matchItems items xs
  | .plus cls :: items, x :: xs =>
    cls x && (matchItems items xs || matchItems (.plus cls :: items) xs)

/-- What it means for a string to match a sequence of pieces: it splits into one part per piece. -/
def Matches : List RegexItem → List Char → Prop
  | [], s => s = []
  | .lit c :: items, s => ∃ xs, s = c :: xs ∧ Matches items xs
  | .plus cls :: items, s =>
    ∃ a rest, a ≠ [] ∧ (∀ x ∈ a, cls x = true) ∧ s = a ++ rest ∧ Matches items rest

/-- The class `\s` of Go's `regexp`: tab, newline, form feed, carriage return and space. -/
def isRegexSpace (c : Char) : Bool :=
  c == '\t' || c == '\n' || c == '\x0c' || c == '\r' || c == ' '

/-- The class `[^\s@]`. -/
def emailChar (c : Char) : Bool := !isRegexSpace c && c != '@'

/-- The pattern `^[^\s@]+@[^\s@]+\.[^\s@]+$`. -/
def emailRe : List RegexItem :=
  [.plus emailChar, .lit '@', .plus emailChar, .lit '.', .plus emailChar]

/-- The class `[A-Za-z0-9_.\-]`. -/
def usernameChar (c : Char) : Bool :=
  let n := c.toNat
  (65 ≤ n && n ≤ 90) || (97 ≤ n && n ≤ 122) || (48 ≤ n && n ≤ 57) ||
    c == '_' || c == '.' || c == '-'

/-- The pattern `^[A-Za-z0-9_.\-]{3,64}$`: between 3 and 64 characters, all of the class. -/
def matchUsername (s : String) : Bool :=
  3 ≤ s.data.length && s.data.length ≤ 64 && s.data.all usernameChar

/-- The structs `registerInput` and `loginInput`, which have the same fields. -/
structure RegisterInput where
  /-- The JSON member `email`. -/
  Email : String
  /-- The JSON member `username`. -/
  Username : String
  /-- The JSON member `password`. -/
  Password : String

/-- The two `json.Unmarshal` calls of `StrictAuthValidation`, as functions of the body bytes. -/
structure AuthJSON where
  /-- The call `json.Unmarshal(bodyBytes, &in)` for a `registerInput`. -/
  UnmarshalRegister : Bytes → Except String RegisterInput
  /-- The call `json.Unmarshal(bodyBytes, &in)` for a `loginInput`. -/
  UnmarshalLogin : Bytes → Except String RegisterInput

/-- The handler `StrictAuthValidation()` of `middleware/auth.go`. `fullPath` is `c.FullPath()`; the result is `none` when `io.ReadAll` is called on a nil body. -/
def StrictAuthValidation (json : AuthJSON) (fullPath : String) (next : Context → Context)
    (c : Context) : Option Context :=
  let path := if fullPath = "" then c.request.path else fullPath
  if c.request.method = "POST" ∧ (path = "/register" ∨ path = "/login") then
    match c.request.body with
    | none => none
    | some bodyBytes =>
      if path = "/register" then
        match json.UnmarshalRegister bodyBytes with
        | .error _ => some (c.AbortWithStatusJSON 400 [("error", "invalid payload")])
        | .ok input =>
          if !matchItems emailRe input.Email.data then
            some (c.AbortWithStatusJSON 400 [("error", "invalid email")])
          else if !matchUsername input.Username then
            some (c.AbortWithStatusJSON 400 [("error", "invalid username")])
          else if input.Password.utf8ByteSize < 8 then
            some (c.AbortWithStatusJSON 400 [("error", "weak password")])
          else some (next c)
      else
        match json.UnmarshalLogin bodyBytes with
        | .error _ => some (c.AbortWithStatusJSON 400 [("error", "invalid payload")])
        | .ok input =>
          if (input.Email = "" ∧ input.Username = "") ∨ input.Password = "" then
            some (c.AbortWithStatusJSON 400 [("error", "invalid payload")])
          else some (next c)
  else some (next c)

/-- The path `StrictAuthValidation` looks at: `c.FullPath()`, or the URL path when that is empty. -/
def authPath (fullPath : String) (c : Context) : String :=
  if fullPath = "" then c.request.path else fullPath

/-- A decoder that knows three bodies: a valid registration, one with a bad email and one with a short username. -/
def exampleAuthJSON : AuthJSON :=
  { UnmarshalRegister := fun b =>
      if b = [1] then .ok { Email := "a@b.co", Username := "bob", Password := "12345678" }
      else if b = [2] then .ok { Email := "a@b", Username := "bob", Password := "12345678" }
      else if b = [3] then .ok { Email := "a@b.co", Username := "b", Password := "12345678" }
      else .error "unexpected end of JSON input",
    UnmarshalLogin := fun _ => .error "unexpected end of JSON input" }

/-- A `POST /register` request with the given body. -/
def registerContext (body : Bytes) : Context :=
  { request := { method := "POST", path := "/register", rawQuery := "", header := [],
                 body := some body } }

/-! ## `validateSteps` (`routes/workflows.go`) -/

/-- The struct `WorkflowStep` of `routes/workflows.go`. -/
structure WorkflowStep where
  /-- The JSON member `id`. -/
  ID : String
  /-- The JSON member `name`. -/
  Name : String
  /-- The JSON member `type`, the field `Type` of the Go struct. -/
  StepType : String
  /-- The JSON member `depends_on`. -/
  DependsOn : List String
  deriving DecidableEq, Repr

/-- The map `graph` of `validateSteps`, a `map[string][]string`, as an association list. -/
abbrev Graph := List (String × List String)

/-- The read `graph[u]`: the nil slice for a key the map does not hold. -/
def Graph.get (g : Graph) (u : String) : List String := (g.lookup u).getD []

/-- The assignment `graph[k] = v`. -/
def Graph.set (g : Graph) (k : String) (v : List String) : Graph :=
  if (g.map Prod.fst).contains k then g.map (fun e => (e.1, if e.1 = k then v else e.2))
  else g ++ [(k, v)]

/-- The first loop of `validateSteps`, with the maps `ids` and `graph` as accumulators: a step with a blank id, name or type and a step whose id was seen before end the function with an error; otherwise the dependencies of the step are appended to `graph[s.ID]`. -/
def buildGraph : List WorkflowStep → List String → Graph → Except String Graph
  | [], _, graph => .ok graph
  | s :: rest, ids, graph =>
    if TrimSpace s.ID = "" ∨ TrimSpace s.Name = "" ∨ TrimSpace s.StepType = "" then
      .error "step missing required fields"
    else if ids.contains s.ID then .error "duplicate step id"
    else buildGraph rest (s.ID :: ids) (graph.set s.ID (graph.get s.ID ++ s.DependsOn))

/-- The map `visited` of `validateSteps`: 0 for a node not seen, 1 for a node being visited, 2 for a finished node. -/
abbrev Visited := String → Nat

/-- The assignment `visited[u] = n`. -/
def Visited.set (vis : Visited) (u : String) (n : Nat) : Visited :=
  fun x => if x = u then n else vis x

/-- A loop `for _, v := range vs` that calls `dfs(v)` and stops at the first call that returns true. `none` is a call that ran out of fuel. -/
def dfsRange (dfs : String → Visited → Option (Bool × Visited)) :
    List String → Visited → Option (Bool × Visited)
  | [], vis => some (false, vis)
  | v :: vs, vis =>
    match dfs v vis with
    | none => none
    | some (true, vis2) => some (true, vis2)
    | some (false, vis2) => dfsRange dfs vs vis2

/-- The closure `dfs` of `validateSteps`. The recursion depth is bounded by the fuel; `none` is a run that exceeded it. -/
def dfs (graph : Graph) : Nat → String → Visited → Option (Bool × Visited)
  | 0, _, _ => none
  | fuel + 1, u, vis =>
    if vis u = 1 then some (true, vis)
    else if vis u = 2 then some (false, vis)
    else
      match dfsRange (dfs graph fuel) (graph.get u) (vis.set u 1) with
      | none => none
      | some (true, vis2) => some (true, vis2)
      | some (false, vis2) => some (false, vis2.set u 2)

/-- Every string that occurs in the graph, as a key or as a dependency. -/
def graphNodes (g : Graph) : List String := g.map Prod.fst ++ (g.map Prod.snd).flatten

/-- The function `validateSteps`: `some none` is the result nil, `some (some e)` the error `e`, `none` a search that ran out of fuel. `rangeOrder` is the order in which `for id := range graph` visits the keys. The fuel is one more than the number of strings in the graph. -/
def validateSteps (rangeOrder : Graph → List String) (steps : List WorkflowStep) :
    Option (Option String) :=
  if steps.length = 0 then some (some "steps must not be empty")
  else
    match buildGraph steps [] [] with
    | .error e => some (some e)
    | .ok graph =>
      match dfsRange (dfs graph ((graphNodes graph).length + 1)) (rangeOrder graph)
          (fun _ => 0) with
      | none => none
      | some (true, _) => some (some "circular dependency detected")
      | some (false, _) => some none

/-- The dependency relation of a step list: `u` is the id of a step that names `v` in `depends_on`. -/
def StepEdge (steps : List WorkflowStep) (u v : String) : Prop :=
  ∃ s ∈ steps, s.ID = u ∧ v ∈ s.DependsOn

/-- The dependency relation has a directed cycle. -/
def HasCycle (steps : List WorkflowStep) : Prop :=
  ∃ u, Relation.TransGen (StepEdge steps) u u

/-- The conditions under which the claim expects `validateSteps` to return nil. -/
def StepsValid (steps : List WorkflowStep) : Prop :=
  steps ≠ [] ∧
  (∀ s ∈ steps, TrimSpace s.ID ≠ "" ∧ TrimSpace s.Name ≠ "" ∧ TrimSpace s.StepType ≠ "") ∧
  (steps.map (fun s => s.ID)).Nodup ∧
  ¬ HasCycle steps

/-- The edges of a graph: `v` is listed under `graph[u]`. -/
def GEdge (g : Graph) (u v : String) : Prop := v ∈ g.get u

/-- A node that is neither being visited nor finished. -/
def isWhite (vis : Visited) (x : String) : Bool := vis x != 1 && vis x != 2

/-- The number of unvisited entries of a node list. -/
def whiteCount (nodes : List String) (vis : Visited) : Nat := nodes.countP (isWhite vis)

/-- Every successor of a finished node is finished. -/
def BlackClosed (g : Graph) (vis : Visited) : Prop :=
  ∀ b, vis b = 2 → ∀ v ∈ g.get b, vis v = 2

/-- No finished node lies on a cycle. -/
def BlackAcyclic (g : Graph) (vis : Visited) : Prop :=
  ∀ b, vis b = 2 → ¬ Relation.TransGen (GEdge g) b b

/-- What a call of `dfs` that returns false guarantees: the two invariants hold, the nodes being visited are the same as before, and finished nodes stay finished. -/
def Post (g : Graph) (vis vis2 : Visited) : Prop :=
  BlackClosed g vis2 ∧ BlackAcyclic g vis2 ∧ (∀ x, vis2 x = 1 ↔ vis x = 1) ∧
    (∀ x, vis x = 2 → vis2 x = 2)

/-- The contract of `dfs` with fuel `n`: on a node of the graph, with fewer than `n` unvisited nodes, it returns; when it returns true and every node being visited reaches `u`, the graph has a cycle; when it returns false, `u` is finished and `Post` holds. -/
def DfsOK (g : Graph) (n : Nat) (f : String → Visited → Option (Bool × Visited)) : Prop :=
  ∀ u vis, u ∈ graphNodes g → whiteCount (graphNodes g) vis < n →
    BlackClosed g vis → BlackAcyclic g vis →
    ∃ b vis2, f u vis = some (b, vis2) ∧
      (b = true → (∀ x, vis x = 1 → Relation.TransGen (GEdge g) x u) →
        ∃ y, Relation.TransGen (GEdge g) y y) ∧
      (b = false → Post g vis vis2 ∧ vis2 u = 2)

/-- The graph of a step list with distinct ids: each id with the dependencies of its step. -/
def stepGraph (steps : List WorkflowStep) : Graph :=
  steps.map (fun s => (s.ID, s.DependsOn))

/-- The id, name and type of a step are non-blank after `strings.TrimSpace`. -/
def StepFieldsPresent (s : WorkflowStep) : Prop :=
  TrimSpace s.ID ≠ "" ∧ TrimSpace s.Name ≠ "" ∧ TrimSpace s.StepType ≠ ""

/-- One possible iteration order of a map: its keys in reverse order of insertion. -/
def reverseOrder (g : Graph) : List String := (g.map Prod.fst).reverse

/-- Three steps with an acyclic dependency graph; `lint` is a dependency no step declares. -/
def exampleSteps : List WorkflowStep :=
  [{ ID := "build", Name := "Build", StepType := "task", DependsOn := [] },
   { ID := "test", Name := "Test", StepType := "task", DependsOn := ["build", "lint"] },
   { ID := "deploy", Name := "Deploy", StepType := "task", DependsOn := ["test", "build"] }]

/-- Three steps whose dependencies form the cycle a, b, c, a. -/
def cyclicSteps : List WorkflowStep :=
  [{ ID := "a", Name := "A", StepType := "task", DependsOn := ["b"] },
   { ID := "b", Name := "B", StepType := "task", DependsOn := ["c"] },
   { ID := "c", Name := "C", StepType := "task", DependsOn := ["a"] }]

/-! ## Theorems -/

/-! ### Lemmas on characters, header maps and the two copy loops -/

/-- A character whose lower case is ASCII is ASCII. -/
theorem isASCII_of_toLower (c : Char) (h : isASCII c.toLower = true) : isASCII c = true := by
  unfold Char.toLower at h
  simp only [isASCII, decide_eq_true_eq] at h ⊢
  split at h
  · omega
  · exact h

/-- A string whose lower-casing is ASCII is ASCII. -/
theorem all_isASCII_of_map_toLower (cs hs : List Char) (h : cs.map Char.toLower = hs)
    (hh : hs.all isASCII = true) : cs.all isASCII = true := by
  subst h
  simp only [List.all_eq_true, List.mem_map, forall_exists_index, and_imp,
    forall_apply_eq_imp_iff₂] at hh ⊢
  intro c hc
  exact isASCII_of_toLower c (hh c hc)

/-- The eight names are ASCII and already in lower case. -/
theorem hopByHopNames_lower : ∀ hop ∈ hopByHopNames,
    hop.data.all isASCII = true ∧ hop.data.map Char.toLower = hop.data := by
  decide

/-- The switch of `isHopByHopHeader` is membership of the lowered name in the list of eight. -/
theorem isHopByHopHeader_eq (f : Char → Char) (s : String) :
    isHopByHopHeader f s = decide (ToLower f s ∈ hopByHopNames) := by
  unfold isHopByHopHeader
  split <;> simp_all [hopByHopNames]

/-- On an ASCII string `strings.ToLower` takes the fast path. -/
theorem ToLower_ascii (f : Char → Char) (s : String) (h : s.data.all isASCII = true) :
    ToLower f s = ⟨s.data.map Char.toLower⟩ := by
  simp [ToLower, h]

/-- On an ASCII name the denylist test is exactly case-insensitive equality with one of the eight names. -/
theorem isHopByHopHeader_iff (f : Char → Char) (s : String) (h : s.data.all isASCII = true) :
    isHopByHopHeader f s = true ↔ IsHopByHopName s := by
  rw [isHopByHopHeader_eq, ToLower_ascii f s h, decide_eq_true_eq]
  unfold IsHopByHopName EqualFold
  constructor
  · intro hm
    refine ⟨_, hm, ?_⟩
    rw [(hopByHopNames_lower _ hm).2]
  · rintro ⟨hop, hm, he⟩
    rw [(hopByHopNames_lower _ hm).2] at he
    have : (⟨s.data.map Char.toLower⟩ : String) = hop := by
      rw [he]
    rw [this]; exact hm

/-- Every casing of a hop-by-hop name is ASCII. -/
theorem isASCII_of_isHopByHopName (s : String) (h : IsHopByHopName s) :
    s.data.all isASCII = true := by
  obtain ⟨hop, hm, he⟩ := h
  unfold EqualFold at he
  rw [(hopByHopNames_lower _ hm).2] at he
  exact all_isASCII_of_map_toLower _ _ he (hopByHopNames_lower _ hm).1

/-- Lowering a character twice is lowering it once. -/
theorem toLower_toLower (c : Char) : c.toLower.toLower = c.toLower := by
  by_cases h : c.toNat ≥ 65 ∧ c.toNat ≤ 90
  · have hc : c = Char.ofNat c.toNat := (Char.ofNat_toNat c).symm
    obtain ⟨h1, h2⟩ := h
    generalize c.toNat = n at hc h1 h2
    subst hc
    interval_cases n <;> decide
  · have : c.toLower = c := by simp [Char.toLower, h]
    rw [this, this]

/-- Raising then lowering a character is lowering it. -/
theorem toLower_toUpper (c : Char) : c.toUpper.toLower = c.toLower := by
  by_cases h : c.toNat ≥ 97 ∧ c.toNat ≤ 122
  · have hc : c = Char.ofNat c.toNat := (Char.ofNat_toNat c).symm
    obtain ⟨h1, h2⟩ := h
    generalize c.toNat = n at hc h1 h2
    subst hc
    interval_cases n <;> decide
  · have : c.toUpper = c := by simp [Char.toUpper, h]
    rw [this]

/-- The canonicalisation loop changes the case of letters only. -/
theorem map_toLower_canonicalFrom (cs : List Char) : ∀ b : Bool,
    (canonicalFrom b cs).map Char.toLower = cs.map Char.toLower := by
  induction cs with
  | nil => intro b; rfl
  | cons c cs ih =>
    intro b
    simp only [canonicalFrom, List.map_cons, ih]
    cases b <;> simp [toLower_toLower, toLower_toUpper]

/-- A key and its canonical form are equal up to case. -/
theorem equalFold_canonical (k : String) : EqualFold (CanonicalMIMEHeaderKey k) k := by
  unfold EqualFold CanonicalMIMEHeaderKey
  split
  · exact map_toLower_canonicalFrom _ _
  · rfl

/-- A key whose canonical form is a hop-by-hop name is a hop-by-hop name. -/
theorem isHopByHopName_canonical (k : String) (h : IsHopByHopName (CanonicalMIMEHeaderKey k)) :
    IsHopByHopName k := by
  obtain ⟨hop, hm, he⟩ := h
  exact ⟨hop, hm, (equalFold_canonical k).symm.trans he⟩
/-- Field-name bytes are ASCII. -/
theorem isASCII_of_validHeaderFieldByte (c : Char) (h : validHeaderFieldByte c = true) :
    isASCII c = true := by
  unfold validHeaderFieldByte at h
  simp only [isASCII, decide_eq_true_eq]
  simp only [List.contains_eq_any_beq, List.any_cons, List.any_nil, beq_iff_eq, Bool.or_false,
    Bool.or_eq_true, Bool.and_eq_true, decide_eq_true_eq] at h
  omega

/-- Lookup in a map with one more entry in front. -/
theorem lookup_cons_eq (k2 a : String) (vs : List String) (es : Header) :
    List.lookup k2 ((a, vs) :: es) = if k2 = a then some vs else List.lookup k2 es := by
  by_cases h : k2 = a
  · subst h; simp [List.lookup]
  · have : (k2 == a) = false := by simpa using h
    simp [List.lookup, this, h]

/-- Lookup after rewriting the values stored under `k`. -/
theorem lookup_map_update (k : String) (f : List String → List String) (k2 : String) :
    ∀ h : Header, List.lookup k2 (h.map (fun e => (e.1, if e.1 = k then f e.2 else e.2))) =
      if k2 = k then (List.lookup k2 h).map f else List.lookup k2 h := by
  intro h
  induction h with
  | nil => simp
  | cons e es ih =>
    obtain ⟨a, vs⟩ := e
    simp only [List.map_cons, lookup_cons_eq, ih]
    by_cases h2 : k2 = a
    · subst h2
      by_cases hak : k2 = k <;> simp [hak]
    · simp [h2]

/-- Lookup of an absent key. -/
theorem lookup_eq_none_of_not_mem_keys (k : String) :
    ∀ h : Header, k ∉ Header.keys h → List.lookup k h = none := by
  intro h
  induction h with
  | nil => simp
  | cons e es ih =>
    obtain ⟨a, vs⟩ := e
    intro hk
    simp only [Header.keys, List.map_cons, List.mem_cons, not_or] at hk
    rw [lookup_cons_eq, if_neg hk.1]
    exact ih hk.2

/-- Lookup of a present key. -/
theorem lookup_isSome_of_mem_keys (k : String) :
    ∀ h : Header, k ∈ Header.keys h → ∃ vs, List.lookup k h = some vs := by
  intro h
  induction h with
  | nil => simp [Header.keys]
  | cons e es ih =>
    obtain ⟨a, vs⟩ := e
    intro hk
    rw [lookup_cons_eq]
    by_cases hka : k = a
    · exact ⟨vs, by simp [hka]⟩
    · simp only [Header.keys, List.map_cons, List.mem_cons] at hk
      rw [if_neg hka]
      exact ih (hk.resolve_left hka)

/-- Lookup in two maps laid end to end. -/
theorem lookup_append (k : String) (h1 h2 : Header) :
    List.lookup k (h1 ++ h2) = (List.lookup k h1).orElse (fun _ => List.lookup k h2) := by
  induction h1 with
  | nil => simp
  | cons e es ih =>
    obtain ⟨a, vs⟩ := e
    rw [List.cons_append, lookup_cons_eq, lookup_cons_eq]
    by_cases hka : k = a
    · simp [hka]
    · simp only [hka, if_false]
      exact ih

/-- The values of a map after `h[k] = f(h[k])`. -/
theorem values_update (h : Header) (k : String) (f : List String → List String) (k2 : String) :
    Header.values (Header.update h k f) k2 =
      if k2 = k then f (Header.values h k) else Header.values h k2 := by
  unfold Header.update Header.values
  by_cases hk : k ∈ Header.keys h
  · have hc : (Header.keys h).contains k = true := by simpa using hk
    rw [if_pos hc, lookup_map_update]
    by_cases h2 : k2 = k
    · subst h2
      obtain ⟨vs, hvs⟩ := lookup_isSome_of_mem_keys k2 h hk
      simp [hvs]
    · simp [h2]
  · have hc : ¬ (Header.keys h).contains k = true := by simpa using hk
    rw [if_neg hc, lookup_append]
    by_cases h2 : k2 = k
    · subst h2
      simp [lookup_eq_none_of_not_mem_keys k2 h hk, lookup_cons_eq]
    · simp only [h2, if_false, lookup_cons_eq]
      cases List.lookup k2 h <;> simp

/-- The keys of a map after `h[k] = f(h[k])`. -/
theorem mem_keys_update (h : Header) (k : String) (f : List String → List String) (k2 : String) :
    k2 ∈ Header.keys (Header.update h k f) ↔ k2 = k ∨ k2 ∈ Header.keys h := by
  unfold Header.update
  by_cases hk : k ∈ Header.keys h
  · have hc : (Header.keys h).contains k = true := by simpa using hk
    rw [if_pos hc]
    have : Header.keys (h.map (fun e => (e.1, if e.1 = k then f e.2 else e.2))) = Header.keys h := by
      unfold Header.keys
      rw [List.map_map]
      rfl
    rw [this]
    constructor
    · exact Or.inr
    · rintro (h2 | h2)
      · rw [h2]; exact hk
      · exact h2
  · have hc : ¬ (Header.keys h).contains k = true := by simpa using hk
    rw [if_neg hc]
    simp [Header.keys, or_comm]

/-- The values of a map after `Del`. -/
theorem values_Del (h : Header) (key k2 : String) :
    Header.values (Header.Del h key) k2 =
      if k2 = CanonicalMIMEHeaderKey key then [] else Header.values h k2 := by
  unfold Header.Del Header.values
  induction h with
  | nil => simp
  | cons e es ih =>
    obtain ⟨a, vs⟩ := e
    by_cases ha : a = CanonicalMIMEHeaderKey key
    · have hd : decide (a ≠ CanonicalMIMEHeaderKey key) = false := by simpa using ha
      rw [List.filter_cons_of_neg (by simpa using ha), ih, lookup_cons_eq]
      by_cases h2 : k2 = CanonicalMIMEHeaderKey key
      · simp [h2]
      · have h3 : ¬ k2 = a := by rw [ha]; exact h2
        simp [h2, h3]
    · rw [List.filter_cons_of_pos (by simpa using ha), lookup_cons_eq, lookup_cons_eq]
      by_cases h2 : k2 = a
      · subst h2
        simp [ha]
      · simp only [h2, if_false]
        exact ih
/-- Adding the values of one header changes no other field of the outbound request. -/
theorem addValues_fields (key : String) (vs : List String) : ∀ req : ProxyRequest,
    let r := vs.foldl (fun req value => { req with header := Header.Add req.header key value }) req
    r.method = req.method ∧ r.url = req.url ∧ r.body = req.body := by
  induction vs with
  | nil => intro req; simp
  | cons v vs ih =>
    intro req
    simp only [List.foldl_cons]
    have := ih { req with header := Header.Add req.header key v }
    simpa using this

/-- Adding the values of one header appends them under its canonical key and touches no other key. -/
theorem addValues_values (key k2 : String) (vs : List String) : ∀ req : ProxyRequest,
    Header.values (vs.foldl (fun req value =>
        { req with header := Header.Add req.header key value }) req).header k2 =
      if k2 = CanonicalMIMEHeaderKey key then Header.values req.header k2 ++ vs
      else Header.values req.header k2 := by
  induction vs with
  | nil => intro req; simp
  | cons v vs ih =>
    intro req
    simp only [List.foldl_cons]
    rw [ih]
    simp only [Header.Add, values_update]
    by_cases h : k2 = CanonicalMIMEHeaderKey key
    · subst h; simp
    · simp [h]

/-- Adding the values of one header creates at most its canonical key. -/
theorem addValues_keys (key k2 : String) (vs : List String) : ∀ req : ProxyRequest,
    k2 ∈ Header.keys (vs.foldl (fun req value =>
        { req with header := Header.Add req.header key value }) req).header →
      (k2 = CanonicalMIMEHeaderKey key ∧ vs ≠ []) ∨ k2 ∈ Header.keys req.header := by
  induction vs with
  | nil => intro req h; exact Or.inr h
  | cons v vs ih =>
    intro req h
    simp only [List.foldl_cons] at h
    rcases ih _ h with h1 | h1
    · exact Or.inl ⟨h1.1, by simp⟩
    · simp only [Header.Add, mem_keys_update] at h1
      rcases h1 with h1 | h1
      · exact Or.inl ⟨h1, by simp⟩
      · exact Or.inr h1

/-- The request header loop changes the header map only. -/
theorem copyRequestHeaders_fields (f : Char → Char) (inbound : Header) : ∀ req : ProxyRequest,
    (copyRequestHeaders f inbound req).method = req.method ∧
    (copyRequestHeaders f inbound req).url = req.url ∧
    (copyRequestHeaders f inbound req).body = req.body := by
  unfold copyRequestHeaders
  induction inbound with
  | nil => intro req; simp
  | cons e es ih =>
    intro req
    simp only [List.foldl_cons]
    split
    · have h1 := addValues_fields e.1 e.2 req
      have h2 := ih (e.2.foldl (fun req value =>
        { req with header := Header.Add req.header e.1 value }) req)
      simp only at h1
      rw [h2.1, h2.2.1, h2.2.2]
      exact h1
    · exact ih req

/-- The values under an outbound key after the request header loop. -/
theorem copyRequestHeaders_values (f : Char → Char) (k2 : String) (inbound : Header) :
    ∀ req : ProxyRequest,
    Header.values (copyRequestHeaders f inbound req).header k2 =
      Header.values req.header k2 ++ forwardedValues f k2 inbound := by
  unfold copyRequestHeaders
  induction inbound with
  | nil => intro req; simp [forwardedValues]
  | cons e es ih =>
    intro req
    simp only [List.foldl_cons, forwardedValues]
    by_cases hh : isHopByHopHeader f e.1 = true
    · simp only [hh, Bool.not_true, Bool.false_and, Bool.false_eq_true, if_false,
        List.nil_append]
      exact ih req
    · simp only [Bool.not_eq_true] at hh
      simp only [hh, Bool.not_false, if_true, Bool.true_and, beq_iff_eq]
      rw [ih, addValues_values]
      by_cases hk : CanonicalMIMEHeaderKey e.1 = k2
      · simp [hk]
      · have : ¬ k2 = CanonicalMIMEHeaderKey e.1 := fun h => hk h.symm
        simp [hk, this]

/-- Every outbound key was there before the loop or is the canonical form of an inbound key off the denylist. -/
theorem copyRequestHeaders_keys (f : Char → Char) (k2 : String) (inbound : Header) :
    ∀ req : ProxyRequest,
    k2 ∈ Header.keys (copyRequestHeaders f inbound req).header →
      k2 ∈ Header.keys req.header ∨
      ∃ e ∈ inbound, isHopByHopHeader f e.1 = false ∧ CanonicalMIMEHeaderKey e.1 = k2 := by
  unfold copyRequestHeaders
  induction inbound with
  | nil => intro req h; exact Or.inl h
  | cons e es ih =>
    intro req h
    simp only [List.foldl_cons] at h
    by_cases hh : isHopByHopHeader f e.1 = true
    · simp only [hh, Bool.not_true, Bool.false_eq_true, if_false] at h
      rcases ih req h with h1 | ⟨e2, he2, h2⟩
      · exact Or.inl h1
      · exact Or.inr ⟨e2, List.mem_cons_of_mem _ he2, h2⟩
    · simp only [Bool.not_eq_true] at hh
      simp only [hh, Bool.not_false, if_true] at h
      rcases ih _ h with h1 | ⟨e2, he2, h2⟩
      · rcases addValues_keys _ _ _ _ h1 with h3 | h3
        · exact Or.inr ⟨e, List.mem_cons_self _ _, hh, h3.1.symm⟩
        · exact Or.inl h3
      · exact Or.inr ⟨e2, List.mem_cons_of_mem _ he2, h2⟩

/-- Nothing is forwarded under a key that no canonical inbound key equals. -/
theorem forwardedValues_of_not_mem (f : Char → Char) (k : String) (h : Header)
    (hc : ∀ a ∈ Header.keys h, CanonicalMIMEHeaderKey a = a) (hk : k ∉ Header.keys h) :
    forwardedValues f k h = [] := by
  induction h with
  | nil => rfl
  | cons e es ih =>
    simp only [Header.keys, List.map_cons, List.mem_cons, not_or, forall_eq_or_imp] at hc hk
    simp only [forwardedValues]
    rw [ih hc.2 hk.2, hc.1]
    have : ¬ e.1 = k := fun h => hk.1 h.symm
    simp [this]

/-- From a well-formed inbound map the loop forwards, under each key, nothing when the key is on the denylist and the inbound values otherwise. -/
theorem forwardedValues_wellFormed (f : Char → Char) (k : String) (h : Header)
    (hw : Header.WellFormed h) :
    forwardedValues f k h = if isHopByHopHeader f k = true then [] else Header.values h k := by
  obtain ⟨hnd, hc⟩ := hw
  induction h with
  | nil => simp [forwardedValues, Header.values]
  | cons e es ih =>
    obtain ⟨a, vs⟩ := e
    simp only [Header.keys, List.map_cons, List.nodup_cons, List.mem_cons,
      forall_eq_or_imp] at hnd hc
    simp only [forwardedValues, Header.values, lookup_cons_eq]
    rw [hc.1.2]
    by_cases hak : a = k
    · subst hak
      rw [forwardedValues_of_not_mem f a es (fun b hb => (hc.2 b hb).2) hnd.1]
      by_cases hh : isHopByHopHeader f a = true <;> simp [hh]
    · have : ¬ k = a := fun h => hak h.symm
      rw [ih hnd.2 hc.2]
      simp [hak, this, Header.values]

/-- Writing the values of one backend header changes the client header map only. -/
theorem setValues_eq (key : String) (vs : List String) : ∀ c : Context,
    vs.foldl (fun c value => c.Header key value) c =
      { c with header := writtenValues key vs c.header } := by
  induction vs with
  | nil => intro c; rfl
  | cons v vs ih =>
    intro c
    simp only [List.foldl_cons, writtenValues]
    rw [ih (c.Header key v)]
    rfl

/-- The response header loop changes the client header map only. -/
theorem copyResponseHeaders_eq (f : Char → Char) (h : Header) : ∀ c : Context,
    copyResponseHeaders f h c = { c with header := copiedResponseHeader f h c.header } := by
  unfold copyResponseHeaders copiedResponseHeader
  induction h with
  | nil => intro c; rfl
  | cons e es ih =>
    intro c
    simp only [List.foldl_cons]
    split
    · rw [setValues_eq, ih]
    · exact ih c

/-- Writing the values of one backend header touches no other key. -/
theorem writtenValues_values_of_ne (key k2 : String) (hk : k2 ≠ CanonicalMIMEHeaderKey key)
    (vs : List String) : ∀ h : Header,
    Header.values (writtenValues key vs h) k2 = Header.values h k2 := by
  unfold writtenValues
  induction vs with
  | nil => intro h; rfl
  | cons v vs ih =>
    intro h
    simp only [List.foldl_cons]
    rw [ih]
    split
    · rw [values_Del, if_neg hk]
    · rw [Header.Set, values_update, if_neg hk]

/-- The response header loop never writes under a hop-by-hop name. -/
theorem copiedResponseHeader_values_of_hop (f : Char → Char) (name : String)
    (hn : IsHopByHopName name) (rh : Header) : ∀ h : Header,
    Header.values (copiedResponseHeader f rh h) name = Header.values h name := by
  unfold copiedResponseHeader
  induction rh with
  | nil => intro h; rfl
  | cons e es ih =>
    intro h
    simp only [List.foldl_cons]
    by_cases hh : isHopByHopHeader f e.1 = true
    · simp only [hh, Bool.not_true, Bool.false_eq_true, if_false]
      exact ih h
    · simp only [Bool.not_eq_true] at hh
      simp only [hh, Bool.not_false, if_true]
      rw [ih]
      apply writtenValues_values_of_ne
      intro heq
      have h1 : IsHopByHopName e.1 := isHopByHopName_canonical e.1 (heq ▸ hn)
      have h2 := (isHopByHopHeader_iff f e.1 (isASCII_of_isHopByHopName e.1 h1)).mpr h1
      rw [h2] at hh
      exact Bool.noConfusion hh

/-- The handler on the path where the backend call returns a response. -/
theorem ProxyToAdapter_ok (f : Char → Char) (backend : Backend) (targetURL : String)
    (c : Context) (resp : BackendResponse)
    (hnew : backend.newRequestFails c.request.method (proxyURL targetURL c) = false)
    (hdo : backend.Do (outboundRequest f targetURL c) = .ok resp) :
    ProxyToAdapter f backend targetURL c =
      { c with
        header := copiedResponseHeader f resp.header c.header
        status := resp.statusCode
        body := c.body ++ [Payload.raw resp.body]
        backendCalls := c.backendCalls ++ [outboundRequest f targetURL c] } := by
  unfold ProxyToAdapter
  simp only [hnew, Bool.false_eq_true, if_false, hdo]
  rw [copyResponseHeaders_eq]
  rfl

/-- The handler on the path where the backend call fails. -/
theorem ProxyToAdapter_transportError (f : Char → Char) (backend : Backend)
    (targetURL : String) (c : Context) (err : String)
    (hnew : backend.newRequestFails c.request.method (proxyURL targetURL c) = false)
    (hdo : backend.Do (outboundRequest f targetURL c) = .error err) :
    ProxyToAdapter f backend targetURL c =
      (c.logDo (outboundRequest f targetURL c)).JSON 502 [("error", "adapter unavailable")] := by
  unfold ProxyToAdapter
  simp only [hnew, Bool.false_eq_true, if_false, hdo]

/-- The handler on the path where the outbound request cannot be built. -/
theorem ProxyToAdapter_newRequestError (f : Char → Char) (backend : Backend)
    (targetURL : String) (c : Context)
    (hnew : backend.newRequestFails c.request.method (proxyURL targetURL c) = true) :
    ProxyToAdapter f backend targetURL c =
      c.JSON 500 [("error", "failed to create proxy request")] := by
  unfold ProxyToAdapter
  simp only [hnew, if_true]

/-- What `c.JSON` sets and what it leaves alone. -/
theorem JSON_fields (c : Context) (code : Int) (obj : H) :
    (c.JSON code obj).status = code ∧ (c.JSON code obj).body = c.body ++ [Payload.json obj] ∧
    (c.JSON code obj).backendCalls = c.backendCalls ∧
    (c.JSON code obj).tokenizerCalls = c.tokenizerCalls ∧
    (c.JSON code obj).aborted = c.aborted ∧ (c.JSON code obj).keys = c.keys := by
  unfold Context.JSON Context.Write Context.Status
  simp only
  split <;> simp

/-! ### The claims -/

/-- C1: `ResolveAdapterURL` is the table of the specification: the override
variable when set and non-empty, else the default, for the two adapter names,
and `("", "unknown model")` for every other model string. -/
theorem ResolveAdapterURL_eq_spec (env : String → Option String) (model : String) :
    ResolveAdapterURL env model = resolveSpec env model := by
  unfold ResolveAdapterURL resolveSpec Getenv
  split
  · cases h : env "ADAPTER_A_URL" <;> simp
  · cases h : env "ADAPTER_B_URL" <;> simp
  · simp_all

/-- C2: a header name that equals one of the eight hop-by-hop names up to case
is on the denylist (`isHopByHopHeader` is true for every casing), is never a
key of the outbound request that `ProxyToAdapter` builds, and the copy of the
backend response headers never writes under it: the client response holds
under that name exactly what it held before the handler ran. -/
theorem hopByHop_never_copied (unicodeToLower : Char → Char) (name : String)
    (hname : IsHopByHopName name) :
    isHopByHopHeader unicodeToLower name = true ∧
    (∀ (targetURL : String) (c : Context),
      name ∉ Header.keys (outboundRequest unicodeToLower targetURL c).header) ∧
    (∀ (backend : Backend) (targetURL : String) (c : Context) (resp : BackendResponse),
      backend.newRequestFails c.request.method (proxyURL targetURL c) = false →
      backend.Do (outboundRequest unicodeToLower targetURL c) = .ok resp →
      Header.values (ProxyToAdapter unicodeToLower backend targetURL c).header name =
        Header.values c.header name) := by
  have hascii := isASCII_of_isHopByHopName name hname
  refine ⟨(isHopByHopHeader_iff _ name hascii).mpr hname, ?_, ?_⟩
  · intro targetURL c hmem
    rcases copyRequestHeaders_keys _ _ _ _ hmem with h1 | ⟨e, _, he, hk⟩
    · simp [NewRequest, Header.keys] at h1
    · have h1 : IsHopByHopName e.1 := isHopByHopName_canonical e.1 (hk ▸ hname)
      have h2 := (isHopByHopHeader_iff unicodeToLower e.1
        (isASCII_of_isHopByHopName e.1 h1)).mpr h1
      rw [h2] at he
      exact Bool.noConfusion he
  · intro backend targetURL c resp hnew hdo
    rw [ProxyToAdapter_ok _ _ _ _ _ hnew hdo]
    exact copiedResponseHeader_values_of_hop _ _ hname _ _

/-- Witness for C2 at the name `Keep-ALIVE` and the example request. -/
theorem hopByHop_never_copied_witness :
    IsHopByHopName "Keep-ALIVE" ∧ isHopByHopHeader id "Keep-ALIVE" = true ∧
    "Keep-ALIVE" ∉ Header.keys (outboundRequest id "http://localhost:8081" exampleContext).header :=
  ⟨by decide, (hopByHop_never_copied id "Keep-ALIVE" (by decide)).1,
    (hopByHop_never_copied id "Keep-ALIVE" (by decide)).2.1 _ _⟩

/-- C3: for every inbound request as `net/http` delivers it, the outbound
request of `ProxyToAdapter` has the same method and the same body bytes, has
under every name that is not hop-by-hop exactly the inbound list of values in
the inbound order, has no key the inbound request lacks, and is the request
passed to the backend. -/
theorem outboundRequest_preserves (unicodeToLower : Char → Char) (targetURL : String)
    (c : Context) (hc : Request.WellFormed c.request) :
    (outboundRequest unicodeToLower targetURL c).method = c.request.method ∧
    (outboundRequest unicodeToLower targetURL c).body = c.request.body ∧
    (∀ name : String, ¬ IsHopByHopName name →
      Header.values (outboundRequest unicodeToLower targetURL c).header name =
        Header.values c.request.header name) ∧
    (∀ name : String, name ∈ Header.keys (outboundRequest unicodeToLower targetURL c).header →
      name ∈ Header.keys c.request.header) ∧
    (∀ backend : Backend,
      backend.newRequestFails c.request.method (proxyURL targetURL c) = false →
      (ProxyToAdapter unicodeToLower backend targetURL c).backendCalls =
        c.backendCalls ++ [outboundRequest unicodeToLower targetURL c]) := by
  obtain ⟨hm, hw⟩ := hc
  have hf := copyRequestHeaders_fields unicodeToLower c.request.header
    (NewRequest c.request.method (proxyURL targetURL c) c.request.body)
  refine ⟨?_, ?_, ?_, ?_, ?_⟩
  · unfold outboundRequest
    rw [hf.1]
    simp [NewRequest, hm]
  · unfold outboundRequest
    rw [hf.2.2]
    rfl
  · intro name hname
    unfold outboundRequest
    rw [copyRequestHeaders_values, forwardedValues_wellFormed _ _ _ hw]
    by_cases hmem : name ∈ Header.keys c.request.header
    · have hascii : name.data.all isASCII = true := by
        have hv := (hw.2 name hmem).1
        rw [List.all_eq_true] at hv ⊢
        exact fun ch hch => isASCII_of_validHeaderFieldByte ch (hv ch hch)
      have : ¬ isHopByHopHeader unicodeToLower name = true :=
        fun h => hname ((isHopByHopHeader_iff _ name hascii).mp h)
      simp [this, NewRequest, Header.values]
    · have : Header.values c.request.header name = [] := by
        simp [Header.values, lookup_eq_none_of_not_mem_keys name _ hmem]
      rw [this]
      simp [NewRequest, Header.values]
  · intro name hmem
    rcases copyRequestHeaders_keys _ _ _ _ hmem with h1 | ⟨e, he, _, hk⟩
    · simp [NewRequest, Header.keys] at h1
    · have hek : e.1 ∈ Header.keys c.request.header := List.mem_map_of_mem _ he
      rw [← hk, (hw.2 e.1 hek).2]
      exact hek
  · intro backend hnew
    cases hdo : backend.Do (outboundRequest unicodeToLower targetURL c) with
    | ok resp => rw [ProxyToAdapter_ok _ _ _ _ _ hnew hdo]
    | error err =>
      rw [ProxyToAdapter_transportError _ _ _ _ _ hnew hdo, (JSON_fields _ _ _).2.2.1]
      rfl

/-- Witness for C3 at the example request, whose `Accept` header has two values. -/
theorem outboundRequest_preserves_witness :
    Request.WellFormed exampleContext.request ∧
    (outboundRequest id "http://localhost:8081" exampleContext).method = "POST" ∧
    (outboundRequest id "http://localhost:8081" exampleContext).body = some [104, 105] ∧
    Header.values (outboundRequest id "http://localhost:8081" exampleContext).header "Accept"
      = ["a/b", "c/d"] :=
  ⟨by decide,
   (outboundRequest_preserves id "http://localhost:8081" exampleContext (by decide)).1,
   (outboundRequest_preserves id "http://localhost:8081" exampleContext (by decide)).2.1,
   (outboundRequest_preserves id "http://localhost:8081" exampleContext (by decide)).2.2.1
     "Accept" (by decide)⟩

/-- C4: the code at a backend response with two `Set-Cookie` values.  The
header is not hop-by-hop and the backend sent `a=1` and `b=2`, yet the client
response holds `b=2` only: each `c.Header` call replaces the values written
before it. -/
theorem multiValued_response_header_lost :
    Header.WellFormed exampleResponse.header ∧
    ¬ IsHopByHopName "Set-Cookie" ∧
    Header.values exampleResponse.header "Set-Cookie" = ["a=1", "b=2"] ∧
    Header.values (ProxyToAdapter id exampleBackend "http://localhost:8081"
      exampleContext).header "Set-Cookie" = ["b=2"] ∧
    "a=1" ∉ Header.values (ProxyToAdapter id exampleBackend "http://localhost:8081"
      exampleContext).header "Set-Cookie" := by
  decide

/-- C5: whenever the backend call returns a response, whatever its status code,
the status of the client response is the backend status and the bytes the
handler writes to the client are the backend body bytes. -/
theorem ProxyToAdapter_passes_status_and_body (unicodeToLower : Char → Char)
    (backend : Backend) (targetURL : String) (c : Context) (resp : BackendResponse)
    (hnew : backend.newRequestFails c.request.method (proxyURL targetURL c) = false)
    (hdo : backend.Do (outboundRequest unicodeToLower targetURL c) = .ok resp) :
    (ProxyToAdapter unicodeToLower backend targetURL c).status = resp.statusCode ∧
    (ProxyToAdapter unicodeToLower backend targetURL c).body =
      c.body ++ [Payload.raw resp.body] := by
  rw [ProxyToAdapter_ok _ _ _ _ _ hnew hdo]
  exact ⟨rfl, rfl⟩

/-- Witness for C5 at a backend answering 503 with a two-byte body. -/
theorem ProxyToAdapter_passes_status_and_body_witness :
    exampleBackend.newRequestFails exampleContext.request.method
      (proxyURL "http://localhost:8081" exampleContext) = false ∧
    exampleBackend.Do (outboundRequest id "http://localhost:8081" exampleContext)
      = .ok exampleResponse ∧
    (ProxyToAdapter id exampleBackend "http://localhost:8081" exampleContext).status = 503 ∧
    (ProxyToAdapter id exampleBackend "http://localhost:8081" exampleContext).body =
      [Payload.raw [111, 107]] :=
  ⟨rfl, rfl,
   ProxyToAdapter_passes_status_and_body id exampleBackend "http://localhost:8081"
     exampleContext exampleResponse rfl rfl⟩

/-- C7: when the outbound request cannot be constructed the handler answers 500
with the JSON error `failed to create proxy request` and makes no backend
call; otherwise it makes exactly one backend call, and when that call fails at
transport level it answers 502 with the JSON error `adapter unavailable`. -/
theorem ProxyToAdapter_failures (unicodeToLower : Char → Char) (backend : Backend)
    (targetURL : String) (c : Context) :
    (backend.newRequestFails c.request.method (proxyURL targetURL c) = true →
      (ProxyToAdapter unicodeToLower backend targetURL c).status = 500 ∧
      (ProxyToAdapter unicodeToLower backend targetURL c).body =
        c.body ++ [Payload.json [("error", "failed to create proxy request")]] ∧
      (ProxyToAdapter unicodeToLower backend targetURL c).backendCalls = c.backendCalls) ∧
    (backend.newRequestFails c.request.method (proxyURL targetURL c) = false →
      (ProxyToAdapter unicodeToLower backend targetURL c).backendCalls =
        c.backendCalls ++ [outboundRequest unicodeToLower targetURL c] ∧
      ∀ err : String,
        backend.Do (outboundRequest unicodeToLower targetURL c) = .error err →
        (ProxyToAdapter unicodeToLower backend targetURL c).status = 502 ∧
        (ProxyToAdapter unicodeToLower backend targetURL c).body =
          c.body ++ [Payload.json [("error", "adapter unavailable")]]) := by
  refine ⟨fun hnew => ?_, fun hnew => ⟨?_, fun err hdo => ?_⟩⟩
  · rw [ProxyToAdapter_newRequestError _ _ _ _ hnew]
    have := JSON_fields c 500 [("error", "failed to create proxy request")]
    exact ⟨this.1, this.2.1, this.2.2.1⟩
  · cases hdo : backend.Do (outboundRequest unicodeToLower targetURL c) with
    | ok resp => rw [ProxyToAdapter_ok _ _ _ _ _ hnew hdo]
    | error err =>
      rw [ProxyToAdapter_transportError _ _ _ _ _ hnew hdo, (JSON_fields _ _ _).2.2.1]
      rfl
  · rw [ProxyToAdapter_transportError _ _ _ _ _ hnew hdo]
    have := JSON_fields (c.logDo (outboundRequest unicodeToLower targetURL c)) 502
      [("error", "adapter unavailable")]
    exact ⟨this.1, this.2.1⟩

/-- Witness for C7 at an unparsable URL and at a backend refusing connections. -/
theorem ProxyToAdapter_failures_witness :
    ((ProxyToAdapter id downBackend "http://localhost:8081" badPathContext).status = 500 ∧
     (ProxyToAdapter id downBackend "http://localhost:8081" badPathContext).backendCalls = []) ∧
    ((ProxyToAdapter id downBackend "http://localhost:8081" exampleContext).status = 502 ∧
     (ProxyToAdapter id downBackend "http://localhost:8081" exampleContext).body =
       [Payload.json [("error", "adapter unavailable")]]) :=
  ⟨⟨((ProxyToAdapter_failures id downBackend "http://localhost:8081"
        badPathContext).1 (by decide)).1,
    ((ProxyToAdapter_failures id downBackend "http://localhost:8081"
        badPathContext).1 (by decide)).2.2⟩,
   ((ProxyToAdapter_failures id downBackend "http://localhost:8081" exampleContext).2
      (by decide)).2 "connection refused" rfl⟩

/-- The characters of `"Bearer " ++ token`. -/
theorem bearer_data (token : String) :
    ("Bearer " ++ token).data = 'B' :: 'e' :: 'a' :: 'r' :: 'e' :: 'r' :: ' ' :: token.data := by
  rw [String.data_append]; rfl

/-- The test of `JwtOrAPIKeyMiddleware` decides the bearer form. -/
theorem wellFormedBearer_iff (auth : String) :
    WellFormedBearer auth ↔ (auth.data.length > 7 ∧ auth.data.take 7 = "Bearer ".data) := by
  constructor
  · rintro ⟨token, hne, rfl⟩
    rw [bearer_data]
    obtain ⟨ts⟩ := token
    cases ts with
    | nil => exact absurd rfl hne
    | cons t ts => exact ⟨by simp, rfl⟩
  · rintro ⟨hlen, htake⟩
    refine ⟨⟨auth.data.drop 7⟩, ?_, ?_⟩
    · intro h
      have h2 : (auth.data.drop 7).length = 0 := by
        have := congrArg String.data h
        simp only at this
        rw [this]; rfl
      rw [List.length_drop] at h2
      omega
    · apply String.ext
      rw [String.data_append, ← htake]
      exact (List.take_append_drop 7 auth.data).symm

/-- `strings.HasPrefix` and `strings.TrimPrefix` on `"Bearer " ++ token`. -/
theorem hasPrefix_bearer (token : String) :
    HasPrefix ("Bearer " ++ token) "Bearer " = true ∧
    TrimPrefix ("Bearer " ++ token) "Bearer " = token := by
  have hp : HasPrefix ("Bearer " ++ token) "Bearer " = true := by
    unfold HasPrefix
    rw [bearer_data]
    have : "Bearer ".data = ['B', 'e', 'a', 'r', 'e', 'r', ' '] := rfl
    rw [this]
    simp [List.isPrefixOf]
  refine ⟨hp, ?_⟩
  unfold TrimPrefix
  rw [if_pos hp, bearer_data]
  rfl

/-- A key just set is read back. -/
theorem Set_Get (c : Context) (key value : String) : (c.Set key value).Get key = some value := by
  simp [Context.Set, Context.Get, List.lookup]

/-- C8, as amended: for an `Authorization` header `Bearer ` followed by a token
that the tokenizer validates to a non-empty user id, whatever the `x-api-key`
header and the service key, `JwtOrAPIKeyMiddleware` passes the request on with
the user id stored under `userID` when the token is not empty, and
`AdapterProxyAuth` does so when the request is not a `GET` to the health path;
on a `GET` to the health path `AdapterProxyAuth` passes the context on
unchanged. -/
theorem bearer_precedence (tokenizer : Tokenizer) (serviceKey healthPath : String)
    (next : Context → Context) (c : Context) (token userID : String)
    (hauth : c.GetHeader "Authorization" = "Bearer " ++ token)
    (hvalid : tokenizer.ValidateToken token = (userID, none))
    (huser : userID ≠ "") :
    (token ≠ "" →
      JwtOrAPIKeyMiddleware tokenizer serviceKey next c =
        next ((c.logValidateToken token).Set "userID" userID)) ∧
    (¬ (c.request.method = "GET" ∧ c.request.path = healthPath) →
      AdapterProxyAuth tokenizer serviceKey healthPath next c =
        next ((c.logValidateToken token).Set "userID" userID)) ∧
    ((c.request.method = "GET" ∧ c.request.path = healthPath) →
      AdapterProxyAuth tokenizer serviceKey healthPath next c = next c) ∧
    ((c.logValidateToken token).Set "userID" userID).Get "userID" = some userID ∧
    ((c.logValidateToken token).Set "userID" userID).request = c.request ∧
    ((c.logValidateToken token).Set "userID" userID).aborted = c.aborted := by
  refine ⟨fun htok => ?_, fun hby => ?_, fun hby => ?_, Set_Get _ _ _, rfl, rfl⟩
  · have hwf : WellFormedBearer (c.GetHeader "Authorization") := ⟨token, htok, hauth⟩
    have hform := (wellFormedBearer_iff _).mp hwf
    have hne : c.GetHeader "Authorization" ≠ "" := by
      intro h
      rw [h] at hform
      simp at hform
    have hdrop : (⟨(c.GetHeader "Authorization").data.drop 7⟩ : String) = token := by
      rw [hauth, bearer_data]; rfl
    unfold JwtOrAPIKeyMiddleware
    simp only [hne, ne_eq, not_false_eq_true, if_true, hform, and_self, hdrop, hvalid, huser]
  · unfold AdapterProxyAuth
    simp only [hby, if_false, hauth, (hasPrefix_bearer token).1, (hasPrefix_bearer token).2,
      if_true, hvalid, huser, ne_eq, not_false_eq_true, and_self]
  · unfold AdapterProxyAuth
    simp only [hby, and_self, if_true]

/-- Witness for C8 at the token `good` with a non-matching `x-api-key`. -/
theorem bearer_precedence_witness :
    (contextWith "POST" "/v1/ai/complete"
      [("Authorization", ["Bearer good"]), ("X-Api-Key", ["wrong"])]).GetHeader "Authorization"
      = "Bearer " ++ "good" ∧
    exampleTokenizer.ValidateToken "good" = ("u1", none) ∧
    (JwtOrAPIKeyMiddleware exampleTokenizer "service-secret" id
      (contextWith "POST" "/v1/ai/complete"
        [("Authorization", ["Bearer good"]), ("X-Api-Key", ["wrong"])])).Get "userID" = some "u1" := by
  refine ⟨by decide, by decide, ?_⟩
  rw [(bearer_precedence exampleTokenizer "service-secret" "/v1/adapter-a/health" id
    (contextWith "POST" "/v1/ai/complete"
      [("Authorization", ["Bearer good"]), ("X-Api-Key", ["wrong"])]) "good" "u1"
    (by decide) (by decide) (by decide)).1 (by decide)]
  decide

/-- C8 as stated fails twice: `JwtOrAPIKeyMiddleware` rejects `Bearer ` with the
empty token although the tokenizer validates it, and `AdapterProxyAuth` on a
`GET` to the health path passes the request on without storing a user id. -/
theorem bearer_precedence_counterexample :
    ((contextWith "POST" "/v1/ai/complete" [("Authorization", ["Bearer "])]).GetHeader
        "Authorization" = "Bearer " ++ "" ∧
      acceptAllTokenizer.ValidateToken "" = ("u1", none) ∧
      (JwtOrAPIKeyMiddleware acceptAllTokenizer "service-secret" id
        (contextWith "POST" "/v1/ai/complete" [("Authorization", ["Bearer "])])).aborted = true ∧
      (JwtOrAPIKeyMiddleware acceptAllTokenizer "service-secret" id
        (contextWith "POST" "/v1/ai/complete" [("Authorization", ["Bearer "])])).status = 401 ∧
      (JwtOrAPIKeyMiddleware acceptAllTokenizer "service-secret" id
        (contextWith "POST" "/v1/ai/complete" [("Authorization", ["Bearer "])])).Get "userID"
        = none) ∧
    ((contextWith "GET" "/v1/adapter-a/health" [("Authorization", ["Bearer good"])]).GetHeader
        "Authorization" = "Bearer " ++ "good" ∧
      exampleTokenizer.ValidateToken "good" = ("u1", none) ∧
      (AdapterProxyAuth exampleTokenizer "service-secret" "/v1/adapter-a/health" id
        (contextWith "GET" "/v1/adapter-a/health" [("Authorization", ["Bearer good"])])).Get
        "userID" = none) := by
  decide

/-- C9: for a non-empty `Authorization` header that is not `Bearer ` plus a
non-empty token, whatever the service key and the `x-api-key` header,
`JwtOrAPIKeyMiddleware` aborts with 401 and the JSON error
`invalid authorization`, which differs from the `unauthorized` one, and makes
no call to the tokenizer. -/
theorem malformed_authorization_rejected (tokenizer : Tokenizer) (serviceKey : String)
    (next : Context → Context) (c : Context)
    (hpresent : c.GetHeader "Authorization" ≠ "")
    (hmalformed : ¬ WellFormedBearer (c.GetHeader "Authorization")) :
    JwtOrAPIKeyMiddleware tokenizer serviceKey next c =
      c.AbortWithStatusJSON 401 [("error", "invalid authorization")] ∧
    (JwtOrAPIKeyMiddleware tokenizer serviceKey next c).aborted = true ∧
    (JwtOrAPIKeyMiddleware tokenizer serviceKey next c).status = 401 ∧
    (JwtOrAPIKeyMiddleware tokenizer serviceKey next c).body =
      c.body ++ [Payload.json [("error", "invalid authorization")]] ∧
    (JwtOrAPIKeyMiddleware tokenizer serviceKey next c).tokenizerCalls = c.tokenizerCalls ∧
    Payload.json [("error", "invalid authorization")] ≠ Payload.json [("error", "unauthorized")] := by
  have hform := (not_congr (wellFormedBearer_iff _)).mp hmalformed
  have heq : JwtOrAPIKeyMiddleware tokenizer serviceKey next c =
      c.AbortWithStatusJSON 401 [("error", "invalid authorization")] := by
    unfold JwtOrAPIKeyMiddleware
    simp only [hpresent, ne_eq, not_false_eq_true, if_true, hform, if_false]
  have hj := JSON_fields c.Abort 401 [("error", "invalid authorization")]
  rw [heq]
  unfold Context.AbortWithStatusJSON
  exact ⟨rfl, hj.2.2.2.2.1, hj.1, hj.2.1, hj.2.2.2.1, by decide⟩

/-- Witness for C9 at `Basic abc` with an `x-api-key` equal to the service key. -/
theorem malformed_authorization_rejected_witness :
    (contextWith "POST" "/v1/ai/complete"
      [("Authorization", ["Basic abc"]), ("X-Api-Key", ["service-secret"])]).GetHeader
      "Authorization" = "Basic abc" ∧
    (contextWith "POST" "/v1/ai/complete"
      [("Authorization", ["Basic abc"]), ("X-Api-Key", ["service-secret"])]).GetHeader
      "x-api-key" = "service-secret" ∧
    (JwtOrAPIKeyMiddleware exampleTokenizer "service-secret" id
      (contextWith "POST" "/v1/ai/complete"
        [("Authorization", ["Basic abc"]), ("X-Api-Key", ["service-secret"])])).status = 401 :=
  ⟨by decide, by decide,
   (malformed_authorization_rejected exampleTokenizer "service-secret" id
      (contextWith "POST" "/v1/ai/complete"
        [("Authorization", ["Basic abc"]), ("X-Api-Key", ["service-secret"])])
      (by decide) (by rw [wellFormedBearer_iff]; decide)).2.2.1⟩

/-- C10: the code at a `POST` with `Authorization: Basic abc` and an `x-api-key`
equal to the service key.  `AdapterProxyAuth` passes the request on unchanged
(and does the same for `Authorization: Bearer`), where `JwtOrAPIKeyMiddleware`
answers 401 on the same request. -/
theorem AdapterProxyAuth_malformed_falls_through :
    ¬ ((contextWith "POST" "/v1/adapter-a/complete"
        [("Authorization", ["Basic abc"]), ("X-Api-Key", ["service-secret"])]).request.method = "GET") ∧
    (contextWith "POST" "/v1/adapter-a/complete"
      [("Authorization", ["Basic abc"]), ("X-Api-Key", ["service-secret"])]).GetHeader
      "Authorization" = "Basic abc" ∧
    AdapterProxyAuth exampleTokenizer "service-secret" "/v1/adapter-a/health" id
      (contextWith "POST" "/v1/adapter-a/complete"
        [("Authorization", ["Basic abc"]), ("X-Api-Key", ["service-secret"])]) =
      contextWith "POST" "/v1/adapter-a/complete"
        [("Authorization", ["Basic abc"]), ("X-Api-Key", ["service-secret"])] ∧
    (AdapterProxyAuth exampleTokenizer "service-secret" "/v1/adapter-a/health" id
      (contextWith "POST" "/v1/adapter-a/complete"
        [("Authorization", ["Bearer"]), ("X-Api-Key", ["service-secret"])])).aborted = false ∧
    (JwtOrAPIKeyMiddleware exampleTokenizer "service-secret" id
      (contextWith "POST" "/v1/adapter-a/complete"
        [("Authorization", ["Basic abc"]), ("X-Api-Key", ["service-secret"])])).status = 401 := by
  decide

/-! ### Admission by the gates, and the completion client -/

/-- A gate that hands one context to every continuation admits. -/
theorem admits_of_passes (gate : Middleware) (c c2 : Context)
    (h : ∀ next : Context → Context, gate next c = next c2) : Admits gate c :=
  ⟨c2, h⟩

/-- A gate whose result does not depend on the continuation does not admit. -/
theorem not_admits_of_const (gate : Middleware) (c r : Context)
    (h : ∀ next : Context → Context, gate next c = r) : ¬ Admits gate c := by
  rintro ⟨c2, h2⟩
  have h3 := h2 (fun _ => { r with status := r.status + 1 })
  rw [h] at h3
  have h4 := congrArg Context.status h3
  simp only at h4
  omega

/-- A string with the given leading part is that part followed by the trimmed rest. -/
theorem hasPrefix_eq_append (s p : String) (h : HasPrefix s p = true) :
    s = p ++ TrimPrefix s p := by
  unfold TrimPrefix
  rw [if_pos h]
  unfold HasPrefix at h
  rw [List.isPrefixOf_iff_prefix] at h
  obtain ⟨t, ht⟩ := h
  apply String.ext
  rw [String.data_append, ← ht]
  simp

/-- The token after `Bearer ` is determined by the header value. -/
theorem bearer_token_unique (t1 t2 : String) (h : "Bearer " ++ t1 = "Bearer " ++ t2) :
    t1 = t2 := by
  have := congrArg String.data h
  rw [String.data_append, String.data_append] at this
  exact String.ext (List.append_cancel_left this)

/-- The service-key check on a matching key. -/
theorem keyCheck_match (serviceKey : String) (next : Context → Context) (c : Context)
    (h : KeyMatches serviceKey c) : adapterServiceKeyCheck serviceKey next c = next c := by
  unfold adapterServiceKeyCheck
  unfold KeyMatches at h
  rw [if_pos h]

/-- The service-key check on a missing, empty or different key. -/
theorem keyCheck_noMatch (serviceKey : String) (next : Context → Context) (c : Context)
    (h : ¬ KeyMatches serviceKey c) :
    adapterServiceKeyCheck serviceKey next c =
      c.AbortWithStatusJSON 401 [("error", "unauthorized")] := by
  unfold adapterServiceKeyCheck
  unfold KeyMatches at h
  rw [if_neg h]

/-- `AdapterProxyAuth` on the health bypass. -/
theorem proxy_bypass (tokenizer : Tokenizer) (serviceKey healthPath : String)
    (next : Context → Context) (c : Context) (h : HealthBypass healthPath c) :
    AdapterProxyAuth tokenizer serviceKey healthPath next c = next c := by
  unfold AdapterProxyAuth
  unfold HealthBypass at h
  rw [if_pos h]

/-- `AdapterProxyAuth` on a header that does not start with `Bearer `. -/
theorem proxy_noBearer (tokenizer : Tokenizer) (serviceKey healthPath : String)
    (next : Context → Context) (c : Context) (h : ¬ HealthBypass healthPath c)
    (hp : HasPrefix (c.GetHeader "Authorization") "Bearer " = false) :
    AdapterProxyAuth tokenizer serviceKey healthPath next c =
      adapterServiceKeyCheck serviceKey next c := by
  unfold AdapterProxyAuth
  unfold HealthBypass at h
  rw [if_neg h]
  simp only [hp, Bool.false_eq_true, if_false]

/-- `AdapterProxyAuth` on a token the tokenizer accepts. -/
theorem proxy_bearer_valid (tokenizer : Tokenizer) (serviceKey healthPath : String)
    (next : Context → Context) (c : Context) (token : String)
    (h : ¬ HealthBypass healthPath c)
    (hauth : c.GetHeader "Authorization" = "Bearer " ++ token)
    (hv : Validates tokenizer token) :
    AdapterProxyAuth tokenizer serviceKey healthPath next c =
      next ((c.logValidateToken token).Set "userID" (tokenizer.ValidateToken token).1) := by
  unfold AdapterProxyAuth
  unfold HealthBypass at h
  rw [if_neg h]
  simp only [hauth, (hasPrefix_bearer token).1, (hasPrefix_bearer token).2, if_true]
  unfold Validates at hv
  rw [if_pos hv]

/-- `AdapterProxyAuth` on a token the tokenizer rejects. -/
theorem proxy_bearer_invalid (tokenizer : Tokenizer) (serviceKey healthPath : String)
    (next : Context → Context) (c : Context) (token : String)
    (h : ¬ HealthBypass healthPath c)
    (hauth : c.GetHeader "Authorization" = "Bearer " ++ token)
    (hv : ¬ Validates tokenizer token) :
    AdapterProxyAuth tokenizer serviceKey healthPath next c =
      adapterServiceKeyCheck serviceKey next (c.logValidateToken token) := by
  unfold AdapterProxyAuth
  unfold HealthBypass at h
  rw [if_neg h]
  simp only [hauth, (hasPrefix_bearer token).1, (hasPrefix_bearer token).2, if_true]
  unfold Validates at hv
  rw [if_neg hv]

/-- `JwtOrAPIKeyMiddleware` without an `Authorization` header is the service-key check. -/
theorem jwt_noAuth (tokenizer : Tokenizer) (serviceKey : String)
    (next : Context → Context) (c : Context) (hauth : c.GetHeader "Authorization" = "") :
    JwtOrAPIKeyMiddleware tokenizer serviceKey next c =
      adapterServiceKeyCheck serviceKey next c := by
  unfold JwtOrAPIKeyMiddleware adapterServiceKeyCheck
  simp only [hauth, ne_eq, not_true_eq_false, if_false]

/-- `JwtOrAPIKeyMiddleware` on a malformed `Authorization` header. -/
theorem jwt_malformed (tokenizer : Tokenizer) (serviceKey : String)
    (next : Context → Context) (c : Context) (hne : c.GetHeader "Authorization" ≠ "")
    (hm : ¬ WellFormedBearer (c.GetHeader "Authorization")) :
    JwtOrAPIKeyMiddleware tokenizer serviceKey next c =
      c.AbortWithStatusJSON 401 [("error", "invalid authorization")] := by
  have hform := (not_congr (wellFormedBearer_iff _)).mp hm
  unfold JwtOrAPIKeyMiddleware
  simp only [hne, ne_eq, not_false_eq_true, if_true, hform, if_false]

/-- `JwtOrAPIKeyMiddleware` on `Bearer ` followed by a non-empty token. -/
theorem jwt_bearer (tokenizer : Tokenizer) (serviceKey : String)
    (next : Context → Context) (c : Context) (token : String)
    (hauth : c.GetHeader "Authorization" = "Bearer " ++ token) (htok : token ≠ "") :
    JwtOrAPIKeyMiddleware tokenizer serviceKey next c =
      if Validates tokenizer token then
        next ((c.logValidateToken token).Set "userID" (tokenizer.ValidateToken token).1)
      else (c.logValidateToken token).AbortWithStatusJSON 401 [("error", "invalid token")] := by
  have hform := (wellFormedBearer_iff _).mp ⟨token, htok, hauth⟩
  have hne : c.GetHeader "Authorization" ≠ "" := by
    intro h
    rw [h] at hform
    simp at hform
  have hdrop : (⟨(c.GetHeader "Authorization").data.drop 7⟩ : String) = token := by
    rw [hauth, bearer_data]; rfl
  unfold JwtOrAPIKeyMiddleware Validates
  simp only [hne, ne_eq, not_false_eq_true, if_true, hform, and_self, hdrop]

/-- What `c.AbortWithStatusJSON` sets and what it leaves alone. -/
theorem abort_fields (c : Context) (code : Int) (obj : H) :
    (c.AbortWithStatusJSON code obj).status = code ∧
    (c.AbortWithStatusJSON code obj).aborted = true ∧
    (c.AbortWithStatusJSON code obj).body = c.body ++ [Payload.json obj] ∧
    (c.AbortWithStatusJSON code obj).keys = c.keys ∧
    (c.AbortWithStatusJSON code obj).tokenizerCalls = c.tokenizerCalls := by
  have hj := JSON_fields c.Abort code obj
  unfold Context.AbortWithStatusJSON
  exact ⟨hj.1, hj.2.2.2.2.1, hj.2.1, hj.2.2.2.2.2, hj.2.2.2.1⟩

/-- The service-key check admits exactly on a matching key. -/
theorem keyCheck_admits_iff (serviceKey : String) (c : Context) :
    Admits (adapterServiceKeyCheck serviceKey) c ↔ KeyMatches serviceKey c := by
  constructor
  · intro ha
    by_contra hk
    exact not_admits_of_const _ c _ (fun next => keyCheck_noMatch serviceKey next c hk) ha
  · intro hk
    exact admits_of_passes _ c c (fun next => keyCheck_match serviceKey next c hk)

/-- C11: with a non-empty service key and no `Authorization` header, each gate
(the proxy gate outside its health bypass) passes the request on unchanged when
the `x-api-key` header equals the service key, and otherwise aborts with 401
and the JSON error `unauthorized`; it admits if and only if the header equals
the key. -/
theorem serviceKey_decides (tokenizer : Tokenizer) (serviceKey healthPath : String)
    (c : Context) (hkey : serviceKey ≠ "") (hauth : c.GetHeader "Authorization" = "") :
    ((c.GetHeader "x-api-key" = serviceKey →
        ∀ next, JwtOrAPIKeyMiddleware tokenizer serviceKey next c = next c) ∧
     (c.GetHeader "x-api-key" ≠ serviceKey →
        ∀ next, JwtOrAPIKeyMiddleware tokenizer serviceKey next c =
          c.AbortWithStatusJSON 401 [("error", "unauthorized")]) ∧
     (Admits (JwtOrAPIKeyMiddleware tokenizer serviceKey) c ↔
        c.GetHeader "x-api-key" = serviceKey)) ∧
    (¬ HealthBypass healthPath c →
     (c.GetHeader "x-api-key" = serviceKey →
        ∀ next, AdapterProxyAuth tokenizer serviceKey healthPath next c = next c) ∧
     (c.GetHeader "x-api-key" ≠ serviceKey →
        ∀ next, AdapterProxyAuth tokenizer serviceKey healthPath next c =
          c.AbortWithStatusJSON 401 [("error", "unauthorized")]) ∧
     (Admits (AdapterProxyAuth tokenizer serviceKey healthPath) c ↔
        c.GetHeader "x-api-key" = serviceKey)) ∧
    ((c.AbortWithStatusJSON 401 [("error", "unauthorized")]).status = 401 ∧
     (c.AbortWithStatusJSON 401 [("error", "unauthorized")]).aborted = true ∧
     (c.AbortWithStatusJSON 401 [("error", "unauthorized")]).body =
       c.body ++ [Payload.json [("error", "unauthorized")]]) := by
  have hk : KeyMatches serviceKey c ↔ c.GetHeader "x-api-key" = serviceKey :=
    ⟨fun h => h.2, fun h => ⟨hkey, h⟩⟩
  have hj : ∀ next, JwtOrAPIKeyMiddleware tokenizer serviceKey next c =
      adapterServiceKeyCheck serviceKey next c :=
    fun next => jwt_noAuth tokenizer serviceKey next c hauth
  have hfa := abort_fields c 401 [("error", "unauthorized")]
  refine ⟨⟨?_, ?_, ?_⟩, fun hby => ?_, hfa.1, hfa.2.1, hfa.2.2.1⟩
  · intro hm next
    rw [hj, keyCheck_match _ _ _ (hk.mpr hm)]
  · intro hm next
    rw [hj, keyCheck_noMatch _ _ _ (fun h => hm (hk.mp h))]
  · have : Admits (JwtOrAPIKeyMiddleware tokenizer serviceKey) c ↔
        Admits (adapterServiceKeyCheck serviceKey) c := by
      unfold Admits
      simp only [hj]
    rw [this, keyCheck_admits_iff, hk]
  · have hp : HasPrefix (c.GetHeader "Authorization") "Bearer " = false := by
      rw [hauth]; decide
    have hpx : ∀ next, AdapterProxyAuth tokenizer serviceKey healthPath next c =
        adapterServiceKeyCheck serviceKey next c :=
      fun next => proxy_noBearer tokenizer serviceKey healthPath next c hby hp
    refine ⟨?_, ?_, ?_⟩
    · intro hm next
      rw [hpx, keyCheck_match _ _ _ (hk.mpr hm)]
    · intro hm next
      rw [hpx, keyCheck_noMatch _ _ _ (fun h => hm (hk.mp h))]
    · have : Admits (AdapterProxyAuth tokenizer serviceKey healthPath) c ↔
          Admits (adapterServiceKeyCheck serviceKey) c := by
        unfold Admits
        simp only [hpx]
      rw [this, keyCheck_admits_iff, hk]

/-- Witness for C11 at a service call, with the matching key and with another key. -/
theorem serviceKey_decides_witness :
    serviceContext.GetHeader "Authorization" = "" ∧
    serviceContext.GetHeader "x-api-key" = "service-secret" ∧
    JwtOrAPIKeyMiddleware exampleTokenizer "service-secret" id serviceContext = serviceContext ∧
    (JwtOrAPIKeyMiddleware exampleTokenizer "other-secret" id serviceContext).status = 401 := by
  refine ⟨by decide, by decide, ?_, ?_⟩
  · exact (serviceKey_decides exampleTokenizer "service-secret" "/v1/adapter-a/health"
      serviceContext (by decide) (by decide)).1.1 (by decide) id
  · rw [(serviceKey_decides exampleTokenizer "other-secret" "/v1/adapter-a/health"
      serviceContext (by decide) (by decide)).1.2.1 (by decide) id]
    decide

/-- C12 as stated fails: a request admitted by the service key leaves either
gate with an empty key store, so no identity entry is there to read. -/
theorem no_service_marker_counterexample :
    KeyMatches "service-secret" serviceContext ∧
    ¬ HealthBypass "/v1/adapter-a/health" serviceContext ∧
    (JwtOrAPIKeyMiddleware exampleTokenizer "service-secret" id serviceContext).aborted = false ∧
    (JwtOrAPIKeyMiddleware exampleTokenizer "service-secret" id serviceContext).keys = [] ∧
    (AdapterProxyAuth exampleTokenizer "service-secret" "/v1/adapter-a/health" id
      serviceContext).aborted = false ∧
    (AdapterProxyAuth exampleTokenizer "service-secret" "/v1/adapter-a/health" id
      serviceContext).keys = [] := by
  decide

/-- C12, as amended: on a bearer token that the tokenizer accepts the gate
(`JwtOrAPIKeyMiddleware` for a non-empty token, `AdapterProxyAuth` outside the
health bypass) passes on a context that holds the user id under `userID`; a
request admitted by the service-key check is passed on with its key store and
request unchanged, no service marker being attached. -/
theorem identity_attached (tokenizer : Tokenizer) (serviceKey healthPath : String)
    (next : Context → Context) (c : Context) :
    (∀ token : String, c.GetHeader "Authorization" = "Bearer " ++ token →
      Validates tokenizer token →
      (token ≠ "" → JwtOrAPIKeyMiddleware tokenizer serviceKey next c =
        next ((c.logValidateToken token).Set "userID" (tokenizer.ValidateToken token).1)) ∧
      (¬ HealthBypass healthPath c →
        AdapterProxyAuth tokenizer serviceKey healthPath next c =
          next ((c.logValidateToken token).Set "userID" (tokenizer.ValidateToken token).1)) ∧
      ((c.logValidateToken token).Set "userID" (tokenizer.ValidateToken token).1).Get "userID"
        = some (tokenizer.ValidateToken token).1) ∧
    (KeyMatches serviceKey c → c.GetHeader "Authorization" = "" →
      JwtOrAPIKeyMiddleware tokenizer serviceKey next c = next c) ∧
    (KeyMatches serviceKey c → ¬ HealthBypass healthPath c →
      ¬ ValidBearer tokenizer (c.GetHeader "Authorization") →
      ∃ c2 : Context, AdapterProxyAuth tokenizer serviceKey healthPath next c = next c2 ∧
        c2.keys = c.keys ∧ c2.request = c.request) := by
  refine ⟨fun token hauth hv => ⟨fun htok => ?_, fun hby => ?_, Set_Get _ _ _⟩,
    fun hk hauth => ?_, fun hk hby hnv => ?_⟩
  · rw [jwt_bearer tokenizer serviceKey next c token hauth htok, if_pos hv]
  · exact proxy_bearer_valid tokenizer serviceKey healthPath next c token hby hauth hv
  · rw [jwt_noAuth tokenizer serviceKey next c hauth, keyCheck_match _ _ _ hk]
  · cases hp : HasPrefix (c.GetHeader "Authorization") "Bearer " with
    | false =>
      refine ⟨c, ?_, rfl, rfl⟩
      rw [proxy_noBearer tokenizer serviceKey healthPath next c hby hp, keyCheck_match _ _ _ hk]
    | true =>
      have hauth := hasPrefix_eq_append _ _ hp
      have hv : ¬ Validates tokenizer (TrimPrefix (c.GetHeader "Authorization") "Bearer ") :=
        fun h => hnv ⟨_, hauth, h⟩
      refine ⟨c.logValidateToken (TrimPrefix (c.GetHeader "Authorization") "Bearer "),
        ?_, rfl, rfl⟩
      rw [proxy_bearer_invalid tokenizer serviceKey healthPath next c _ hby hauth hv]
      exact keyCheck_match _ _ _ hk

/-- Witness for C12 at a rejected bearer token with a matching `x-api-key`. -/
theorem identity_attached_witness :
    KeyMatches "service-secret" staleTokenContext ∧
    ∃ c2 : Context,
      AdapterProxyAuth exampleTokenizer "service-secret" "/v1/adapter-a/health" id
        staleTokenContext = id c2 ∧ c2.keys = staleTokenContext.keys ∧
      c2.request = staleTokenContext.request :=
  ⟨by decide,
   (identity_attached exampleTokenizer "service-secret" "/v1/adapter-a/health" id
      staleTokenContext).2.2 (by decide) (by decide) (by
        rintro ⟨token, hauth, hv⟩
        have h1 : staleTokenContext.GetHeader "Authorization" = "Bearer " ++ "expired" := by
          decide
        have h2 := bearer_token_unique _ _ (h1.symm.trans hauth)
        subst h2
        exact absurd hv (by decide))⟩

/-- C13: a `GET` to the health path is passed on by `AdapterProxyAuth` with the
context untouched, so without any call to the tokenizer and whatever the
headers; any other request is admitted if and only if it carries a bearer
token that the tokenizer accepts or an `x-api-key` equal to a non-empty
service key. -/
theorem health_bypass (tokenizer : Tokenizer) (serviceKey healthPath : String) (c : Context) :
    (HealthBypass healthPath c →
      ∀ next, AdapterProxyAuth tokenizer serviceKey healthPath next c = next c) ∧
    (¬ HealthBypass healthPath c →
      (Admits (AdapterProxyAuth tokenizer serviceKey healthPath) c ↔
        ValidBearer tokenizer (c.GetHeader "Authorization") ∨ KeyMatches serviceKey c)) := by
  refine ⟨fun hby next => proxy_bypass tokenizer serviceKey healthPath next c hby, fun hby => ?_⟩
  cases hp : HasPrefix (c.GetHeader "Authorization") "Bearer " with
  | false =>
    have hnv : ¬ ValidBearer tokenizer (c.GetHeader "Authorization") := by
      rintro ⟨token, hauth, _⟩
      rw [hauth, (hasPrefix_bearer token).1] at hp
      exact Bool.noConfusion hp
    have : Admits (AdapterProxyAuth tokenizer serviceKey healthPath) c ↔
        Admits (adapterServiceKeyCheck serviceKey) c := by
      unfold Admits
      simp only [proxy_noBearer tokenizer serviceKey healthPath _ c hby hp]
    rw [this, keyCheck_admits_iff]
    exact ⟨Or.inr, fun h => h.resolve_left hnv⟩
  | true =>
    have hauth := hasPrefix_eq_append _ _ hp
    by_cases hv : Validates tokenizer (TrimPrefix (c.GetHeader "Authorization") "Bearer ")
    · constructor
      · exact fun _ => Or.inl ⟨_, hauth, hv⟩
      · exact fun _ => admits_of_passes _ c _
          (fun next => proxy_bearer_valid tokenizer serviceKey healthPath next c _ hby hauth hv)
    · have hnv : ¬ ValidBearer tokenizer (c.GetHeader "Authorization") := by
        rintro ⟨token, hauth2, hv2⟩
        have := bearer_token_unique _ _ (hauth.symm.trans hauth2)
        rw [this] at hv
        exact hv hv2
      have : Admits (AdapterProxyAuth tokenizer serviceKey healthPath) c ↔
          Admits (adapterServiceKeyCheck serviceKey)
            (c.logValidateToken (TrimPrefix (c.GetHeader "Authorization") "Bearer ")) := by
        unfold Admits
        simp only [proxy_bearer_invalid tokenizer serviceKey healthPath _ c _ hby hauth hv]
      rw [this, keyCheck_admits_iff]
      exact ⟨Or.inr, fun h => h.resolve_left hnv⟩

/-- Witness for C13 at a health check with a malformed header and at a service call. -/
theorem health_bypass_witness :
    HealthBypass "/v1/adapter-a/health" healthContext ∧
    AdapterProxyAuth exampleTokenizer "service-secret" "/v1/adapter-a/health" id healthContext
      = healthContext ∧
    ¬ HealthBypass "/v1/adapter-a/health" serviceContext ∧
    Admits (AdapterProxyAuth exampleTokenizer "service-secret" "/v1/adapter-a/health")
      serviceContext :=
  ⟨by decide,
   (health_bypass exampleTokenizer "service-secret" "/v1/adapter-a/health" healthContext).1
     (by decide) id,
   by decide,
   ((health_bypass exampleTokenizer "service-secret" "/v1/adapter-a/health" serviceContext).2
     (by decide)).mpr (Or.inr (by decide))⟩

/-- With an `Authorization` header present `JwtOrAPIKeyMiddleware` does not depend on the service key. -/
theorem jwt_present_independent (tokenizer : Tokenizer) (key1 key2 : String)
    (next : Context → Context) (c : Context) (hne : c.GetHeader "Authorization" ≠ "") :
    JwtOrAPIKeyMiddleware tokenizer key1 next c = JwtOrAPIKeyMiddleware tokenizer key2 next c := by
  unfold JwtOrAPIKeyMiddleware
  simp only [hne, ne_eq, not_false_eq_true, if_true]

/-- C14: when an `Authorization` header is present the result of
`JwtOrAPIKeyMiddleware` does not depend on the service key, and for `Bearer `
followed by a non-empty token that the tokenizer rejects the request is
aborted with 401 and the JSON error `invalid token`, the tokenizer having been
called once, whatever the `x-api-key` header. -/
theorem rejected_token_not_rescued (tokenizer : Tokenizer) (serviceKey : String)
    (next : Context → Context) (c : Context)
    (hpresent : c.GetHeader "Authorization" ≠ "") :
    (∀ otherKey : String, JwtOrAPIKeyMiddleware tokenizer otherKey next c =
      JwtOrAPIKeyMiddleware tokenizer serviceKey next c) ∧
    (∀ token : String, c.GetHeader "Authorization" = "Bearer " ++ token → token ≠ "" →
      ¬ Validates tokenizer token →
      JwtOrAPIKeyMiddleware tokenizer serviceKey next c =
        (c.logValidateToken token).AbortWithStatusJSON 401 [("error", "invalid token")] ∧
      (JwtOrAPIKeyMiddleware tokenizer serviceKey next c).status = 401 ∧
      (JwtOrAPIKeyMiddleware tokenizer serviceKey next c).aborted = true ∧
      (JwtOrAPIKeyMiddleware tokenizer serviceKey next c).body =
        c.body ++ [Payload.json [("error", "invalid token")]] ∧
      ¬ Admits (JwtOrAPIKeyMiddleware tokenizer serviceKey) c) := by
  refine ⟨fun k => jwt_present_independent tokenizer k serviceKey next c hpresent,
    fun token hauth htok hrejected => ?_⟩
  have h : ∀ nxt, JwtOrAPIKeyMiddleware tokenizer serviceKey nxt c =
      (c.logValidateToken token).AbortWithStatusJSON 401 [("error", "invalid token")] := by
    intro nxt
    rw [jwt_bearer tokenizer serviceKey nxt c token hauth htok, if_neg hrejected]
  have hfa := abort_fields (c.logValidateToken token) 401 [("error", "invalid token")]
  refine ⟨h _, ?_, ?_, ?_, not_admits_of_const _ c _ h⟩
  · rw [h]; exact hfa.1
  · rw [h]; exact hfa.2.1
  · rw [h]; exact hfa.2.2.1

/-- Witness for C14 at a rejected token with a matching `x-api-key`. -/
theorem rejected_token_not_rescued_witness :
    staleTokenContext.GetHeader "Authorization" = "Bearer " ++ "expired" ∧
    KeyMatches "service-secret" staleTokenContext ∧
    ¬ Validates exampleTokenizer "expired" ∧
    (JwtOrAPIKeyMiddleware exampleTokenizer "service-secret" id staleTokenContext).status = 401 :=
  ⟨by decide, by decide, by decide,
   ((rejected_token_not_rescued exampleTokenizer "service-secret" id staleTokenContext
     (by decide)).2 "expired" (by decide) (by decide) (by decide)).2.1⟩

/-- C15: the code at a request that is not a health check and carries a bearer
token the tokenizer rejects together with a matching `x-api-key`:
`AdapterProxyAuth` admits it, `JwtOrAPIKeyMiddleware` aborts it with 401. -/
theorem gates_disagree :
    ¬ HealthBypass "/v1/adapter-a/health" staleTokenContext ∧
    KeyMatches "service-secret" staleTokenContext ∧
    ¬ Validates exampleTokenizer "expired" ∧
    Admits (AdapterProxyAuth exampleTokenizer "service-secret" "/v1/adapter-a/health")
      staleTokenContext ∧
    ¬ Admits (JwtOrAPIKeyMiddleware exampleTokenizer "service-secret") staleTokenContext ∧
    (AdapterProxyAuth exampleTokenizer "service-secret" "/v1/adapter-a/health" id
      staleTokenContext).aborted = false ∧
    (JwtOrAPIKeyMiddleware exampleTokenizer "service-secret" id staleTokenContext).aborted = true ∧
    (JwtOrAPIKeyMiddleware exampleTokenizer "service-secret" id staleTokenContext).status = 401 := by
  have hauth : staleTokenContext.GetHeader "Authorization" = "Bearer " ++ "expired" := by decide
  refine ⟨by decide, by decide, by decide, ?_, ?_, by decide, by decide, by decide⟩
  · refine admits_of_passes _ _ (staleTokenContext.logValidateToken "expired") (fun next => ?_)
    rw [proxy_bearer_invalid exampleTokenizer "service-secret" "/v1/adapter-a/health" next
      staleTokenContext "expired" (by decide) hauth (by decide)]
    exact keyCheck_match _ _ _ (by decide)
  · refine not_admits_of_const _ _
      ((staleTokenContext.logValidateToken "expired").AbortWithStatusJSON 401
        [("error", "invalid token")]) (fun next => ?_)
    rw [jwt_bearer exampleTokenizer "service-secret" next staleTokenContext "expired" hauth
      (by decide), if_neg (by decide)]

/-- An attempt stores an error exactly when it fails in the sense of the specification. -/
theorem attemptOutcome_error_iff (json : EncodingJSON) (o : Except String AdapterResponse) :
    (∃ e, attemptOutcome json o = .error e) ↔ AttemptFails json o := by
  unfold attemptOutcome AttemptFails
  cases o with
  | error t => simp
  | ok resp =>
    simp only
    by_cases h2 : 200 ≤ resp.statusCode ∧ resp.statusCode < 300
    · simp only [h2, and_self, if_true, not_true_eq_false, false_or]
      cases hd : json.UnmarshalCompletion resp.body with
      | error d => simp
      | ok s => simp
    · simp [h2]

/-- An attempt returns `s` exactly when it succeeds with `s`. -/
theorem attemptOutcome_ok_iff (json : EncodingJSON) (o : Except String AdapterResponse)
    (s : String) : attemptOutcome json o = .ok s ↔ AttemptSucceeds json o s := by
  unfold attemptOutcome AttemptSucceeds
  cases o with
  | error t => simp
  | ok resp =>
    simp only
    by_cases h2 : 200 ≤ resp.statusCode ∧ resp.statusCode < 300
    · simp only [h2, and_self, if_true]
      cases hd : json.UnmarshalCompletion resp.body with
      | error d =>
        constructor
        · intro h; cases h
        · rintro ⟨r2, hr, _, hu⟩
          injection hr with hr
          subst hr
          rw [hd] at hu
          cases hu
      | ok s2 =>
        constructor
        · intro h
          injection h with h
          exact ⟨resp, rfl, h2, by rw [hd, h]⟩
        · rintro ⟨r2, hr, _, hu⟩
          injection hr with hr
          subst hr
          rw [hd] at hu
          exact hu
    · simp only [h2, if_false]
      constructor
      · intro h; cases h
      · rintro ⟨r2, hr, h3, _⟩
        injection hr with hr
        subst hr
        exact absurd h3 h2

/-- The loop when the attempts before the `k`-th fail and the `k`-th succeeds. -/
theorem loop_success (json : EncodingJSON) (backend : CompletionBackend) (c : Context)
    (baseURL prompt model failHeader : String)
    (hnew : backend.newRequestFails (baseURL ++ "/complete") = false) (s : String) :
    ∀ (k remaining attempt : Nat) (lastErr : Option String) (requests : List ProxyRequest)
      (sleeps : List Nat),
    k < remaining →
    (∀ i, i < k → ∃ e, attemptOutcome json (backend.Do (attempt + i)
      (completionRequest json c baseURL prompt model failHeader)) = .error e) →
    attemptOutcome json (backend.Do (attempt + k)
      (completionRequest json c baseURL prompt model failHeader)) = .ok s →
    callAdapterLoop json backend c baseURL prompt model failHeader remaining attempt lastErr
      requests sleeps =
      { returned := some (s, none),
        requests := requests ++
          List.replicate (k + 1) (completionRequest json c baseURL prompt model failHeader),
        sleeps := sleeps ++ backoffFrom attempt k } := by
  intro k
  induction k with
  | zero =>
    intro remaining attempt lastErr requests sleeps hk _ hok
    obtain ⟨rem, rfl⟩ : ∃ rem, remaining = rem + 1 := ⟨remaining - 1, by omega⟩
    rw [Nat.add_zero] at hok
    simp [callAdapterLoop, hnew, hok, backoffFrom]
  | succ k ih =>
    intro remaining attempt lastErr requests sleeps hk hfail hok
    obtain ⟨rem, rfl⟩ : ∃ rem, remaining = rem + 1 := ⟨remaining - 1, by omega⟩
    obtain ⟨e, he⟩ := hfail 0 (by omega)
    rw [Nat.add_zero] at he
    have hshift : ∀ i, attempt + 1 + i = attempt + (i + 1) := fun i => by omega
    have h1 := ih rem (attempt + 1) (some e)
      (requests ++ [completionRequest json c baseURL prompt model failHeader])
      (sleeps ++ [100 * (attempt + 1)]) (by omega)
      (fun i hi => by rw [hshift]; exact hfail (i + 1) (by omega))
      (by rw [hshift]; exact hok)
    simp only [callAdapterLoop, hnew, Bool.false_eq_true, if_false, he]
    rw [h1]
    simp [backoffFrom, List.replicate_succ]

/-- The loop when all its `n + 1` attempts fail. -/
theorem loop_failure (json : EncodingJSON) (backend : CompletionBackend) (c : Context)
    (baseURL prompt model failHeader : String)
    (hnew : backend.newRequestFails (baseURL ++ "/complete") = false) (e : String) :
    ∀ (n attempt : Nat) (lastErr : Option String) (requests : List ProxyRequest)
      (sleeps : List Nat),
    (∀ i, i < n → ∃ x, attemptOutcome json (backend.Do (attempt + i)
      (completionRequest json c baseURL prompt model failHeader)) = .error x) →
    attemptOutcome json (backend.Do (attempt + n)
      (completionRequest json c baseURL prompt model failHeader)) = .error e →
    callAdapterLoop json backend c baseURL prompt model failHeader (n + 1) attempt lastErr
      requests sleeps =
      { returned := some ("", some e),
        requests := requests ++
          List.replicate (n + 1) (completionRequest json c baseURL prompt model failHeader),
        sleeps := sleeps ++ backoffFrom attempt (n + 1) } := by
  intro n
  induction n with
  | zero =>
    intro attempt lastErr requests sleeps _ hlast
    rw [Nat.add_zero] at hlast
    simp [callAdapterLoop, hnew, hlast, backoffFrom]
  | succ n ih =>
    intro attempt lastErr requests sleeps hfail hlast
    obtain ⟨x, hx⟩ := hfail 0 (by omega)
    rw [Nat.add_zero] at hx
    have hshift : ∀ i, attempt + 1 + i = attempt + (i + 1) := fun i => by omega
    have h1 := ih (attempt + 1) (some x)
      (requests ++ [completionRequest json c baseURL prompt model failHeader])
      (sleeps ++ [100 * (attempt + 1)])
      (fun i hi => by rw [hshift]; exact hfail (i + 1) (by omega))
      (by rw [hshift]; exact hlast)
    rw [callAdapterLoop]
    simp only [hnew, Bool.false_eq_true, if_false, hx]
    rw [h1]
    simp [backoffFrom, List.replicate_succ]

/-- The loop sends at most `remaining` requests, each of them the request of `completionRequest`. -/
theorem loop_requests (json : EncodingJSON) (backend : CompletionBackend) (c : Context)
    (baseURL prompt model failHeader : String) :
    ∀ (remaining attempt : Nat) (lastErr : Option String) (requests : List ProxyRequest)
      (sleeps : List Nat),
    (callAdapterLoop json backend c baseURL prompt model failHeader remaining attempt lastErr
      requests sleeps).requests.length ≤ requests.length + remaining ∧
    ∀ q ∈ (callAdapterLoop json backend c baseURL prompt model failHeader remaining attempt
      lastErr requests sleeps).requests,
      q ∈ requests ∨ q = completionRequest json c baseURL prompt model failHeader := by
  intro remaining
  induction remaining with
  | zero =>
    intro attempt lastErr requests sleeps
    simp [callAdapterLoop]
    exact fun q hq => Or.inl hq
  | succ rem ih =>
    intro attempt lastErr requests sleeps
    rw [callAdapterLoop]
    by_cases hnew : backend.newRequestFails (baseURL ++ "/complete") = true
    · simp only [hnew, if_true]
      exact ⟨by omega, fun q hq => Or.inl hq⟩
    · simp only [hnew, Bool.false_eq_true, if_false]
      cases ho : attemptOutcome json (backend.Do attempt
          (completionRequest json c baseURL prompt model failHeader)) with
      | ok s =>
        simp only [List.length_append, List.length_singleton, List.mem_append,
          List.mem_singleton]
        exact ⟨by omega, fun q hq => hq⟩
      | error e =>
        simp only
        have h1 := ih (attempt + 1) (some e)
          (requests ++ [completionRequest json c baseURL prompt model failHeader])
          (sleeps ++ [100 * (attempt + 1)])
        refine ⟨?_, fun q hq => ?_⟩
        · have := h1.1
          simp only [List.length_append, List.length_singleton] at this
          omega
        · have := h1.2 q hq
          simpa [List.mem_append] using this

/-- C16: when the request can be constructed, `CallAdapter` sends at most three
requests, all of them the same request; if the attempts before the `k`-th
(counted from 0, `k < 3`) fail and the `k`-th succeeds, exactly `k + 1`
requests are sent and the call returns the decoded completion with a nil
error; if all three fail, exactly three are sent and an error is returned. -/
theorem CallAdapter_attempts (json : EncodingJSON) (backend : CompletionBackend) (c : Context)
    (baseURL prompt model failHeader : String)
    (hnew : backend.newRequestFails (baseURL ++ "/complete") = false) :
    (CallAdapter json backend c baseURL prompt model failHeader).requests.length ≤ 3 ∧
    (∀ q ∈ (CallAdapter json backend c baseURL prompt model failHeader).requests,
      q = completionRequest json c baseURL prompt model failHeader) ∧
    (∀ k, k < 3 →
      (∀ i, i < k → AttemptFails json
        (backend.Do i (completionRequest json c baseURL prompt model failHeader))) →
      ∀ s, AttemptSucceeds json
        (backend.Do k (completionRequest json c baseURL prompt model failHeader)) s →
      (CallAdapter json backend c baseURL prompt model failHeader).returned = some (s, none) ∧
      (CallAdapter json backend c baseURL prompt model failHeader).requests =
        List.replicate (k + 1) (completionRequest json c baseURL prompt model failHeader)) ∧
    ((∀ i, i < 3 → AttemptFails json
        (backend.Do i (completionRequest json c baseURL prompt model failHeader))) →
      (CallAdapter json backend c baseURL prompt model failHeader).requests =
        List.replicate 3 (completionRequest json c baseURL prompt model failHeader) ∧
      ∃ e, (CallAdapter json backend c baseURL prompt model failHeader).returned =
        some ("", some e)) := by
  have hreq := loop_requests json backend c baseURL prompt model failHeader 3 0 none [] []
  refine ⟨by simpa [CallAdapter] using hreq.1, ?_, ?_, ?_⟩
  · intro q hq
    rcases hreq.2 q hq with h | h
    · cases h
    · exact h
  · intro k hk hfail s hs
    have h := loop_success json backend c baseURL prompt model failHeader hnew s k 3 0 none [] []
      hk
      (fun i hi => by
        rw [Nat.zero_add]; exact (attemptOutcome_error_iff json _).mpr (hfail i hi))
      (by rw [Nat.zero_add]; exact (attemptOutcome_ok_iff json _ s).mpr hs)
    unfold CallAdapter
    rw [h]
    exact ⟨rfl, by simp⟩
  · intro hfail
    obtain ⟨e, he⟩ := (attemptOutcome_error_iff json _).mpr (hfail 2 (by omega))
    have h := loop_failure json backend c baseURL prompt model failHeader hnew e 2 0 none [] []
      (fun i hi => by
        rw [Nat.zero_add]; exact (attemptOutcome_error_iff json _).mpr (hfail i (by omega)))
      (by rw [Nat.zero_add]; exact he)
    unfold CallAdapter
    rw [h]
    exact ⟨by simp, e, rfl⟩

/-- Witness for C16 at a backend that fails twice and then succeeds. -/
theorem CallAdapter_attempts_witness :
    flakyBackend.newRequestFails ("http://localhost:8081" ++ "/complete") = false ∧
    (CallAdapter exampleJSON flakyBackend completionContext "http://localhost:8081" "hi"
      "adapter-a" "").returned = some ("hello", none) ∧
    (CallAdapter exampleJSON flakyBackend completionContext "http://localhost:8081" "hi"
      "adapter-a" "").requests.length = 3 := by
  have h := (CallAdapter_attempts exampleJSON flakyBackend completionContext
    "http://localhost:8081" "hi" "adapter-a" "" rfl).2.2.1 2 (by decide)
    (fun i hi => by
      have : i = 0 ∨ i = 1 := by omega
      rcases this with rfl | rfl
      · exact Or.inl (by decide)
      · exact True.intro)
    "hello" ⟨_, rfl, by decide, rfl⟩
  refine ⟨rfl, h.1, ?_⟩
  rw [h.2]
  rfl

/-- C17: when all three attempts fail, exactly three requests are sent and the
call returns the empty string with the error of the third attempt: the
transport error itself, `adapter status ` followed by the status line, or
`invalid adapter response: ` followed by the decode error. -/
theorem CallAdapter_last_error (json : EncodingJSON) (backend : CompletionBackend)
    (c : Context) (baseURL prompt model failHeader : String)
    (hnew : backend.newRequestFails (baseURL ++ "/complete") = false)
    (hfail : ∀ i, i < 3 → AttemptFails json
      (backend.Do i (completionRequest json c baseURL prompt model failHeader))) :
    (CallAdapter json backend c baseURL prompt model failHeader).requests.length = 3 ∧
    (∀ t, backend.Do 2 (completionRequest json c baseURL prompt model failHeader) = .error t →
      (CallAdapter json backend c baseURL prompt model failHeader).returned =
        some ("", some t)) ∧
    (∀ resp, backend.Do 2 (completionRequest json c baseURL prompt model failHeader) = .ok resp →
      ¬ (200 ≤ resp.statusCode ∧ resp.statusCode < 300) →
      (CallAdapter json backend c baseURL prompt model failHeader).returned =
        some ("", some ("adapter status " ++ resp.status))) ∧
    (∀ resp d, backend.Do 2 (completionRequest json c baseURL prompt model failHeader) = .ok resp →
      (200 ≤ resp.statusCode ∧ resp.statusCode < 300) →
      json.UnmarshalCompletion resp.body = .error d →
      (CallAdapter json backend c baseURL prompt model failHeader).returned =
        some ("", some ("invalid adapter response: " ++ d))) := by
  have hall : ∀ e, attemptOutcome json (backend.Do 2
        (completionRequest json c baseURL prompt model failHeader)) = .error e →
      CallAdapter json backend c baseURL prompt model failHeader =
        { returned := some ("", some e),
          requests := [] ++ List.replicate 3
            (completionRequest json c baseURL prompt model failHeader),
          sleeps := [] ++ backoffFrom 0 3 } := by
    intro e he
    exact loop_failure json backend c baseURL prompt model failHeader hnew e 2 0 none [] []
      (fun i hi => by
        rw [Nat.zero_add]; exact (attemptOutcome_error_iff json _).mpr (hfail i (by omega)))
      (by rw [Nat.zero_add]; exact he)
  refine ⟨?_, ?_, ?_, ?_⟩
  · obtain ⟨e, he⟩ := (attemptOutcome_error_iff json _).mpr (hfail 2 (by omega))
    rw [hall e he]
    simp
  · intro t ht
    rw [hall t (by rw [ht]; rfl)]
  · intro resp hr h2
    rw [hall ("adapter status " ++ resp.status) (by rw [hr]; simp [attemptOutcome, h2])]
  · intro resp d hr h2 hd
    rw [hall ("invalid adapter response: " ++ d) (by rw [hr]; simp [attemptOutcome, h2, hd])]

/-- Witness for C17 at a backend whose third answer is 503. -/
theorem CallAdapter_last_error_witness :
    (CallAdapter exampleJSON failingBackend completionContext "http://localhost:8081" "hi"
      "adapter-a" "").requests.length = 3 ∧
    (CallAdapter exampleJSON failingBackend completionContext "http://localhost:8081" "hi"
      "adapter-a" "").returned = some ("", some "adapter status 503 Service Unavailable") := by
  have h := CallAdapter_last_error exampleJSON failingBackend completionContext
    "http://localhost:8081" "hi" "adapter-a" "" rfl
    (fun i hi => by
      have : i = 0 ∨ i = 1 ∨ i = 2 := by omega
      rcases this with rfl | rfl | rfl <;> exact Or.inl (by decide))
  exact ⟨h.1, h.2.2.1 { statusCode := 503, status := "503 Service Unavailable", body := [] }
    rfl (by decide)⟩

/-- C18: when the attempts before the `k`-th (counted from 0) fail and the
`k`-th succeeds, the call returns that completion after exactly `k` waits, of
`100 * (i + 1)` milliseconds for `i < k`; for a success on the third attempt
these are 100 and 200 milliseconds, 300 in total. -/
theorem CallAdapter_backoff_before_success (json : EncodingJSON) (backend : CompletionBackend)
    (c : Context) (baseURL prompt model failHeader : String)
    (hnew : backend.newRequestFails (baseURL ++ "/complete") = false)
    (k : Nat) (hk : k < 3)
    (hfail : ∀ i, i < k → AttemptFails json
      (backend.Do i (completionRequest json c baseURL prompt model failHeader)))
    (s : String)
    (hs : AttemptSucceeds json
      (backend.Do k (completionRequest json c baseURL prompt model failHeader)) s) :
    (CallAdapter json backend c baseURL prompt model failHeader).returned = some (s, none) ∧
    (CallAdapter json backend c baseURL prompt model failHeader).sleeps =
      (List.range k).map (fun i => 100 * (i + 1)) ∧
    (k = 2 →
      (CallAdapter json backend c baseURL prompt model failHeader).sleeps = [100, 200] ∧
      (CallAdapter json backend c baseURL prompt model failHeader).sleeps.sum = 300) := by
  have h := loop_success json backend c baseURL prompt model failHeader hnew s k 3 0 none [] []
    hk
    (fun i hi => by
      rw [Nat.zero_add]; exact (attemptOutcome_error_iff json _).mpr (hfail i hi))
    (by rw [Nat.zero_add]; exact (attemptOutcome_ok_iff json _ s).mpr hs)
  unfold CallAdapter
  rw [h]
  refine ⟨rfl, ?_, ?_⟩
  · interval_cases k <;> rfl
  · intro h2
    subst h2
    exact ⟨rfl, rfl⟩

/-- Witness for C18 at a backend that fails twice and then succeeds. -/
theorem CallAdapter_backoff_before_success_witness :
    (CallAdapter exampleJSON flakyBackend completionContext "http://localhost:8081" "hi"
      "adapter-a" "").sleeps = [100, 200] ∧
    (CallAdapter exampleJSON flakyBackend completionContext "http://localhost:8081" "hi"
      "adapter-a" "").sleeps.sum = 300 :=
  (CallAdapter_backoff_before_success exampleJSON flakyBackend completionContext
    "http://localhost:8081" "hi" "adapter-a" "" rfl 2 (by decide)
    (fun i hi => by
      have : i = 0 ∨ i = 1 := by omega
      rcases this with rfl | rfl
      · exact Or.inl (by decide)
      · exact True.intro)
    "hello" ⟨_, rfl, by decide, rfl⟩).2.2 rfl

/-- C19: the code at a backend whose three answers all fail.  The call waits
100, 200 and then 300 milliseconds, 600 in total: the third wait comes after
the last attempt and before the error is returned. -/
theorem CallAdapter_sleeps_after_last_attempt :
    (∀ i, i < 3 → AttemptFails exampleJSON (failingBackend.Do i
      (completionRequest exampleJSON completionContext "http://localhost:8081" "hi"
        "adapter-a" ""))) ∧
    (CallAdapter exampleJSON failingBackend completionContext "http://localhost:8081" "hi"
      "adapter-a" "").requests.length = 3 ∧
    (CallAdapter exampleJSON failingBackend completionContext "http://localhost:8081" "hi"
      "adapter-a" "").sleeps = [100, 200, 300] ∧
    (CallAdapter exampleJSON failingBackend completionContext "http://localhost:8081" "hi"
      "adapter-a" "").sleeps.sum = 600 := by
  refine ⟨fun i hi => ?_, by decide, by decide, by decide⟩
  have : i = 0 ∨ i = 1 ∨ i = 2 := by omega
  rcases this with rfl | rfl | rfl <;> exact Or.inl (by decide)

/-- `strings.TrimSpace` of the empty string. -/
theorem trimSpace_empty : TrimSpace "" = "" := rfl

/-- The `Authorization` values of the request of one attempt. -/
theorem completionRequest_authorization (json : EncodingJSON) (c : Context)
    (baseURL prompt model failHeader : String) :
    Header.values (completionRequest json c baseURL prompt model failHeader).header
      "Authorization" =
      [if TrimSpace (c.GetHeader "Authorization") ≠ "" then c.GetHeader "Authorization"
       else "Bearer internal-service"] := by
  have hc1 : CanonicalMIMEHeaderKey "Authorization" = "Authorization" := by decide
  have hc2 : ¬ "Authorization" = CanonicalMIMEHeaderKey "x-test-fail" := by decide
  unfold completionRequest
  by_cases hf : failHeader = "" <;> by_cases ha : TrimSpace (c.GetHeader "Authorization") = ""
    <;> simp [hf, ha, Header.Set, values_update, hc1, hc2]

/-- C20: every request `CallAdapter` sends carries exactly one `Authorization`
value, which is not empty: the inbound value when that is not blank, and
`Bearer internal-service` otherwise. -/
theorem CallAdapter_authorization (json : EncodingJSON) (backend : CompletionBackend)
    (c : Context) (baseURL prompt model failHeader : String) :
    ∀ q ∈ (CallAdapter json backend c baseURL prompt model failHeader).requests,
      Header.Get q.header "Authorization" ≠ "" ∧
      (TrimSpace (c.GetHeader "Authorization") ≠ "" →
        Header.Get q.header "Authorization" = c.GetHeader "Authorization" ∧
        Header.values q.header "Authorization" = [c.GetHeader "Authorization"]) ∧
      (TrimSpace (c.GetHeader "Authorization") = "" →
        Header.Get q.header "Authorization" = "Bearer internal-service" ∧
        Header.values q.header "Authorization" = ["Bearer internal-service"]) := by
  intro q hq
  have hreq := (loop_requests json backend c baseURL prompt model failHeader 3 0 none [] []).2 q hq
  have hq2 : q = completionRequest json c baseURL prompt model failHeader := by
    rcases hreq with h | h
    · cases h
    · exact h
  have hc1 : CanonicalMIMEHeaderKey "Authorization" = "Authorization" := by decide
  have hv := completionRequest_authorization json c baseURL prompt model failHeader
  subst hq2
  unfold Header.Get
  rw [hc1, hv]
  by_cases ha : TrimSpace (c.GetHeader "Authorization") = ""
  · simp [ha]
  · have hne : c.GetHeader "Authorization" ≠ "" := by
      intro h
      rw [h] at ha
      exact ha trimSpace_empty
    simp [ha, hne]

/-- Witness for C20 at a request with a bearer token, sent to a backend that
fails twice and then succeeds. -/
theorem CallAdapter_authorization_witness :
    completionRequest exampleJSON completionContext "http://localhost:8081" "hi" "adapter-a" ""
      ∈ (CallAdapter exampleJSON flakyBackend completionContext "http://localhost:8081" "hi"
          "adapter-a" "").requests ∧
    TrimSpace (completionContext.GetHeader "Authorization") ≠ "" ∧
    Header.Get (completionRequest exampleJSON completionContext "http://localhost:8081" "hi"
      "adapter-a" "").header "Authorization" = "Bearer good" :=
  ⟨by decide, by decide,
   ((CallAdapter_authorization exampleJSON flakyBackend completionContext
      "http://localhost:8081" "hi" "adapter-a" ""
      (completionRequest exampleJSON completionContext "http://localhost:8081" "hi"
        "adapter-a" "") (by decide)).2.1 (by decide)).1⟩

/-! ### The completion endpoint, the empty service key, and JSON decoding -/

/-- The header map of the request of one attempt. -/
theorem completionRequest_header (json : EncodingJSON) (c : Context)
    (baseURL prompt model failHeader : String) :
    (completionRequest json c baseURL prompt model failHeader).header =
      [("Content-Type", ["application/json"]),
       ("Authorization",
         [if TrimSpace (c.GetHeader "Authorization") ≠ "" then c.GetHeader "Authorization"
          else "Bearer internal-service"])] ++
      (if failHeader ≠ "" then [("X-Test-Fail", [failHeader])] else []) := by
  have hc0 : CanonicalMIMEHeaderKey "content-type" = "Content-Type" := by decide
  have hc1 : CanonicalMIMEHeaderKey "Authorization" = "Authorization" := by decide
  have hc2 : CanonicalMIMEHeaderKey "x-test-fail" = "X-Test-Fail" := by decide
  unfold completionRequest
  by_cases hf : failHeader = "" <;> by_cases ha : TrimSpace (c.GetHeader "Authorization") = ""
    <;> simp [hf, ha, Header.Set, Header.update, Header.keys, NewRequest, hc0, hc1, hc2]

/-- What `c.JSONDoc` sets and what it leaves alone. -/
theorem JSONDoc_fields (c : Context) (code : Int) (obj : List (String × JSONField)) :
    (c.JSONDoc code obj).status = code ∧ (c.JSONDoc code obj).body = c.body ++ [Payload.doc obj] ∧
    (c.JSONDoc code obj).backendCalls = c.backendCalls := by
  unfold Context.JSONDoc Context.Write Context.Status
  simp only
  split <;> simp

/-- The requests `AiComplete` records are those of its one call of `CallAdapter`, made with the inbound `x-test-fail` value. -/
theorem AiComplete_backendCalls (env : String → Option String) (json : EncodingJSON)
    (backend : CompletionBackend)
    (bindJSON : Option Bytes → Except String (String × String)) (now : Int)
    (c c2 : Context) (h : AiComplete env json backend bindJSON now c = some c2) :
    c2.backendCalls = c.backendCalls ∨
    ∃ url prompt model, c2.backendCalls = c.backendCalls ++
      (CallAdapter json backend c url prompt model (c.GetHeader "x-test-fail")).requests := by
  unfold AiComplete at h
  split at h
  · injection h with h
    subst h
    exact Or.inl (JSON_fields _ _ _).2.2.1
  · rename_i prompt model _
    split at h
    · injection h with h
      subst h
      exact Or.inl (JSON_fields _ _ _).2.2.1
    · simp only at h
      split at h
      · injection h with h
        subst h
        exact Or.inl (JSON_fields _ _ _).2.2.1
      · split at h
        · cases h
        · injection h with h
          subst h
          exact Or.inr ⟨_, prompt, model, (JSON_fields _ _ _).2.2.1⟩
        · injection h with h
          subst h
          exact Or.inr ⟨_, prompt, model, (JSONDoc_fields _ _ _).2.2⟩

/-- Every request `CallAdapter` sends carries the fail header it was given when
that is not empty, and no key equal to `x-test-fail` up to case otherwise. -/
theorem callAdapter_requests_testFail (json : EncodingJSON) (backend : CompletionBackend)
    (c : Context) (baseURL prompt model failHeader : String) :
    ∀ q ∈ (CallAdapter json backend c baseURL prompt model failHeader).requests,
      (failHeader ≠ "" →
        Header.values q.header "X-Test-Fail" = [failHeader] ∧
        Header.Get q.header "x-test-fail" = failHeader) ∧
      (failHeader = "" → ∀ k ∈ Header.keys q.header, ¬ EqualFold k "x-test-fail") := by
  intro q hq
  have hreq := (loop_requests json backend c baseURL prompt model failHeader
    3 0 none [] []).2 q hq
  have hq2 : q = completionRequest json c baseURL prompt model failHeader := by
    rcases hreq with h | h
    · cases h
    · exact h
  have hc2 : CanonicalMIMEHeaderKey "x-test-fail" = "X-Test-Fail" := by decide
  subst hq2
  rw [completionRequest_header]
  refine ⟨fun hne => ?_, fun he => ?_⟩
  · unfold Header.Get
    rw [hc2]
    simp [hne, Header.values, List.lookup]
  · intro k hk
    simp only [he, ne_eq, not_true_eq_false, if_false, List.append_nil, Header.keys,
      List.map_cons, List.map_nil, List.mem_cons, List.mem_singleton, List.not_mem_nil,
      or_false] at hk
    rcases hk with rfl | rfl <;> decide

/-- The resolver on a model that is neither adapter name. -/
theorem ResolveAdapterURL_unknown (env : String → Option String) (model : String)
    (ha : model ≠ "adapter-a") (hb : model ≠ "adapter-b") :
    ResolveAdapterURL env model = ("", some "unknown model") := by
  unfold ResolveAdapterURL
  split <;> simp_all

/-- The resolver returns no error on the two adapter names. -/
theorem ResolveAdapterURL_known (env : String → Option String) (model : String)
    (h : model = "adapter-a" ∨ model = "adapter-b") :
    (ResolveAdapterURL env model).2 = none := by
  unfold ResolveAdapterURL
  rcases h with rfl | rfl
  · simp only; split <;> rfl
  · simp only; split <;> rfl

/-- `AiComplete` when the bind fails. -/
theorem AiComplete_bindError (env : String → Option String) (json : EncodingJSON)
    (backend : CompletionBackend)
    (bindJSON : Option Bytes → Except String (String × String)) (now : Int) (c : Context)
    (e : String) (he : bindJSON c.request.body = .error e) :
    AiComplete env json backend bindJSON now c =
      some (((c.Status 400).Abort).JSON 400 [("error", "invalid payload")]) := by
  unfold AiComplete
  rw [he]

/-- `AiComplete` when the prompt or the model is empty. -/
theorem AiComplete_emptyField (env : String → Option String) (json : EncodingJSON)
    (backend : CompletionBackend)
    (bindJSON : Option Bytes → Except String (String × String)) (now : Int) (c : Context)
    (prompt model : String) (hb : bindJSON c.request.body = .ok (prompt, model))
    (hempty : prompt = "" ∨ model = "") :
    AiComplete env json backend bindJSON now c =
      some (c.JSON 400 [("error", "invalid payload")]) := by
  unfold AiComplete
  rw [hb]
  simp only [hempty, if_true]

/-- `AiComplete` on a model the resolver does not know. -/
theorem AiComplete_unknownModel (env : String → Option String) (json : EncodingJSON)
    (backend : CompletionBackend)
    (bindJSON : Option Bytes → Except String (String × String)) (now : Int) (c : Context)
    (prompt model : String) (hb : bindJSON c.request.body = .ok (prompt, model))
    (hp : prompt ≠ "") (hm : model ≠ "")
    (ha : model ≠ "adapter-a") (hbm : model ≠ "adapter-b") :
    AiComplete env json backend bindJSON now c =
      some (c.JSON 400 [("error", "unknown model")]) := by
  unfold AiComplete
  rw [hb]
  simp only [hp, hm, or_self, if_false, ResolveAdapterURL_unknown env model ha hbm]

/-- `AiComplete` on a valid request, in terms of what `CallAdapter` returns. -/
theorem AiComplete_called (env : String → Option String) (json : EncodingJSON)
    (backend : CompletionBackend)
    (bindJSON : Option Bytes → Except String (String × String)) (now : Int) (c : Context)
    (prompt model : String) (hb : bindJSON c.request.body = .ok (prompt, model))
    (hp : prompt ≠ "") (hmodel : model = "adapter-a" ∨ model = "adapter-b") :
    AiComplete env json backend bindJSON now c =
      match (CallAdapter json backend c (ResolveAdapterURL env model).1 prompt model
          (c.GetHeader "x-test-fail")).returned with
      | none => none
      | some (_, some err) =>
        some (({ c with backendCalls := c.backendCalls ++
            (CallAdapter json backend c (ResolveAdapterURL env model).1 prompt model
              (c.GetHeader "x-test-fail")).requests } : Context).JSON 502
          [("error", err), ("model", model), ("completion", "")])
      | some (completion, none) =>
        some (({ c with backendCalls := c.backendCalls ++
            (CallAdapter json backend c (ResolveAdapterURL env model).1 prompt model
              (c.GetHeader "x-test-fail")).requests } : Context).JSONDoc 200
          [("model", .scalar (.str model)),
           ("completion", .scalar (.str completion)),
           ("usage", .object
             [("prompt_tokens", .int (prompt.utf8ByteSize / 4 : Nat)),
              ("completion_tokens", .int (completion.utf8ByteSize / 4 : Nat)),
              ("total_tokens",
                .int ((prompt.utf8ByteSize / 4 + completion.utf8ByteSize / 4 : Nat)))]),
           ("traceId", .scalar (.int now))]) := by
  have hm : model ≠ "" := by
    rcases hmodel with rfl | rfl <;> decide
  unfold AiComplete
  rw [hb]
  simp only [hp, hm, or_self, if_false, ResolveAdapterURL_known env model hmodel]

/-- On a valid request whose `CallAdapter` call returns, `AiComplete` answers and
records exactly the requests of that call, made with the inbound `x-test-fail`
value. -/
theorem AiComplete_records_call (env : String → Option String) (json : EncodingJSON)
    (backend : CompletionBackend)
    (bindJSON : Option Bytes → Except String (String × String)) (now : Int) (c : Context)
    (prompt model : String) (hb : bindJSON c.request.body = .ok (prompt, model))
    (hp : prompt ≠ "") (hmodel : model = "adapter-a" ∨ model = "adapter-b")
    (hret : (CallAdapter json backend c (ResolveAdapterURL env model).1 prompt model
      (c.GetHeader "x-test-fail")).returned ≠ none) :
    ∃ c2, AiComplete env json backend bindJSON now c = some c2 ∧
      c2.backendCalls = c.backendCalls ++
        (CallAdapter json backend c (ResolveAdapterURL env model).1 prompt model
          (c.GetHeader "x-test-fail")).requests := by
  rw [AiComplete_called env json backend bindJSON now c prompt model hb hp hmodel]
  cases hr : (CallAdapter json backend c (ResolveAdapterURL env model).1 prompt model
      (c.GetHeader "x-test-fail")).returned with
  | none => exact absurd hr hret
  | some r =>
    obtain ⟨completion, err⟩ := r
    cases err with
    | some e => exact ⟨_, rfl, (JSON_fields _ _ _).2.2.1⟩
    | none => exact ⟨_, rfl, (JSONDoc_fields _ _ _).2.2⟩

/-- C21: on every valid completion request (bound prompt not empty, model an
adapter name) whose `CallAdapter` call returns, `AiComplete` answers and the
backend requests it adds are exactly those of `CallAdapter` called with the
inbound `x-test-fail` value; each of these requests carries exactly that value
under `X-Test-Fail` when it is not empty, and no key equal to `x-test-fail` up
to case when the inbound request has no such header or an empty one.  Whatever
the request, `AiComplete` records no other backend request. -/
theorem testFail_header_forwarded (json : EncodingJSON) (backend : CompletionBackend)
    (c : Context) :
    (∀ (env : String → Option String)
      (bindJSON : Option Bytes → Except String (String × String)) (now : Int)
      (prompt model : String),
      bindJSON c.request.body = .ok (prompt, model) → prompt ≠ "" →
      (model = "adapter-a" ∨ model = "adapter-b") →
      (CallAdapter json backend c (ResolveAdapterURL env model).1 prompt model
        (c.GetHeader "x-test-fail")).returned ≠ none →
      ∃ c2 sent, AiComplete env json backend bindJSON now c = some c2 ∧
        c2.backendCalls = c.backendCalls ++ sent ∧
        sent = (CallAdapter json backend c (ResolveAdapterURL env model).1 prompt model
          (c.GetHeader "x-test-fail")).requests ∧
        ∀ q ∈ sent,
          (c.GetHeader "x-test-fail" ≠ "" →
            Header.values q.header "X-Test-Fail" = [c.GetHeader "x-test-fail"] ∧
            Header.Get q.header "x-test-fail" = c.GetHeader "x-test-fail") ∧
          (c.GetHeader "x-test-fail" = "" →
            ∀ k ∈ Header.keys q.header, ¬ EqualFold k "x-test-fail")) ∧
    (∀ (baseURL prompt model : String),
      ∀ q ∈ (CallAdapter json backend c baseURL prompt model
          (c.GetHeader "x-test-fail")).requests,
        (c.GetHeader "x-test-fail" ≠ "" →
          Header.values q.header "X-Test-Fail" = [c.GetHeader "x-test-fail"] ∧
          Header.Get q.header "x-test-fail" = c.GetHeader "x-test-fail") ∧
        (c.GetHeader "x-test-fail" = "" →
          ∀ k ∈ Header.keys q.header, ¬ EqualFold k "x-test-fail")) ∧
    (∀ (env : String → Option String)
      (bindJSON : Option Bytes → Except String (String × String)) (now : Int) (c2 : Context),
      AiComplete env json backend bindJSON now c = some c2 →
      c2.backendCalls = c.backendCalls ∨
      ∃ url prompt model, c2.backendCalls = c.backendCalls ++
        (CallAdapter json backend c url prompt model (c.GetHeader "x-test-fail")).requests) := by
  refine ⟨?_, fun baseURL prompt model =>
      callAdapter_requests_testFail json backend c baseURL prompt model _,
    fun env bindJSON now c2 h => AiComplete_backendCalls env json backend bindJSON now c c2 h⟩
  intro env bindJSON now prompt model hb hp hmodel hret
  obtain ⟨c2, h1, h2⟩ :=
    AiComplete_records_call env json backend bindJSON now c prompt model hb hp hmodel hret
  exact ⟨c2, _, h1, h2, rfl, callAdapter_requests_testFail json backend c _ prompt model _⟩

/-- Witness for C21 at an inbound request with `X-Test-Fail: timeout`, a backend
that answers on the third attempt: `AiComplete` records three requests, each
with the value `timeout`. -/
theorem testFail_header_forwarded_witness :
    testFailContext.GetHeader "x-test-fail" = "timeout" ∧
    ∃ c2 sent, AiComplete noEnv exampleJSON flakyBackend exampleBind 0 testFailContext
        = some c2 ∧
      c2.backendCalls = testFailContext.backendCalls ++ sent ∧
      sent.length = 3 ∧
      ∀ q ∈ sent, Header.values q.header "X-Test-Fail" = ["timeout"] := by
  obtain ⟨c2, sent, h1, h2, h3, h4⟩ :=
    (testFail_header_forwarded exampleJSON flakyBackend testFailContext).1
      noEnv exampleBind 0 "hi" "adapter-a" rfl (by decide) (Or.inl rfl) (by decide)
  refine ⟨by decide, c2, sent, h1, h2, ?_, fun q hq => ((h4 q hq).1 (by decide)).1⟩
  rw [h3]
  decide

/-- C22: when the bind fails, or the prompt or the model is empty, `AiComplete`
answers 400 with the JSON error `invalid payload`; when both are non-empty and
the model is neither adapter name it answers 400 with the JSON error
`unknown model`; in every one of these cases it records no backend call. -/
theorem AiComplete_rejects_bad_request (env : String → Option String) (json : EncodingJSON)
    (backend : CompletionBackend)
    (bindJSON : Option Bytes → Except String (String × String)) (now : Int) (c : Context) :
    ((∃ e, bindJSON c.request.body = .error e) ∨
      (∃ prompt model, bindJSON c.request.body = .ok (prompt, model) ∧
        (prompt = "" ∨ model = "")) →
      ∃ c2, AiComplete env json backend bindJSON now c = some c2 ∧ c2.status = 400 ∧
        c2.body = c.body ++ [Payload.json [("error", "invalid payload")]] ∧
        c2.backendCalls = c.backendCalls) ∧
    (∀ prompt model, bindJSON c.request.body = .ok (prompt, model) →
      prompt ≠ "" → model ≠ "" → model ≠ "adapter-a" → model ≠ "adapter-b" →
      ∃ c2, AiComplete env json backend bindJSON now c = some c2 ∧ c2.status = 400 ∧
        c2.body = c.body ++ [Payload.json [("error", "unknown model")]] ∧
        c2.backendCalls = c.backendCalls) := by
  constructor
  · rintro (⟨e, he⟩ | ⟨prompt, model, hb, hempty⟩)
    · have := JSON_fields ((c.Status 400).Abort) 400 [("error", "invalid payload")]
      exact ⟨_, AiComplete_bindError env json backend bindJSON now c e he,
        this.1, this.2.1, this.2.2.1⟩
    · have := JSON_fields c 400 [("error", "invalid payload")]
      exact ⟨_, AiComplete_emptyField env json backend bindJSON now c prompt model hb hempty,
        this.1, this.2.1, this.2.2.1⟩
  · intro prompt model hb hp hm ha hbm
    have := JSON_fields c 400 [("error", "unknown model")]
    exact ⟨_, AiComplete_unknownModel env json backend bindJSON now c prompt model hb hp hm
      ha hbm, this.1, this.2.1, this.2.2.1⟩

/-- Witness for C22 at the prompt `hi` and the model `unknown`. -/
theorem AiComplete_rejects_bad_request_witness :
    unknownModelBind completionContext.request.body = .ok ("hi", "unknown") ∧
    ∃ c2, AiComplete noEnv exampleJSON flakyBackend unknownModelBind 0 completionContext
        = some c2 ∧ c2.status = 400 ∧
      c2.body = completionContext.body ++ [Payload.json [("error", "unknown model")]] ∧
      c2.backendCalls = completionContext.backendCalls :=
  ⟨rfl, (AiComplete_rejects_bad_request noEnv exampleJSON flakyBackend unknownModelBind 0
    completionContext).2 "hi" "unknown" rfl (by decide) (by decide) (by decide) (by decide)⟩

/-- C23: for a non-empty prompt and an adapter name as model, when `CallAdapter`
returns an error `AiComplete` answers 502, not 200, with the JSON object whose
`error` is the message of that error, whose `model` is the requested model and
whose `completion` is the empty string. -/
theorem AiComplete_backend_failure (env : String → Option String) (json : EncodingJSON)
    (backend : CompletionBackend)
    (bindJSON : Option Bytes → Except String (String × String)) (now : Int) (c : Context)
    (prompt model : String) (hb : bindJSON c.request.body = .ok (prompt, model))
    (hp : prompt ≠ "") (hmodel : model = "adapter-a" ∨ model = "adapter-b")
    (completion err : String)
    (hfail : (CallAdapter json backend c (ResolveAdapterURL env model).1 prompt model
      (c.GetHeader "x-test-fail")).returned = some (completion, some err)) :
    ∃ c2, AiComplete env json backend bindJSON now c = some c2 ∧
      c2.status = 502 ∧ c2.status ≠ 200 ∧
      c2.body = c.body ++
        [Payload.json [("error", err), ("model", model), ("completion", "")]] := by
  have h := AiComplete_called env json backend bindJSON now c prompt model hb hp hmodel
  rw [hfail] at h
  simp only at h
  have hj := JSON_fields ({ c with backendCalls := c.backendCalls ++
      (CallAdapter json backend c (ResolveAdapterURL env model).1 prompt model
        (c.GetHeader "x-test-fail")).requests } : Context) 502
    [("error", err), ("model", model), ("completion", "")]
  refine ⟨_, h, hj.1, ?_, hj.2.1⟩
  rw [hj.1]
  decide

/-- Witness for C23 at a backend whose three answers fail, the last with 503. -/
theorem AiComplete_backend_failure_witness :
    (CallAdapter exampleJSON failingBackend completionContext
      (ResolveAdapterURL noEnv "adapter-a").1 "hi" "adapter-a"
      (completionContext.GetHeader "x-test-fail")).returned
      = some ("", some "adapter status 503 Service Unavailable") ∧
    ∃ c2, AiComplete noEnv exampleJSON failingBackend exampleBind 0 completionContext
        = some c2 ∧ c2.status = 502 ∧ c2.status ≠ 200 ∧
      c2.body = completionContext.body ++
        [Payload.json [("error", "adapter status 503 Service Unavailable"),
          ("model", "adapter-a"), ("completion", "")]] :=
  ⟨by decide,
   AiComplete_backend_failure noEnv exampleJSON failingBackend exampleBind 0 completionContext
     "hi" "adapter-a" rfl (by decide) (Or.inl rfl) ""
     "adapter status 503 Service Unavailable" (by decide)⟩

/-- C24: for a non-empty prompt and an adapter name as model, when `CallAdapter`
returns a completion without error `AiComplete` answers 200 with the model, the
completion, and the usage `len(prompt)/4`, `len(completion)/4` and their sum,
the lengths being counted in bytes. -/
theorem AiComplete_success (env : String → Option String) (json : EncodingJSON)
    (backend : CompletionBackend)
    (bindJSON : Option Bytes → Except String (String × String)) (now : Int) (c : Context)
    (prompt model : String) (hb : bindJSON c.request.body = .ok (prompt, model))
    (hp : prompt ≠ "") (hmodel : model = "adapter-a" ∨ model = "adapter-b")
    (completion : String)
    (hok : (CallAdapter json backend c (ResolveAdapterURL env model).1 prompt model
      (c.GetHeader "x-test-fail")).returned = some (completion, none)) :
    ∃ c2, AiComplete env json backend bindJSON now c = some c2 ∧
      c2.status = 200 ∧
      c2.body = c.body ++
        [Payload.doc
          [("model", .scalar (.str model)),
           ("completion", .scalar (.str completion)),
           ("usage", .object
             [("prompt_tokens", .int (prompt.utf8ByteSize / 4 : Nat)),
              ("completion_tokens", .int (completion.utf8ByteSize / 4 : Nat)),
              ("total_tokens",
                .int ((prompt.utf8ByteSize / 4 + completion.utf8ByteSize / 4 : Nat)))]),
           ("traceId", .scalar (.int now))]] := by
  have h := AiComplete_called env json backend bindJSON now c prompt model hb hp hmodel
  rw [hok] at h
  simp only at h
  have hj := JSONDoc_fields ({ c with backendCalls := c.backendCalls ++
      (CallAdapter json backend c (ResolveAdapterURL env model).1 prompt model
        (c.GetHeader "x-test-fail")).requests } : Context) 200
    [("model", .scalar (.str model)),
     ("completion", .scalar (.str completion)),
     ("usage", .object
       [("prompt_tokens", .int (prompt.utf8ByteSize / 4 : Nat)),
        ("completion_tokens", .int (completion.utf8ByteSize / 4 : Nat)),
        ("total_tokens",
          .int ((prompt.utf8ByteSize / 4 + completion.utf8ByteSize / 4 : Nat)))]),
     ("traceId", .scalar (.int now))]
  exact ⟨_, h, hj.1, hj.2.1⟩

/-- Witness for C24 at the prompt `hi`, the model `adapter-a` and a backend body
whose `completion` is `hello`: the usage is 0, 1 and 1. -/
theorem AiComplete_success_witness :
    exampleParse helloBody = .ok (.object [("completion", .string "hello")]) ∧
    (CallAdapter (stdJSON (fun _ => []) exampleParse) (bodyBackend helloBody) completionContext
      (ResolveAdapterURL noEnv "adapter-a").1 "hi" "adapter-a"
      (completionContext.GetHeader "x-test-fail")).returned = some ("hello", none) ∧
    ∃ c2, AiComplete noEnv (stdJSON (fun _ => []) exampleParse) (bodyBackend helloBody)
        exampleBind 7 completionContext
        = some c2 ∧ c2.status = 200 ∧
      c2.body =
        [Payload.doc
          [("model", .scalar (.str "adapter-a")),
           ("completion", .scalar (.str "hello")),
           ("usage", .object
             [("prompt_tokens", .int 0), ("completion_tokens", .int 1),
              ("total_tokens", .int 1)]),
           ("traceId", .scalar (.int 7))]] :=
  ⟨rfl, by decide,
   AiComplete_success noEnv (stdJSON (fun _ => []) exampleParse) (bodyBackend helloBody)
     exampleBind 7 completionContext
     "hi" "adapter-a" rfl (by decide) (Or.inl rfl) "hello" (by decide)⟩

/-- An empty service key never matches. -/
theorem not_keyMatches_empty (c : Context) : ¬ KeyMatches "" c := fun h => h.1 rfl

/-- With an empty service key `JwtOrAPIKeyMiddleware` aborts with 401 every request without a valid bearer token. -/
theorem jwt_rejects_of_not_valid (tokenizer : Tokenizer) (c : Context)
    (hnv : ¬ ValidBearer tokenizer (c.GetHeader "Authorization")) :
    ∃ (c0 : Context) (msg : String), ∀ next,
      JwtOrAPIKeyMiddleware tokenizer "" next c =
        c0.AbortWithStatusJSON 401 [("error", msg)] := by
  by_cases hauth : c.GetHeader "Authorization" = ""
  · refine ⟨c, "unauthorized", fun next => ?_⟩
    rw [jwt_noAuth tokenizer "" next c hauth, keyCheck_noMatch _ _ _ (not_keyMatches_empty c)]
  · by_cases hwf : WellFormedBearer (c.GetHeader "Authorization")
    · obtain ⟨token, htok, ha⟩ := hwf
      have hv : ¬ Validates tokenizer token := fun h => hnv ⟨token, ha, h⟩
      refine ⟨c.logValidateToken token, "invalid token", fun next => ?_⟩
      rw [jwt_bearer tokenizer "" next c token ha htok, if_neg hv]
    · exact ⟨c, "invalid authorization", fun next => jwt_malformed tokenizer "" next c hauth hwf⟩

/-- With an empty service key `AdapterProxyAuth` aborts with 401 every request, outside the bypass, without a valid bearer token. -/
theorem proxy_rejects_of_not_valid (tokenizer : Tokenizer) (healthPath : String) (c : Context)
    (hby : ¬ HealthBypass healthPath c)
    (hnv : ¬ ValidBearer tokenizer (c.GetHeader "Authorization")) :
    ∃ (c0 : Context) (msg : String), ∀ next,
      AdapterProxyAuth tokenizer "" healthPath next c =
        c0.AbortWithStatusJSON 401 [("error", msg)] := by
  cases hp : HasPrefix (c.GetHeader "Authorization") "Bearer " with
  | false =>
    refine ⟨c, "unauthorized", fun next => ?_⟩
    rw [proxy_noBearer tokenizer "" healthPath next c hby hp,
      keyCheck_noMatch _ _ _ (not_keyMatches_empty c)]
  | true =>
    have ha := hasPrefix_eq_append _ _ hp
    have hv : ¬ Validates tokenizer (TrimPrefix (c.GetHeader "Authorization") "Bearer ") :=
      fun h => hnv ⟨_, ha, h⟩
    refine ⟨c.logValidateToken (TrimPrefix (c.GetHeader "Authorization") "Bearer "),
      "unauthorized", fun next => ?_⟩
    rw [proxy_bearer_invalid tokenizer "" healthPath next c _ hby ha hv]
    exact keyCheck_noMatch _ _ _ (not_keyMatches_empty _)

/-- C27: with the empty string as service key, a request without a valid bearer
token is aborted with 401 by `JwtOrAPIKeyMiddleware`, and by `AdapterProxyAuth`
outside the health bypass, whatever its `x-api-key` header; neither gate admits
it. -/
theorem emptyKey_never_admits (tokenizer : Tokenizer) (healthPath : String)
    (next : Context → Context) (c : Context)
    (hnv : ¬ ValidBearer tokenizer (c.GetHeader "Authorization")) :
    ((JwtOrAPIKeyMiddleware tokenizer "" next c).status = 401 ∧
     (JwtOrAPIKeyMiddleware tokenizer "" next c).aborted = true ∧
     ¬ Admits (JwtOrAPIKeyMiddleware tokenizer "") c) ∧
    (¬ HealthBypass healthPath c →
     (AdapterProxyAuth tokenizer "" healthPath next c).status = 401 ∧
     (AdapterProxyAuth tokenizer "" healthPath next c).aborted = true ∧
     ¬ Admits (AdapterProxyAuth tokenizer "" healthPath) c) := by
  constructor
  · obtain ⟨c0, msg, h⟩ := jwt_rejects_of_not_valid tokenizer c hnv
    have hf := abort_fields c0 401 [("error", msg)]
    rw [h next]
    exact ⟨hf.1, hf.2.1, not_admits_of_const _ c _ h⟩
  · intro hby
    obtain ⟨c0, msg, h⟩ := proxy_rejects_of_not_valid tokenizer healthPath c hby hnv
    have hf := abort_fields c0 401 [("error", msg)]
    rw [h next]
    exact ⟨hf.1, hf.2.1, not_admits_of_const _ c _ h⟩

/-- Witness for C27 at a request that carries an `x-api-key` but no `Authorization`. -/
theorem emptyKey_never_admits_witness :
    serviceContext.GetHeader "Authorization" = "" ∧
    (JwtOrAPIKeyMiddleware exampleTokenizer "" id serviceContext).status = 401 ∧
    (JwtOrAPIKeyMiddleware exampleTokenizer "" id serviceContext).aborted = true :=
  ⟨by decide,
   ((emptyKey_never_admits exampleTokenizer "/v1/adapter-a/health" id serviceContext (by
      rintro ⟨token, hauth, _⟩
      have h1 : serviceContext.GetHeader "Authorization" = "" := by decide
      rw [h1] at hauth
      have := congrArg String.data hauth
      rw [bearer_data] at this
      cases this)).1).1,
   ((emptyKey_never_admits exampleTokenizer "/v1/adapter-a/health" id serviceContext (by
      rintro ⟨token, hauth, _⟩
      have h1 : serviceContext.GetHeader "Authorization" = "" := by decide
      rw [h1] at hauth
      have := congrArg String.data hauth
      rw [bearer_data] at this
      cases this)).1).2.1⟩

/-- A member whose key does not match leaves the state alone. -/
theorem storeCompletion_noKey (st : String × Option String) (member : String × JValue)
    (h : ¬ EqualFold member.1 "completion") : storeCompletion st member = st := by
  unfold storeCompletion
  rw [if_neg h]

/-- Members none of whose keys match leave the state alone. -/
theorem fold_storeCompletion_noKey (members : List (String × JValue)) :
    ∀ st : String × Option String,
    (∀ m ∈ members, ¬ EqualFold m.1 "completion") →
    members.foldl storeCompletion st = st := by
  induction members with
  | nil => intro st _; rfl
  | cons m ms ih =>
    intro st h
    rw [List.foldl_cons, storeCompletion_noKey st m (h m (List.mem_cons_self _ _))]
    exact ih st (fun x hx => h x (List.mem_cons_of_mem _ hx))

/-- A saved type error stays saved. -/
theorem storeCompletion_keeps_error (st : String × Option String) (member : String × JValue)
    (h : st.2 ≠ none) : (storeCompletion st member).2 ≠ none := by
  unfold storeCompletion
  split
  · split
    · exact h
    · exact h
    · cases hst : st.2 with
      | none => exact absurd hst h
      | some e => simp
  · exact h

/-- A saved type error stays saved over a list of members. -/
theorem fold_storeCompletion_keeps_error (members : List (String × JValue)) :
    ∀ st : String × Option String, st.2 ≠ none →
    (members.foldl storeCompletion st).2 ≠ none := by
  induction members with
  | nil => intro st h; exact h
  | cons m ms ih =>
    intro st h
    rw [List.foldl_cons]
    exact ih _ (storeCompletion_keeps_error st m h)

/-- A matching member that is neither a string nor `null` saves a type error. -/
theorem storeCompletion_bad (st : String × Option String) (member : String × JValue)
    (hk : EqualFold member.1 "completion") (hv : member.2.isStringOrNull = false) :
    (storeCompletion st member).2 ≠ none := by
  unfold storeCompletion
  rw [if_pos hk]
  split
  · rename_i s heq; rw [heq] at hv; cases hv
  · rename_i heq; rw [heq] at hv; cases hv
  · cases st.2 <;> simp

/-- An object with a matching member that is neither a string nor `null` ends with a saved type error. -/
theorem fold_storeCompletion_bad (members : List (String × JValue)) :
    ∀ st : String × Option String,
    (∃ m ∈ members, EqualFold m.1 "completion" ∧ m.2.isStringOrNull = false) →
    (members.foldl storeCompletion st).2 ≠ none := by
  induction members with
  | nil => intro st h; obtain ⟨m, hm, _⟩ := h; cases hm
  | cons m ms ih =>
    intro st h
    rw [List.foldl_cons]
    obtain ⟨x, hx, hk, hv⟩ := h
    rcases List.mem_cons.mp hx with rfl | hx
    · exact fold_storeCompletion_keeps_error ms _ (storeCompletion_bad st x hk hv)
    · exact ih _ ⟨x, hx, hk, hv⟩

/-- An object without a matching key decodes to the empty string. -/
theorem unmarshal_object_noKey (members : List (String × JValue))
    (h : ∀ m ∈ members, ¬ EqualFold m.1 "completion") :
    unmarshalCompletionValue (.object members) = .ok "" := by
  show completionOf members = .ok ""
  unfold completionOf
  rw [fold_storeCompletion_noKey members _ h]

/-- An object with a matching member that is neither a string nor `null` does not decode. -/
theorem unmarshal_object_bad (members : List (String × JValue))
    (h : ∃ m ∈ members, EqualFold m.1 "completion" ∧ m.2.isStringOrNull = false) :
    ∃ e, unmarshalCompletionValue (.object members) = .error e := by
  have hb := fold_storeCompletion_bad members ("", none) h
  show ∃ e, completionOf members = .error e
  unfold completionOf
  cases hst : (members.foldl storeCompletion ("", none)).2 with
  | none => exact absurd hst hb
  | some e => exact ⟨e, rfl⟩

/-- A value that is neither `null` nor an object does not decode. -/
theorem unmarshal_other (v : JValue) (hn : v ≠ .null) (ho : ∀ members, v ≠ .object members) :
    ∃ e, unmarshalCompletionValue v = .error e := by
  cases v with
  | null => exact absurd rfl hn
  | object members => exact absurd rfl (ho members)
  | bool b => exact ⟨_, rfl⟩
  | number n => exact ⟨_, rfl⟩
  | string s => exact ⟨_, rfl⟩
  | array xs => exact ⟨_, rfl⟩

/-- A response whose body does not decode is a failed attempt. -/
theorem attemptFails_of_unmarshal_error (json : EncodingJSON) (resp : AdapterResponse)
    (e : String) (h : json.UnmarshalCompletion resp.body = .error e) :
    AttemptFails json (.ok resp) :=
  Or.inr ⟨e, h⟩

/-- `CallAdapter` when the first attempt succeeds. -/
theorem CallAdapter_first_success (json : EncodingJSON) (backend : CompletionBackend)
    (c : Context) (baseURL prompt model failHeader : String)
    (hnew : backend.newRequestFails (baseURL ++ "/complete") = false) (s : String)
    (hs : AttemptSucceeds json
      (backend.Do 0 (completionRequest json c baseURL prompt model failHeader)) s) :
    CallAdapter json backend c baseURL prompt model failHeader =
      { returned := some (s, none),
        requests := [completionRequest json c baseURL prompt model failHeader],
        sleeps := [] } := by
  have h := loop_success json backend c baseURL prompt model failHeader hnew s 0 3 0 none [] []
    (by decide) (fun i hi => absurd hi (Nat.not_lt_zero i))
    (by rw [Nat.zero_add]; exact (attemptOutcome_ok_iff json _ s).mpr hs)
  unfold CallAdapter
  rw [h]
  rfl

/-- Members whose matching keys all hold `null` leave the state alone. -/
theorem fold_storeCompletion_null (members : List (String × JValue)) :
    ∀ st : String × Option String,
    (∀ m ∈ members, EqualFold m.1 "completion" → m.2.isNull = true) →
    members.foldl storeCompletion st = st := by
  induction members with
  | nil => intro st _; rfl
  | cons m ms ih =>
    intro st h
    rw [List.foldl_cons]
    have hm : storeCompletion st m = st := by
      by_cases hk : EqualFold m.1 "completion"
      · have hn := h m (List.mem_cons_self _ _) hk
        unfold storeCompletion
        rw [if_pos hk]
        cases hv : m.2 <;> rw [hv] at hn <;> first | rfl | cases hn
      · exact storeCompletion_noKey st m hk
    rw [hm]
    exact ih st (fun x hx => h x (List.mem_cons_of_mem _ hx))

/-- Members whose matching keys all hold a string or `null` save no type error. -/
theorem fold_storeCompletion_good (members : List (String × JValue)) :
    ∀ x : String,
    (∀ m ∈ members, EqualFold m.1 "completion" → m.2.isStringOrNull = true) →
    ∃ y, members.foldl storeCompletion (x, none) = (y, none) := by
  induction members with
  | nil => intro x _; exact ⟨x, rfl⟩
  | cons m ms ih =>
    intro x h
    rw [List.foldl_cons]
    have hm : ∃ y, storeCompletion (x, none) m = (y, none) := by
      by_cases hk : EqualFold m.1 "completion"
      · have hn := h m (List.mem_cons_self _ _) hk
        unfold storeCompletion
        rw [if_pos hk]
        cases hv : m.2 <;> rw [hv] at hn <;> first | exact ⟨_, rfl⟩ | cases hn
      · exact ⟨x, storeCompletion_noKey _ m hk⟩
    obtain ⟨y, hy⟩ := hm
    rw [hy]
    exact ih y (fun z hz => h z (List.mem_cons_of_mem _ hz))

/-- An object whose matching keys all hold `null` decodes to the empty string. -/
theorem unmarshal_object_null (members : List (String × JValue))
    (h : ∀ m ∈ members, EqualFold m.1 "completion" → m.2.isNull = true) :
    unmarshalCompletionValue (.object members) = .ok "" := by
  show completionOf members = .ok ""
  unfold completionOf
  rw [fold_storeCompletion_null members _ h]

/-- An object decodes to the string of its last matching member that holds a
string, when no matching member holds anything but a string or `null`. -/
theorem unmarshal_object_string (pre post : List (String × JValue)) (k s : String)
    (hk : EqualFold k "completion")
    (hpre : ∀ m ∈ pre, EqualFold m.1 "completion" → m.2.isStringOrNull = true)
    (hpost : ∀ m ∈ post, EqualFold m.1 "completion" → m.2.isNull = true) :
    unmarshalCompletionValue (.object (pre ++ (k, .string s) :: post)) = .ok s := by
  show completionOf (pre ++ (k, JValue.string s) :: post) = .ok s
  obtain ⟨y, hy⟩ := fold_storeCompletion_good pre "" hpre
  have hstore : storeCompletion (y, none) (k, JValue.string s) = (s, none) := by
    unfold storeCompletion
    rw [if_pos hk]
  have hfold : (pre ++ (k, JValue.string s) :: post).foldl storeCompletion ("", none)
      = (s, none) := by
    rw [List.foldl_append, List.foldl_cons, hy, hstore, fold_storeCompletion_null post _ hpost]
  unfold completionOf
  rw [hfold]

/-- C28, as amended: a 2xx response is a failed attempt when its body is not
valid JSON, is a value other than `null` or an object, or is an object with a
key equal to `completion` up to case that holds neither a string nor `null`;
it is a successful attempt with the empty string when its body is `null` or an
object in which every key equal to `completion` up to case holds `null` (in
particular an object without such a key), and with `s` when the body is an
object, with any number of members, in which no such key holds anything but a
string or `null` and the last one that holds a string holds `s`; a first
attempt that succeeds ends the call after one request. -/
theorem completion_decoding (marshal : H → Bytes) (parse : Bytes → Except String JValue)
    (resp : AdapterResponse) (h2 : 200 ≤ resp.statusCode ∧ resp.statusCode < 300) :
    (∀ e, parse resp.body = .error e → AttemptFails (stdJSON marshal parse) (.ok resp)) ∧
    (∀ v, parse resp.body = .ok v → v ≠ .null → (∀ members, v ≠ .object members) →
      AttemptFails (stdJSON marshal parse) (.ok resp)) ∧
    (∀ members, parse resp.body = .ok (.object members) →
      (∃ m ∈ members, EqualFold m.1 "completion" ∧ m.2.isStringOrNull = false) →
      AttemptFails (stdJSON marshal parse) (.ok resp)) ∧
    (parse resp.body = .ok .null → AttemptSucceeds (stdJSON marshal parse) (.ok resp) "") ∧
    (∀ members, parse resp.body = .ok (.object members) →
      (∀ m ∈ members, EqualFold m.1 "completion" → m.2.isNull = true) →
      AttemptSucceeds (stdJSON marshal parse) (.ok resp) "") ∧
    (∀ (pre post : List (String × JValue)) (k s : String),
      parse resp.body = .ok (.object (pre ++ (k, .string s) :: post)) →
      EqualFold k "completion" →
      (∀ m ∈ pre, EqualFold m.1 "completion" → m.2.isStringOrNull = true) →
      (∀ m ∈ post, EqualFold m.1 "completion" → m.2.isNull = true) →
      AttemptSucceeds (stdJSON marshal parse) (.ok resp) s) ∧
    (∀ s t, AttemptSucceeds (stdJSON marshal parse) (.ok resp) s →
      AttemptSucceeds (stdJSON marshal parse) (.ok resp) t → s = t) ∧
    (AttemptFails (stdJSON marshal parse) (.ok resp) →
      ∀ s, ¬ AttemptSucceeds (stdJSON marshal parse) (.ok resp) s) ∧
    (∀ (backend : CompletionBackend) (c : Context) (baseURL prompt model failHeader s : String),
      backend.newRequestFails (baseURL ++ "/complete") = false →
      backend.Do 0 (completionRequest (stdJSON marshal parse) c baseURL prompt model failHeader)
        = .ok resp →
      AttemptSucceeds (stdJSON marshal parse) (.ok resp) s →
      (CallAdapter (stdJSON marshal parse) backend c baseURL prompt model failHeader).returned
        = some (s, none) ∧
      (CallAdapter (stdJSON marshal parse) backend c baseURL prompt model failHeader).requests.length
        = 1) := by
  have hu : ∀ v, parse resp.body = .ok v →
      (stdJSON marshal parse).UnmarshalCompletion resp.body = unmarshalCompletionValue v := by
    intro v hv
    simp [stdJSON, UnmarshalCompletionWith, hv]
  have hsucc : ∀ v s, parse resp.body = .ok v → unmarshalCompletionValue v = .ok s →
      AttemptSucceeds (stdJSON marshal parse) (.ok resp) s :=
    fun v s hv hs => ⟨resp, rfl, h2, by rw [hu v hv, hs]⟩
  refine ⟨?_, ?_, ?_, ?_, ?_, ?_, ?_, ?_, ?_⟩
  · intro e he
    exact attemptFails_of_unmarshal_error _ resp e
      (by simp [stdJSON, UnmarshalCompletionWith, he])
  · intro v hv hn ho
    obtain ⟨e, he⟩ := unmarshal_other v hn ho
    exact attemptFails_of_unmarshal_error _ resp e (by rw [hu v hv, he])
  · intro members hv hbad
    obtain ⟨e, he⟩ := unmarshal_object_bad members hbad
    exact attemptFails_of_unmarshal_error _ resp e (by rw [hu _ hv, he])
  · exact fun hv => hsucc _ _ hv rfl
  · exact fun members hv hnull => hsucc _ _ hv (unmarshal_object_null members hnull)
  · exact fun pre post k s hv hk hpre hpost =>
      hsucc _ _ hv (unmarshal_object_string pre post k s hk hpre hpost)
  · rintro s t ⟨r1, hr1, _, hs⟩ ⟨r2, hr2, _, ht⟩
    injection hr1 with hr1
    injection hr2 with hr2
    subst hr1; subst hr2
    rw [hs] at ht
    injection ht
  · intro hfail s hs
    obtain ⟨r1, hr1, _, hs⟩ := hs
    injection hr1 with hr1
    subst hr1
    rcases hfail with hno | ⟨d, hd⟩
    · exact hno h2
    · rw [hs] at hd
      cases hd
  · intro backend c baseURL prompt model failHeader s hnew hdo hs
    rw [CallAdapter_first_success _ backend c baseURL prompt model failHeader hnew s
      (by rw [hdo]; exact hs)]
    exact ⟨rfl, rfl⟩

/-- Witness for C28 at a backend that answers with the five members an adapter
returns: the call returns `hello` after one request. -/
theorem completion_decoding_witness :
    adapterParse adapterBody = .ok (.object adapterMembers) ∧
    (CallAdapter (stdJSON (fun _ => []) adapterParse) (bodyBackend adapterBody)
      completionContext "http://localhost:8081" "hi" "adapter-a" "").returned
      = some ("hello", none) ∧
    (CallAdapter (stdJSON (fun _ => []) adapterParse) (bodyBackend adapterBody)
      completionContext "http://localhost:8081" "hi" "adapter-a" "").requests.length = 1 :=
  ⟨rfl,
   (completion_decoding (fun _ => []) adapterParse
      { statusCode := 200, status := "200 OK", body := adapterBody } (by decide)).2.2.2.2.2.2.2.2
      (bodyBackend adapterBody) completionContext "http://localhost:8081" "hi" "adapter-a" ""
      "hello" rfl rfl
      ((completion_decoding (fun _ => []) adapterParse
        { statusCode := 200, status := "200 OK", body := adapterBody } (by decide)).2.2.2.2.2.1
        [("model", .string "adapter-a")]
        [("usage", .object []), ("request_id", .string "req-1"),
         ("created_at", .string "2025-09-16T10:30:00Z")]
        "completion" "hello" rfl (by decide) (by decide) (by decide))⟩

/-- C28 as stated fails twice: the empty array is valid JSON without a
`completion` key, yet every attempt is a decode failure, so the call sends
three requests and returns an error; and a `completion` holding `null`, which
is not a string, is a success with the empty string after one request. -/
theorem completion_decoding_counterexample :
    exampleParse [91, 93] = .ok (.array []) ∧
    (∃ e, unmarshalCompletionValue (.array []) = .error e) ∧
    (∃ e, (CallAdapter (stdJSON (fun _ => []) exampleParse) (bodyBackend [91, 93])
      completionContext "http://localhost:8081" "hi" "adapter-a" "").returned
      = some ("", some ("invalid adapter response: " ++ e))) ∧
    (CallAdapter (stdJSON (fun _ => []) exampleParse) (bodyBackend [91, 93])
      completionContext "http://localhost:8081" "hi" "adapter-a" "").requests.length = 3 ∧
    exampleParse nullCompletionBody = .ok (.object [("completion", .null)]) ∧
    (CallAdapter (stdJSON (fun _ => []) exampleParse) (bodyBackend nullCompletionBody)
      completionContext "http://localhost:8081" "hi" "adapter-a" "").returned
      = some ("", none) ∧
    (CallAdapter (stdJSON (fun _ => []) exampleParse) (bodyBackend nullCompletionBody)
      completionContext "http://localhost:8081" "hi" "adapter-a" "").requests.length = 1 :=
  ⟨rfl, ⟨_, rfl⟩,
   ⟨"json: cannot unmarshal array into Go value of type struct \x7b Completion string " ++
      "\"json:\\\"completion\\\"\" \x7d", by decide⟩,
   by decide, rfl, by decide, by decide⟩

/-! ### Pagination window -/

/-- C29: the window is not always in bounds. With `page = 4611686018427387905` (an `int` that `strconv.Atoi` accepts), `limit = 2` (which `GetAuditLogs` keeps, being at most 1000) and three items, `(page - 1) * limit` wraps to -2^63: `start` and `end` are negative and `items[start:end]` panics. With `page = 2` and `limit = 2^63 - 1` the start is clamped to 3 and `start + limit` wraps, so `end` is negative. -/
theorem pageWindow_out_of_bounds :
    (1 ≤ (4611686018427387905 : Int) ∧ (4611686018427387905 : Int) ≤ 9223372036854775807) ∧
    auditLimit 2 = 2 ∧
    pageWindow 4611686018427387905 2 3 = (-9223372036854775808, -9223372036854775806) ∧
    ¬ WindowInBounds (pageWindow 4611686018427387905 2 3) 3 ∧
    pageWindow 2 9223372036854775807 3 = (3, -9223372036854775806) ∧
    ¬ WindowInBounds (pageWindow 2 9223372036854775807 3) 3 := by
  decide

/-- When neither `(page - 1) * limit` nor `total + limit` leaves the `int` range the window is in bounds. -/
theorem pageWindow_in_bounds (page limit total : Int) (hp : 1 ≤ page) (hl : 1 ≤ limit)
    (ht : 0 ≤ total) (h1 : (page - 1) * limit ≤ 9223372036854775807)
    (h2 : total + limit ≤ 9223372036854775807) :
    WindowInBounds (pageWindow page limit total) total := by
  have hw : ∀ x : Int, 0 ≤ x → x ≤ 9223372036854775807 → wrapInt64 x = x := by
    intro x h0 hx
    unfold wrapInt64
    omega
  have h0 : 0 ≤ (page - 1) * limit := Int.mul_nonneg (by omega) (by omega)
  unfold pageWindow WindowInBounds
  simp only [hw _ h0 h1]
  by_cases hs : (page - 1) * limit > total
  · simp only [hs, if_true]
    rw [hw _ (by omega) h2]
    have : total + limit > total := by omega
    simp only [this, if_true]
    omega
  · simp only [hs, if_false]
    rw [hw _ (by omega) (by omega)]
    by_cases he : (page - 1) * limit + limit > total
    · simp only [he, if_true]; omega
    · simp only [he, if_false]; omega

/-! ### `sanitizeDetails` -/

/-- For the two password keys, `strings.ToLower k` equals the key exactly when `k` equals it up to ASCII case. -/
theorem toLower_eq_iff_equalFold (f : Char → Char) (hf : UnicodeLowerSound f)
    (k target : String)
    (ht : target = "old_password" ∨ target = "new_password") :
    ToLower f k = target ↔ EqualFold k target := by
  have hlow : target.data.map Char.toLower = target.data := by
    rcases ht with rfl | rfl <;> decide
  have hasc : target.data.all isASCII = true := by
    rcases ht with rfl | rfl <;> decide
  unfold EqualFold
  rw [hlow]
  by_cases ha : k.data.all isASCII = true
  · rw [ToLower_ascii f k ha]
    constructor
    · intro h; rw [← h]
    · intro h; exact String.ext h
  · constructor
    · intro h
      exfalso
      simp only [ToLower, ha, Bool.false_eq_true, if_false] at h
      have hd : k.data.map f = target.data := by rw [← h]
      simp only [List.all_eq_true, not_forall] at ha
      obtain ⟨ch, hch, hna⟩ := ha
      have hna2 : isASCII ch = false := by simpa using hna
      have hmem : f ch ∈ target.data := by
        rw [← hd]; exact List.mem_map_of_mem f hch
      rcases ht with rfl | rfl
      · exact (hf ch hna2).1 hmem
      · exact (hf ch hna2).2 hmem
    · intro h
      exact absurd (all_isASCII_of_map_toLower _ _ h hasc) ha

/-- Assigning to a key the map does not hold appends the entry. -/
theorem set_fresh (m : Details) (k : String) (v : JValue) (h : k ∉ m.map Prod.fst) :
    Details.set m k v = m ++ [(k, v)] := by
  unfold Details.set
  have : ¬ (m.map Prod.fst).contains k = true := by simpa using h
  rw [if_neg this]

/-- The pass over a map with distinct keys builds the map of redacted entries, in order. -/
theorem sanitize_fold (f : Char → Char) (hf : UnicodeLowerSound f) (m : Details) :
    ∀ out : Details, (m.map Prod.fst).Nodup →
      (∀ k ∈ m.map Prod.fst, k ∉ out.map Prod.fst) →
      m.foldl (fun out e =>
        let key := ToLower f e.1
        if key = "old_password" ∨ key = "new_password" then
          Details.set out e.1 (.string "***redacted***")
        else Details.set out e.1 e.2) out = out ++ m.map redact := by
  induction m with
  | nil => intro out _ _; simp
  | cons e es ih =>
    intro out hnd hdis
    simp only [List.map_cons, List.nodup_cons] at hnd
    have hfresh : e.1 ∉ out.map Prod.fst := hdis e.1 (by simp)
    have hstep : (let key := ToLower f e.1
        if key = "old_password" ∨ key = "new_password" then
          Details.set out e.1 (.string "***redacted***")
        else Details.set out e.1 e.2) = out ++ [redact e] := by
      simp only
      have hiff : (ToLower f e.1 = "old_password" ∨ ToLower f e.1 = "new_password") ↔
          IsPasswordKey e.1 :=
        or_congr (toLower_eq_iff_equalFold f hf e.1 _ (Or.inl rfl))
          (toLower_eq_iff_equalFold f hf e.1 _ (Or.inr rfl))
      unfold redact
      by_cases hp : IsPasswordKey e.1
      · rw [if_pos (hiff.mpr hp), if_pos hp]
        exact set_fresh _ _ _ hfresh
      · rw [if_neg (fun h => hp (hiff.mp h)), if_neg hp]
        exact set_fresh _ _ _ hfresh
    rw [List.foldl_cons, hstep, ih (out ++ [redact e]) hnd.2]
    · simp
    · intro k hk
      simp only [List.map_append, List.map_cons, List.map_nil, List.mem_append,
        List.mem_singleton, not_or]
      refine ⟨hdis k (by simp [hk]), ?_⟩
      intro hke
      have : k = e.1 := hke
      rw [this] at hk
      exact hnd.1 hk

/-- Closed form of `sanitizeDetails` on a map. -/
theorem sanitizeDetails_eq (f : Char → Char) (hf : UnicodeLowerSound f) (m : Details)
    (hnd : (m.map Prod.fst).Nodup) :
    sanitizeDetails f (some m) = some (m.map redact) := by
  unfold sanitizeDetails
  simp only
  rw [sanitize_fold f hf m [] hnd (fun k _ => by simp)]
  simp

/-- Looking a key up in the redacted map. -/
theorem lookup_map_redact (k : String) : ∀ m : Details,
    List.lookup k (m.map redact) =
      (List.lookup k m).map (fun v => if IsPasswordKey k then .string "***redacted***" else v) := by
  intro m
  induction m with
  | nil => rfl
  | cons e es ih =>
    obtain ⟨a, v⟩ := e
    by_cases hka : k = a
    · subst hka
      simp [redact, List.lookup]
    · have hb : (k == a) = false := by simpa using hka
      simp only [List.map_cons, redact, List.lookup, hb]
      exact ih

/-- C30: `sanitizeDetails` gives `nil` for `nil`; for a map it gives a map with the same keys in which each key equal to `old_password` or `new_password` up to case holds `***redacted***` and each other key holds its original value. A key `password` is not a password key. -/
theorem sanitizeDetails_redacts (unicodeToLower : Char → Char)
    (hunicode : UnicodeLowerSound unicodeToLower) :
    sanitizeDetails unicodeToLower none = none ∧
    ∀ m : Details, (m.map Prod.fst).Nodup →
      ∃ out : Details, sanitizeDetails unicodeToLower (some m) = some out ∧
        out.map Prod.fst = m.map Prod.fst ∧
        (∀ k v, List.lookup k m = some v → IsPasswordKey k →
          List.lookup k out = some (.string "***redacted***")) ∧
        (∀ k v, List.lookup k m = some v → ¬ IsPasswordKey k → List.lookup k out = some v) ∧
        (∀ k, List.lookup k m = none → List.lookup k out = none) ∧
        ¬ IsPasswordKey "password" := by
  refine ⟨rfl, fun m hnd => ⟨m.map redact, sanitizeDetails_eq _ hunicode m hnd, ?_, ?_, ?_, ?_,
    by decide⟩⟩
  · rw [List.map_map]; rfl
  · intro k v hl hp
    rw [lookup_map_redact, hl]
    simp [hp]
  · intro k v hl hp
    rw [lookup_map_redact, hl]
    simp [hp]
  · intro k hl
    rw [lookup_map_redact, hl]
    rfl

/-- The theorem C30 at `exampleDetails`. -/
theorem sanitizeDetails_redacts_witness :
    UnicodeLowerSound id ∧ (exampleDetails.map Prod.fst).Nodup ∧
    ∃ out : Details, sanitizeDetails id (some exampleDetails) = some out ∧
      out.map Prod.fst = exampleDetails.map Prod.fst ∧
      List.lookup "Old_Password" out = some (.string "***redacted***") ∧
      List.lookup "NEW_PASSWORD" out = some (.string "***redacted***") ∧
      List.lookup "password" out = some (.string "keep") := by
  have hid : UnicodeLowerSound id := by
    intro ch hch
    have h1 : ∀ x ∈ "old_password".data, isASCII x = true := by decide
    have h2 : ∀ x ∈ "new_password".data, isASCII x = true := by decide
    refine ⟨fun h => ?_, fun h => ?_⟩
    · have := h1 _ h; simp only [id] at this; rw [hch] at this; cases this
    · have := h2 _ h; simp only [id] at this; rw [hch] at this; cases this
  have hnd : (exampleDetails.map Prod.fst).Nodup := by decide
  obtain ⟨out, h1, h2, h3, h4, _⟩ := (sanitizeDetails_redacts id hid).2 exampleDetails hnd
  exact ⟨hid, hnd, out, h1, h2, h3 "Old_Password" (.string "hunter2") rfl (by decide),
    h3 "NEW_PASSWORD" (.number "7") rfl (by decide),
    h4 "password" (.string "keep") rfl (by decide)⟩

/-! ### `StrictAuthValidation` -/

/-- The matcher decides `Matches`. -/
theorem matchItems_iff (s : List Char) : ∀ items, matchItems items s = true ↔ Matches items s := by
  induction s with
  | nil =>
    intro items
    cases items with
    | nil => simp [matchItems, Matches]
    | cons it items =>
      cases it with
      | lit c => simp [matchItems, Matches]
      | plus cls =>
        simp only [matchItems, Matches, Bool.false_eq_true, false_iff, not_exists, not_and]
        intro a rest ha _ hs
        cases a with
        | nil => exact absurd rfl ha
        | cons y ys => cases hs
  | cons x xs ih =>
    intro items
    cases items with
    | nil => simp [matchItems, Matches]
    | cons it items =>
      cases it with
      | lit c =>
        simp only [matchItems, Matches, Bool.and_eq_true, beq_iff_eq, ih]
        constructor
        · rintro ⟨rfl, h⟩; exact ⟨xs, rfl, h⟩
        · rintro ⟨ys, hs, h⟩
          injection hs with h1 h2
          subst h1; subst h2
          exact ⟨rfl, h⟩
      | plus cls =>
        simp only [matchItems, Bool.and_eq_true, Bool.or_eq_true, ih]
        constructor
        · rintro ⟨hx, h | h⟩
          · exact ⟨[x], xs, by simp, by simpa using hx, rfl, h⟩
          · obtain ⟨a, rest, ha, hall, hs, hm⟩ := h
            refine ⟨x :: a, rest, by simp, ?_, by rw [hs]; rfl, hm⟩
            intro y hy
            rcases List.mem_cons.mp hy with rfl | hy
            · exact hx
            · exact hall y hy
        · rintro ⟨a, rest, ha, hall, hs, hm⟩
          cases a with
          | nil => exact absurd rfl ha
          | cons y ys =>
            injection hs with h1 h2
            subst h1
            refine ⟨hall x (List.mem_cons_self _ _), ?_⟩
            cases ys with
            | nil => left; rw [h2]; exact hm
            | cons z zs =>
              right
              exact ⟨z :: zs, rest, by simp, fun w hw => hall w (List.mem_cons_of_mem _ hw),
                h2, hm⟩

/-- A string matches the email pattern exactly when it is `a@b.d` with `a`, `b`, `d` non-empty and free of whitespace and `@`. -/
theorem matches_emailRe_iff (s : List Char) :
    Matches emailRe s ↔
      ∃ a b d : List Char, s = a ++ '@' :: (b ++ '.' :: d) ∧ a ≠ [] ∧ b ≠ [] ∧ d ≠ [] ∧
        (∀ x ∈ a, emailChar x = true) ∧ (∀ x ∈ b, emailChar x = true) ∧
        (∀ x ∈ d, emailChar x = true) := by
  unfold emailRe
  simp only [Matches]
  constructor
  · rintro ⟨a, r1, ha, hca, hs, r2, h1, b, r3, hb, hcb, h2, r4, h3, d, r5, hd, hcd, h4, h5⟩
    subst h5
    refine ⟨a, b, d, ?_, ha, hb, hd, hca, hcb, hcd⟩
    rw [hs, h1, h2, h3, h4, List.append_nil]
  · rintro ⟨a, b, d, hs, ha, hb, hd, hca, hcb, hcd⟩
    exact ⟨a, _, ha, hca, hs, _, rfl, b, _, hb, hcb, rfl, _, rfl, d, [], hd, hcd,
      (List.append_nil d).symm, rfl⟩

/-- A string matches the username pattern exactly when it has 3 to 64 characters, all of the class. -/
theorem matchUsername_iff (s : String) :
    matchUsername s = true ↔
      3 ≤ s.length ∧ s.length ≤ 64 ∧ ∀ ch ∈ s.data, usernameChar ch = true := by
  unfold matchUsername
  simp only [Bool.and_eq_true, decide_eq_true_eq, List.all_eq_true, String.length, and_assoc]

/-- A handler that hands the context to every continuation does not also answer every continuation with one fixed context. -/
theorem pass_abort_absurd (f : (Context → Context) → Option Context) (c r : Context)
    (hp : ∀ next, f next = some (next c)) (hr : ∀ next, f next = some r) : False := by
  have h3 := hp (fun _ => { r with status := r.status + 1 })
  rw [hr] at h3
  have h4 := congrArg Context.status (Option.some.inj h3)
  simp only at h4
  omega

/-- A request that is not a `POST` to `/register` or `/login` is passed on. -/
theorem StrictAuthValidation_other (json : AuthJSON) (fullPath : String) (c : Context)
    (h : ¬ (c.request.method = "POST" ∧
      (authPath fullPath c = "/register" ∨ authPath fullPath c = "/login")))
    (next : Context → Context) :
    StrictAuthValidation json fullPath next c = some (next c) := by
  unfold authPath at h
  unfold StrictAuthValidation
  simp only
  rw [if_neg h]

/-- The checks of a `POST /register` request with a body. -/
theorem register_checks_eq (json : AuthJSON) (fullPath : String) (c : Context)
    (body : Bytes) (hm : c.request.method = "POST") (hp : authPath fullPath c = "/register")
    (hb : c.request.body = some body) (next : Context → Context) :
    StrictAuthValidation json fullPath next c =
      match json.UnmarshalRegister body with
      | .error _ => some (c.AbortWithStatusJSON 400 [("error", "invalid payload")])
      | .ok input =>
        if !matchItems emailRe input.Email.data then
          some (c.AbortWithStatusJSON 400 [("error", "invalid email")])
        else if !matchUsername input.Username then
          some (c.AbortWithStatusJSON 400 [("error", "invalid username")])
        else if input.Password.utf8ByteSize < 8 then
          some (c.AbortWithStatusJSON 400 [("error", "weak password")])
        else some (next c) := by
  unfold authPath at hp
  unfold StrictAuthValidation
  simp only
  rw [if_pos ⟨hm, Or.inl hp⟩, hb]
  simp only
  rw [if_pos hp]

/-- C26: a request that is not a `POST` to `/register` or `/login` is passed on unchecked. A `POST /register` request reaches the handler exactly when its body decodes, the email matches the email pattern, the username has 3 to 64 characters of its class and the password has at least 8 bytes; otherwise it is aborted with 400 and the error of the first failing check, in the order `invalid payload`, `invalid email`, `invalid username`, `weak password`. The email pattern is spelled out in the last part. -/
theorem StrictAuthValidation_register (json : AuthJSON) (fullPath : String) (c : Context) :
    (¬ (c.request.method = "POST" ∧
        (authPath fullPath c = "/register" ∨ authPath fullPath c = "/login")) →
      ∀ next, StrictAuthValidation json fullPath next c = some (next c)) ∧
    (∀ body, c.request.method = "POST" → authPath fullPath c = "/register" →
      c.request.body = some body →
      ((∀ next, StrictAuthValidation json fullPath next c = some (next c)) ↔
        ∃ input, json.UnmarshalRegister body = .ok input ∧
          Matches emailRe input.Email.data ∧
          (3 ≤ input.Username.length ∧ input.Username.length ≤ 64 ∧
            ∀ ch ∈ input.Username.data, usernameChar ch = true) ∧
          8 ≤ input.Password.utf8ByteSize) ∧
      (∀ e, json.UnmarshalRegister body = .error e →
        ∀ next, StrictAuthValidation json fullPath next c =
          some (c.AbortWithStatusJSON 400 [("error", "invalid payload")])) ∧
      (∀ input, json.UnmarshalRegister body = .ok input →
        ¬ Matches emailRe input.Email.data →
        ∀ next, StrictAuthValidation json fullPath next c =
          some (c.AbortWithStatusJSON 400 [("error", "invalid email")])) ∧
      (∀ input, json.UnmarshalRegister body = .ok input →
        Matches emailRe input.Email.data →
        ¬ (3 ≤ input.Username.length ∧ input.Username.length ≤ 64 ∧
            ∀ ch ∈ input.Username.data, usernameChar ch = true) →
        ∀ next, StrictAuthValidation json fullPath next c =
          some (c.AbortWithStatusJSON 400 [("error", "invalid username")])) ∧
      (∀ input, json.UnmarshalRegister body = .ok input →
        Matches emailRe input.Email.data →
        (3 ≤ input.Username.length ∧ input.Username.length ≤ 64 ∧
            ∀ ch ∈ input.Username.data, usernameChar ch = true) →
        input.Password.utf8ByteSize < 8 →
        ∀ next, StrictAuthValidation json fullPath next c =
          some (c.AbortWithStatusJSON 400 [("error", "weak password")]))) ∧
    (∀ s, Matches emailRe s ↔
      ∃ a b d : List Char, s = a ++ '@' :: (b ++ '.' :: d) ∧ a ≠ [] ∧ b ≠ [] ∧ d ≠ [] ∧
        (∀ x ∈ a, emailChar x = true) ∧ (∀ x ∈ b, emailChar x = true) ∧
        (∀ x ∈ d, emailChar x = true)) := by
  refine ⟨fun h next => StrictAuthValidation_other json fullPath c h next, ?_,
    matches_emailRe_iff⟩
  intro body hm hp hb
  have heq := register_checks_eq json fullPath c body hm hp hb
  have hpay : ∀ e, json.UnmarshalRegister body = .error e →
      ∀ next, StrictAuthValidation json fullPath next c =
        some (c.AbortWithStatusJSON 400 [("error", "invalid payload")]) := by
    intro e he next
    rw [heq, he]
  have hemail : ∀ input, json.UnmarshalRegister body = .ok input →
      ¬ Matches emailRe input.Email.data →
      ∀ next, StrictAuthValidation json fullPath next c =
        some (c.AbortWithStatusJSON 400 [("error", "invalid email")]) := by
    intro input hi hne next
    rw [heq, hi]
    have : matchItems emailRe input.Email.data = false := by
      rw [← Bool.not_eq_true, matchItems_iff]; exact hne
    simp only [this, Bool.not_false, if_true]
  have huser : ∀ input, json.UnmarshalRegister body = .ok input →
      Matches emailRe input.Email.data →
      ¬ (3 ≤ input.Username.length ∧ input.Username.length ≤ 64 ∧
          ∀ ch ∈ input.Username.data, usernameChar ch = true) →
      ∀ next, StrictAuthValidation json fullPath next c =
        some (c.AbortWithStatusJSON 400 [("error", "invalid username")]) := by
    intro input hi he hnu next
    rw [heq, hi]
    have h1 : matchItems emailRe input.Email.data = true := (matchItems_iff _ _).mpr he
    have h2 : matchUsername input.Username = false := by
      rw [← Bool.not_eq_true, matchUsername_iff]; exact hnu
    simp only [h1, h2, Bool.not_true, Bool.not_false, if_true, Bool.false_eq_true, if_false]
  have hweak : ∀ input, json.UnmarshalRegister body = .ok input →
      Matches emailRe input.Email.data →
      (3 ≤ input.Username.length ∧ input.Username.length ≤ 64 ∧
          ∀ ch ∈ input.Username.data, usernameChar ch = true) →
      input.Password.utf8ByteSize < 8 →
      ∀ next, StrictAuthValidation json fullPath next c =
        some (c.AbortWithStatusJSON 400 [("error", "weak password")]) := by
    intro input hi he hu hw next
    rw [heq, hi]
    have h1 : matchItems emailRe input.Email.data = true := (matchItems_iff _ _).mpr he
    have h2 : matchUsername input.Username = true := (matchUsername_iff _).mpr hu
    simp only [h1, h2, Bool.not_true, Bool.false_eq_true, if_false, if_pos hw]
  refine ⟨?_, hpay, hemail, huser, hweak⟩
  constructor
  · intro hpass
    cases hi : json.UnmarshalRegister body with
    | error e =>
      exact (pass_abort_absurd _ c _ hpass (hpay e hi)).elim
    | ok input =>
      by_cases he : Matches emailRe input.Email.data
      · by_cases hu : (3 ≤ input.Username.length ∧ input.Username.length ≤ 64 ∧
            ∀ ch ∈ input.Username.data, usernameChar ch = true)
        · by_cases hw : input.Password.utf8ByteSize < 8
          · exact (pass_abort_absurd _ c _ hpass (hweak input hi he hu hw)).elim
          · exact ⟨input, rfl, he, hu, by omega⟩
        · exact (pass_abort_absurd _ c _ hpass (huser input hi he hu)).elim
      · exact (pass_abort_absurd _ c _ hpass (hemail input hi he)).elim
  · rintro ⟨input, hi, he, hu, hw⟩ next
    rw [heq, hi]
    have h1 : matchItems emailRe input.Email.data = true := (matchItems_iff _ _).mpr he
    have h2 : matchUsername input.Username = true := (matchUsername_iff _).mpr hu
    have h3 : ¬ input.Password.utf8ByteSize < 8 := by omega
    simp only [h1, h2, Bool.not_true, Bool.false_eq_true, if_false, if_neg h3]

/-- The theorem C26 at a valid registration, at an undecodable body, a bad email, a short username, and at a `GET` request. -/
theorem StrictAuthValidation_register_witness :
    (∀ next, StrictAuthValidation exampleAuthJSON "/register" next (registerContext [1]) =
      some (next (registerContext [1]))) ∧
    (∀ next, StrictAuthValidation exampleAuthJSON "" next (registerContext [0]) =
      some ((registerContext [0]).AbortWithStatusJSON 400 [("error", "invalid payload")])) ∧
    (∀ next, StrictAuthValidation exampleAuthJSON "" next (registerContext [2]) =
      some ((registerContext [2]).AbortWithStatusJSON 400 [("error", "invalid email")])) ∧
    (∀ next, StrictAuthValidation exampleAuthJSON "" next (registerContext [3]) =
      some ((registerContext [3]).AbortWithStatusJSON 400 [("error", "invalid username")])) ∧
    (∀ next, StrictAuthValidation exampleAuthJSON "/users" next
        (contextWith "GET" "/register" []) = some (next (contextWith "GET" "/register" []))) :=
  ⟨((StrictAuthValidation_register exampleAuthJSON "/register" (registerContext [1])).2.1
      [1] rfl rfl rfl).1.mpr
      ⟨_, rfl, (matchItems_iff _ _).mp (by decide), by decide, by decide⟩,
   ((StrictAuthValidation_register exampleAuthJSON "" (registerContext [0])).2.1
      [0] rfl rfl rfl).2.1 _ rfl,
   ((StrictAuthValidation_register exampleAuthJSON "" (registerContext [2])).2.1
      [2] rfl rfl rfl).2.2.1 _ rfl (fun h => absurd ((matchItems_iff _ _).mpr h) (by decide)),
   ((StrictAuthValidation_register exampleAuthJSON "" (registerContext [3])).2.1
      [3] rfl rfl rfl).2.2.2.1 _ rfl ((matchItems_iff _ _).mp (by decide)) (by decide),
   (StrictAuthValidation_register exampleAuthJSON "/users"
      (contextWith "GET" "/register" [])).1 (by decide)⟩

/-! ### `validateSteps` -/

/-- A predicate that implies another and fails at an element where the other holds counts strictly fewer elements. -/
theorem countP_lt_of_imp (p q : String → Bool) (u : String) :
    ∀ l : List String, (∀ x ∈ l, p x = true → q x = true) → u ∈ l → p u = false →
      q u = true → l.countP p < l.countP q := by
  intro l
  induction l with
  | nil => intro _ hu; cases hu
  | cons a t ih =>
    intro himp hu hpu hqu
    have hmono : t.countP p ≤ t.countP q :=
      List.countP_mono_left (fun x hx => himp x (List.mem_cons_of_mem _ hx))
    by_cases hua : u = a
    · subst hua
      rw [List.countP_cons_of_neg _ _ (by simp [hpu]), List.countP_cons_of_pos _ _ hqu]
      omega
    · have hut : u ∈ t := by
        rcases List.mem_cons.mp hu with h | h
        · exact absurd h hua
        · exact h
      have hlt := ih (fun x hx => himp x (List.mem_cons_of_mem _ hx)) hut hpu hqu
      by_cases hpa : p a = true
      · rw [List.countP_cons_of_pos _ _ hpa,
          List.countP_cons_of_pos _ _ (himp a (List.mem_cons_self _ _) hpa)]
        omega
      · rw [List.countP_cons_of_neg _ _ hpa]
        by_cases hqa : q a = true
        · rw [List.countP_cons_of_pos _ _ hqa]; omega
        · rw [List.countP_cons_of_neg _ _ hqa]; exact hlt

/-- A call that changes nothing satisfies `Post`. -/
theorem post_refl (g : Graph) (vis : Visited) (h1 : BlackClosed g vis)
    (h2 : BlackAcyclic g vis) : Post g vis vis :=
  ⟨h1, h2, fun _ => Iff.rfl, fun _ h => h⟩

/-- `Post` composes over consecutive calls. -/
theorem post_trans (g : Graph) (a b c : Visited) (h1 : Post g a b) (h2 : Post g b c) :
    Post g a c :=
  ⟨h2.1, h2.2.1, fun x => (h2.2.2.1 x).trans (h1.2.2.1 x), fun x h => h2.2.2.2 x (h1.2.2.2 x h)⟩

/-- A call that returns false does not increase the number of unvisited nodes. -/
theorem whiteCount_le_of_post (g : Graph) (nodes : List String) (vis vis2 : Visited)
    (h : Post g vis vis2) : whiteCount nodes vis2 ≤ whiteCount nodes vis := by
  unfold whiteCount
  apply List.countP_mono_left
  intro x _ hx
  unfold isWhite at hx ⊢
  simp only [Bool.and_eq_true, bne_iff_ne, ne_eq] at hx ⊢
  exact ⟨fun h1 => hx.1 ((h.2.2.1 x).mpr h1), fun h2 => hx.2 (h.2.2.2 x h2)⟩

/-- Marking an unvisited node of the list decreases the number of unvisited nodes. -/
theorem whiteCount_set_lt (nodes : List String) (vis : Visited) (u : String)
    (hu : u ∈ nodes) (h1 : vis u ≠ 1) (h2 : vis u ≠ 2) :
    whiteCount nodes (vis.set u 1) < whiteCount nodes vis := by
  unfold whiteCount
  apply countP_lt_of_imp _ _ u nodes _ hu
  · simp [isWhite, Visited.set]
  · simp [isWhite, h1, h2]
  · intro x _ hx
    unfold isWhite Visited.set at hx
    unfold isWhite
    by_cases hxu : x = u
    · simp [hxu] at hx
    · simpa [hxu] using hx

/-- A successor of any node is a node of the graph. -/
theorem mem_graphNodes_of_edge (g : Graph) (u v : String) (h : v ∈ g.get u) :
    v ∈ graphNodes g := by
  unfold Graph.get at h
  cases hl : List.lookup u g with
  | none => rw [hl] at h; cases h
  | some l =>
    rw [hl] at h
    have hmem : (u, l) ∈ g := by
      clear h
      induction g with
      | nil => cases hl
      | cons e es ih =>
        obtain ⟨a, vs⟩ := e
        by_cases hua : u = a
        · subst hua
          simp [List.lookup] at hl
          subst hl
          exact List.mem_cons_self _ _
        · have hb : (u == a) = false := by simpa using hua
          simp only [List.lookup, hb] at hl
          exact List.mem_cons_of_mem _ (ih hl)
    unfold graphNodes
    apply List.mem_append_right
    rw [List.mem_flatten]
    exact ⟨l, List.mem_map.mpr ⟨(u, l), hmem, rfl⟩, h⟩

/-- Everything reachable from a finished node is finished, when finished nodes are closed under successors. -/
theorem black_reach (g : Graph) (vis : Visited) (hc : BlackClosed g vis) (v w : String)
    (hv : vis v = 2) (h : Relation.ReflTransGen (GEdge g) v w) : vis w = 2 := by
  induction h with
  | refl => exact hv
  | tail _ hbc ih => exact hc _ ih _ hbc

/-- The contract of the loop over a list of nodes, given the contract of `dfs`. -/
theorem dfsRange_ok (g : Graph) (n : Nat) (f : String → Visited → Option (Bool × Visited))
    (hf : DfsOK g n f) :
    ∀ (l : List String) (vis : Visited), (∀ v ∈ l, v ∈ graphNodes g) →
      whiteCount (graphNodes g) vis < n → BlackClosed g vis → BlackAcyclic g vis →
      ∃ b vis2, dfsRange f l vis = some (b, vis2) ∧
        (b = true → (∀ x, vis x = 1 → ∀ v ∈ l, Relation.TransGen (GEdge g) x v) →
          ∃ y, Relation.TransGen (GEdge g) y y) ∧
        (b = false → Post g vis vis2 ∧ ∀ v ∈ l, vis2 v = 2) := by
  intro l
  induction l with
  | nil =>
    intro vis _ _ h1 h2
    exact ⟨false, vis, rfl, fun h => (by cases h), fun _ => ⟨post_refl g vis h1 h2, fun v hv => (by cases hv)⟩⟩
  | cons v vs ih =>
    intro vis hmem hcount h1 h2
    obtain ⟨b, vis2, hfv, htrue, hfalse⟩ := hf v vis (hmem v (List.mem_cons_self _ _)) hcount h1 h2
    cases b with
    | true =>
      refine ⟨true, vis2, ?_, ?_, fun h => (by cases h)⟩
      · simp only [dfsRange, hfv]
      · intro _ hgrey
        exact htrue rfl (fun x hx => hgrey x hx v (List.mem_cons_self _ _))
    | false =>
      obtain ⟨hpost, hblack⟩ := hfalse rfl
      have hcount2 : whiteCount (graphNodes g) vis2 < n :=
        Nat.lt_of_le_of_lt (whiteCount_le_of_post g _ vis vis2 hpost) hcount
      obtain ⟨b3, vis3, hr, htrue3, hfalse3⟩ :=
        ih vis2 (fun w hw => hmem w (List.mem_cons_of_mem _ hw)) hcount2 hpost.1 hpost.2.1
      refine ⟨b3, vis3, ?_, ?_, ?_⟩
      · simp only [dfsRange, hfv]; exact hr
      · intro hb hgrey
        exact htrue3 hb (fun x hx w hw =>
          hgrey x ((hpost.2.2.1 x).mp hx) w (List.mem_cons_of_mem _ hw))
      · intro hb
        obtain ⟨hpost3, hblack3⟩ := hfalse3 hb
        refine ⟨post_trans g vis vis2 vis3 hpost hpost3, ?_⟩
        intro w hw
        rcases List.mem_cons.mp hw with rfl | hw
        · exact hpost3.2.2.2 _ hblack
        · exact hblack3 w hw

/-- The closure `dfs` meets its contract for every amount of fuel. -/
theorem dfs_ok (g : Graph) : ∀ n, DfsOK g n (dfs g n) := by
  intro n
  induction n with
  | zero => intro u vis _ hcount; exact absurd hcount (Nat.not_lt_zero _)
  | succ n ih =>
    intro u vis hu hcount h1 h2
    by_cases hg : vis u = 1
    · refine ⟨true, vis, by simp only [dfs, hg, if_true], fun _ hgrey => ⟨u, hgrey u hg⟩,
        fun h => (by cases h)⟩
    by_cases hb : vis u = 2
    · refine ⟨false, vis, by simp [dfs, hb], fun h => (by cases h),
        fun _ => ⟨post_refl g vis h1 h2, hb⟩⟩
    have hcount1 : whiteCount (graphNodes g) (vis.set u 1) < n := by
      have := whiteCount_set_lt (graphNodes g) vis u hu hg hb
      omega
    have hset : ∀ x, x ≠ u → vis.set u 1 x = vis x := by
      intro x hx; simp [Visited.set, hx]
    have hsetu : vis.set u 1 u = 1 := by simp [Visited.set]
    have hblack1 : ∀ x, vis.set u 1 x = 2 → vis x = 2 := by
      intro x hx
      by_cases hxu : x = u
      · subst hxu; rw [hsetu] at hx; cases hx
      · rwa [hset x hxu] at hx
    have hblack1r : ∀ x, vis x = 2 → vis.set u 1 x = 2 := by
      intro x hx
      by_cases hxu : x = u
      · subst hxu; exact absurd hx hb
      · rwa [hset x hxu]
    have h11 : BlackClosed g (vis.set u 1) :=
      fun b hbb v hv => hblack1r v (h1 b (hblack1 b hbb) v hv)
    have h21 : BlackAcyclic g (vis.set u 1) := fun b hbb => h2 b (hblack1 b hbb)
    obtain ⟨b, vis2, hr, htrue, hfalse⟩ :=
      dfsRange_ok g n (dfs g n) ih (g.get u) (vis.set u 1)
        (fun v hv => mem_graphNodes_of_edge g u v hv) hcount1 h11 h21
    cases b with
    | true =>
      refine ⟨true, vis2, by simp only [dfs, hg, hb, if_false, hr], ?_, fun h => (by cases h)⟩
      intro _ hgrey
      apply htrue rfl
      intro x hx v hv
      by_cases hxu : x = u
      · subst hxu; exact Relation.TransGen.single hv
      · rw [hset x hxu] at hx
        exact Relation.TransGen.tail (hgrey x hx) hv
    | false =>
      obtain ⟨hpost, hsucc⟩ := hfalse rfl
      refine ⟨false, vis2.set u 2, by simp only [dfs, hg, hb, if_false, hr],
        fun h => (by cases h), fun _ => ⟨?_, by simp [Visited.set]⟩⟩
      have hgrey2 : vis2 u = 1 := (hpost.2.2.1 u).mpr hsetu
      have hnew : ∀ x, x ≠ u → vis2.set u 2 x = vis2 x := by
        intro x hx; simp [Visited.set, hx]
      have hnewu : vis2.set u 2 u = 2 := by simp [Visited.set]
      have hnewblack : ∀ x, vis2 x = 2 → vis2.set u 2 x = 2 := by
        intro x hx
        by_cases hxu : x = u
        · subst hxu; exact hnewu
        · rwa [hnew x hxu]
      refine ⟨?_, ?_, ?_, ?_⟩
      · intro b hbb v hv
        by_cases hbu : b = u
        · subst hbu; exact hnewblack v (hsucc v hv)
        · rw [hnew b hbu] at hbb
          exact hnewblack v (hpost.1 b hbb v hv)
      · intro b hbb hcyc
        by_cases hbu : b = u
        · subst hbu
          obtain ⟨v, huv, hvu⟩ := Relation.TransGen.head'_iff.mp hcyc
          have := black_reach g vis2 hpost.1 v b (hsucc v huv) hvu
          rw [hgrey2] at this
          cases this
        · rw [hnew b hbu] at hbb
          exact hpost.2.1 b hbb hcyc
      · intro x
        by_cases hxu : x = u
        · subst hxu; rw [hnewu]
          exact ⟨fun h => (by cases h), fun h => absurd h hg⟩
        · rw [hnew x hxu, hpost.2.2.1 x, hset x hxu]
      · intro x hx
        exact hnewblack x (hpost.2.2.2 x (hblack1r x hx))

/-- A successful lookup finds an entry of the list. -/
theorem mem_of_lookup_eq_some (u : String) (l : List String) :
    ∀ g : Graph, List.lookup u g = some l → (u, l) ∈ g := by
  intro g
  induction g with
  | nil => intro hl; cases hl
  | cons e es ih =>
    intro hl
    obtain ⟨a, vs⟩ := e
    by_cases hua : u = a
    · subst hua
      simp [List.lookup] at hl
      subst hl
      exact List.mem_cons_self _ _
    · have hb : (u == a) = false := by simpa using hua
      simp only [List.lookup, hb] at hl
      exact List.mem_cons_of_mem _ (ih hl)

/-- In a list with distinct keys every entry is found by lookup. -/
theorem lookup_of_mem_nodup (k : String) (l : List String) :
    ∀ g : Graph, (g.map Prod.fst).Nodup → (k, l) ∈ g → List.lookup k g = some l := by
  intro g
  induction g with
  | nil => intro _ h; cases h
  | cons e es ih =>
    intro hnd hmem
    obtain ⟨a, vs⟩ := e
    rw [List.map_cons, List.nodup_cons] at hnd
    rcases List.mem_cons.mp hmem with h | h
    · injection h with h1 h2
      subst h1; subst h2
      simp [List.lookup]
    · have hka : k ≠ a := by
        intro hka
        subst hka
        exact hnd.1 (List.mem_map.mpr ⟨(k, l), h, rfl⟩)
      have hb : (k == a) = false := by simpa using hka
      simp only [List.lookup, hb]
      exact ih hnd.2 h

/-- Reading a key the graph does not hold gives the nil slice. -/
theorem graph_get_fresh (g : Graph) (k : String) (h : k ∉ g.map Prod.fst) : g.get k = [] := by
  unfold Graph.get
  cases hl : List.lookup k g with
  | none => rfl
  | some l =>
    exact absurd (List.mem_map.mpr ⟨(k, l), mem_of_lookup_eq_some k l g hl, rfl⟩) h

/-- Assigning to a key the graph does not hold appends the entry. -/
theorem graph_set_fresh (g : Graph) (k : String) (v : List String) (h : k ∉ g.map Prod.fst) :
    g.set k v = g ++ [(k, v)] := by
  unfold Graph.set
  have : ¬ (g.map Prod.fst).contains k = true := by simpa using h
  rw [if_neg this]

/-- On steps with present fields and distinct, fresh ids the first loop succeeds and appends the graph of the steps. -/
theorem buildGraph_ok : ∀ (rest : List WorkflowStep) (ids : List String) (graph : Graph),
    (∀ x, x ∈ ids ↔ x ∈ graph.map Prod.fst) →
    (∀ s ∈ rest, StepFieldsPresent s) →
    (rest.map (fun s => s.ID)).Nodup → (∀ s ∈ rest, s.ID ∉ ids) →
    buildGraph rest ids graph = .ok (graph ++ stepGraph rest) := by
  intro rest
  induction rest with
  | nil => intro ids graph _ _ _ _; simp [buildGraph, stepGraph]
  | cons s rest ih =>
    intro ids graph hinv hfields hnd hfresh
    have hs := hfields s (List.mem_cons_self _ _)
    unfold StepFieldsPresent at hs
    have hnot : ¬ (TrimSpace s.ID = "" ∨ TrimSpace s.Name = "" ∨ TrimSpace s.StepType = "") := by
      rintro (h | h | h)
      · exact hs.1 h
      · exact hs.2.1 h
      · exact hs.2.2 h
    have hsid : s.ID ∉ ids := hfresh s (List.mem_cons_self _ _)
    have hcont : ¬ ids.contains s.ID = true := by simpa using hsid
    have hkey : s.ID ∉ graph.map Prod.fst := fun h => hsid ((hinv _).mpr h)
    rw [List.map_cons, List.nodup_cons] at hnd
    unfold buildGraph
    rw [if_neg hnot, if_neg hcont, graph_get_fresh graph s.ID hkey, List.nil_append,
      graph_set_fresh graph s.ID _ hkey]
    rw [ih (s.ID :: ids) (graph ++ [(s.ID, s.DependsOn)])]
    · simp [stepGraph]
    · intro x
      simp only [List.mem_cons, List.map_append, List.map_cons, List.map_nil, List.mem_append,
        List.mem_singleton, hinv x]
      tauto
    · exact fun t ht => hfields t (List.mem_cons_of_mem _ ht)
    · exact hnd.2
    · intro t ht hmem
      rcases List.mem_cons.mp hmem with h | h
      · exact hnd.1 (List.mem_map.mpr ⟨t, ht, h⟩)
      · exact hfresh t (List.mem_cons_of_mem _ ht) h

/-- When the first loop succeeds the steps have present fields and distinct, fresh ids. -/
theorem buildGraph_ok_inv : ∀ (rest : List WorkflowStep) (ids : List String) (graph g : Graph),
    buildGraph rest ids graph = .ok g →
    (∀ s ∈ rest, StepFieldsPresent s) ∧ (rest.map (fun s => s.ID)).Nodup ∧
      ∀ s ∈ rest, s.ID ∉ ids := by
  intro rest
  induction rest with
  | nil => intro ids graph g _; simp
  | cons s rest ih =>
    intro ids graph g h
    unfold buildGraph at h
    by_cases hblank : TrimSpace s.ID = "" ∨ TrimSpace s.Name = "" ∨ TrimSpace s.StepType = ""
    · rw [if_pos hblank] at h; cases h
    rw [if_neg hblank] at h
    by_cases hcont : ids.contains s.ID = true
    · rw [if_pos hcont] at h; cases h
    rw [if_neg hcont] at h
    obtain ⟨h1, h2, h3⟩ := ih _ _ _ h
    have hsid : s.ID ∉ ids := by simpa using hcont
    refine ⟨?_, ?_, ?_⟩
    · intro t ht
      rcases List.mem_cons.mp ht with rfl | ht
      · exact ⟨fun h => hblank (Or.inl h), fun h => hblank (Or.inr (Or.inl h)),
          fun h => hblank (Or.inr (Or.inr h))⟩
      · exact h1 t ht
    · rw [List.map_cons, List.nodup_cons]
      refine ⟨?_, h2⟩
      intro hmem
      obtain ⟨t, ht, hid⟩ := List.mem_map.mp hmem
      exact h3 t ht (by rw [hid]; exact List.mem_cons_self _ _)
    · intro t ht
      rcases List.mem_cons.mp ht with rfl | ht
      · exact hsid
      · exact fun hmem => h3 t ht (List.mem_cons_of_mem _ hmem)

/-- The first loop fails on a step list with a blank field or a repeated id. -/
theorem buildGraph_error_of_invalid (steps : List WorkflowStep)
    (h : ¬ ((∀ s ∈ steps, StepFieldsPresent s) ∧ (steps.map (fun s => s.ID)).Nodup)) :
    ∃ e, buildGraph steps [] [] = .error e := by
  cases hb : buildGraph steps [] [] with
  | error e => exact ⟨e, rfl⟩
  | ok g =>
    obtain ⟨h1, h2, _⟩ := buildGraph_ok_inv steps [] [] g hb
    exact absurd ⟨h1, h2⟩ h

/-- The keys of the graph of a step list are the ids of the steps. -/
theorem stepGraph_keys (steps : List WorkflowStep) :
    (stepGraph steps).map Prod.fst = steps.map (fun s => s.ID) := by
  unfold stepGraph
  rw [List.map_map]
  rfl

/-- For steps with distinct ids the edges of the built graph are the dependency relation. -/
theorem gedge_iff_stepEdge (steps : List WorkflowStep)
    (hnd : (steps.map (fun s => s.ID)).Nodup) (u v : String) :
    GEdge (stepGraph steps) u v ↔ StepEdge steps u v := by
  unfold GEdge StepEdge Graph.get
  constructor
  · intro h
    cases hl : List.lookup u (stepGraph steps) with
    | none => rw [hl] at h; cases h
    | some l =>
      rw [hl] at h
      have hmem := mem_of_lookup_eq_some u l _ hl
      obtain ⟨s, hs, heq⟩ := List.mem_map.mp hmem
      injection heq with h1 h2
      exact ⟨s, hs, h1, by rw [h2]; exact h⟩
  · rintro ⟨s, hs, hid, hv⟩
    have hmem : (u, s.DependsOn) ∈ stepGraph steps :=
      List.mem_map.mpr ⟨s, hs, by rw [hid]⟩
    rw [lookup_of_mem_nodup u s.DependsOn _ (by rw [stepGraph_keys]; exact hnd) hmem]
    exact hv

/-- For steps with distinct ids the built graph has a cycle exactly when the dependency relation has one. -/
theorem cycle_iff (steps : List WorkflowStep) (hnd : (steps.map (fun s => s.ID)).Nodup) :
    (∃ y, Relation.TransGen (GEdge (stepGraph steps)) y y) ↔ HasCycle steps := by
  unfold HasCycle
  constructor
  · rintro ⟨y, h⟩
    exact ⟨y, Relation.TransGen.mono (fun a b hab => (gedge_iff_stepEdge steps hnd a b).mp hab) h⟩
  · rintro ⟨y, h⟩
    exact ⟨y, Relation.TransGen.mono (fun a b hab => (gedge_iff_stepEdge steps hnd a b).mpr hab) h⟩

/-- A node with an outgoing path is a key of the graph. -/
theorem mem_keys_of_transGen (g : Graph) (y z : String)
    (h : Relation.TransGen (GEdge g) y z) : y ∈ g.map Prod.fst := by
  obtain ⟨v, hyv, _⟩ := Relation.TransGen.head'_iff.mp h
  unfold GEdge Graph.get at hyv
  cases hl : List.lookup y g with
  | none => rw [hl] at hyv; cases hyv
  | some l => exact List.mem_map.mpr ⟨(y, l), mem_of_lookup_eq_some y l g hl, rfl⟩

/-- The second loop of `validateSteps` returns for every iteration order, and reports a cycle exactly when the graph has one. -/
theorem dfs_all (g : Graph) (order : List String) (hperm : order.Perm (g.map Prod.fst)) :
    ∃ b vis2, dfsRange (dfs g ((graphNodes g).length + 1)) order (fun _ => 0) = some (b, vis2) ∧
      (b = true ↔ ∃ y, Relation.TransGen (GEdge g) y y) := by
  have hmem : ∀ v ∈ order, v ∈ graphNodes g := by
    intro v hv
    unfold graphNodes
    exact List.mem_append_left _ (hperm.mem_iff.mp hv)
  have hcount : whiteCount (graphNodes g) (fun _ => 0) < (graphNodes g).length + 1 :=
    Nat.lt_succ_of_le (List.countP_le_length _)
  have h1 : BlackClosed g (fun _ => 0) := fun b hb => by cases hb
  have h2 : BlackAcyclic g (fun _ => 0) := fun b hb => by cases hb
  obtain ⟨b, vis2, hr, htrue, hfalse⟩ :=
    dfsRange_ok g _ _ (dfs_ok g _) order (fun _ => 0) hmem hcount h1 h2
  refine ⟨b, vis2, hr, ?_⟩
  constructor
  · intro hb
    exact htrue hb (fun x hx => by cases hx)
  · rintro ⟨y, hy⟩
    cases b with
    | true => rfl
    | false =>
      obtain ⟨hpost, hblack⟩ := hfalse rfl
      have hkey := mem_keys_of_transGen g y y hy
      exact absurd hy (hpost.2.1 y (hblack y (hperm.mem_iff.mpr hkey)))

/-- C25: for every step list and every order in which the range loop visits the keys of the graph, `validateSteps` returns; the result is nil exactly when the list is non-empty, every step has a non-blank id, name and type, the ids are distinct and the dependency relation has no directed cycle; when only the last condition fails the error is `circular dependency detected`; a step that depends on itself makes a cycle. A dependency on an undeclared id adds an edge that lies on no cycle. -/
theorem validateSteps_correct (rangeOrder : Graph → List String) (steps : List WorkflowStep)
    (hrange : ∀ g, (rangeOrder g).Perm (g.map Prod.fst)) :
    ∃ r : Option String, validateSteps rangeOrder steps = some r ∧
      (r = none ↔ StepsValid steps) ∧
      (steps ≠ [] → (∀ s ∈ steps, StepFieldsPresent s) → (steps.map (fun s => s.ID)).Nodup →
        HasCycle steps → r = some "circular dependency detected") ∧
      (∀ s ∈ steps, s.ID ∈ s.DependsOn → HasCycle steps) := by
  have hself : ∀ s ∈ steps, s.ID ∈ s.DependsOn → HasCycle steps :=
    fun s hs hdep => ⟨s.ID, Relation.TransGen.single ⟨s, hs, rfl, hdep⟩⟩
  by_cases hempty : steps = []
  · subst hempty
    exact ⟨some "steps must not be empty", rfl,
      ⟨fun h => (by cases h), fun h => absurd rfl h.1⟩, fun h => absurd rfl h, hself⟩
  have hlen : ¬ steps.length = 0 := fun h => hempty (List.length_eq_zero.mp h)
  by_cases hvalid : (∀ s ∈ steps, StepFieldsPresent s) ∧ (steps.map (fun s => s.ID)).Nodup
  · have hbuild : buildGraph steps [] [] = .ok (stepGraph steps) := by
      have := buildGraph_ok steps [] [] (fun x => by simp) hvalid.1 hvalid.2 (fun s _ h => by cases h)
      rwa [List.nil_append] at this
    obtain ⟨b, vis2, hr, hb⟩ := dfs_all (stepGraph steps) (rangeOrder (stepGraph steps)) (hrange _)
    rw [cycle_iff steps hvalid.2] at hb
    cases b with
    | true =>
      have hcyc : HasCycle steps := hb.mp rfl
      refine ⟨some "circular dependency detected", ?_, ⟨fun h => (by cases h),
        fun h => absurd hcyc h.2.2.2⟩, fun _ _ _ _ => rfl, hself⟩
      unfold validateSteps
      rw [if_neg hlen]
      simp only [hbuild, hr]
    | false =>
      have hcyc : ¬ HasCycle steps := fun h => by cases hb.mpr h
      refine ⟨none, ?_, ⟨fun _ => ⟨hempty, hvalid.1, hvalid.2, hcyc⟩, fun _ => rfl⟩,
        fun _ _ _ h => absurd h hcyc, hself⟩
      unfold validateSteps
      rw [if_neg hlen]
      simp only [hbuild, hr]
  · obtain ⟨e, he⟩ := buildGraph_error_of_invalid steps hvalid
    refine ⟨some e, ?_, ⟨fun h => (by cases h), fun h => absurd ⟨h.2.1, h.2.2.1⟩ hvalid⟩,
      fun _ h1 h2 _ => absurd ⟨h1, h2⟩ hvalid, hself⟩
    unfold validateSteps
    rw [if_neg hlen]
    simp only [he]

/-- The theorem C25 at `exampleSteps`, which are valid although `test` depends on the undeclared `lint`, and at `cyclicSteps`. -/
theorem validateSteps_correct_witness :
    (∀ g, (reverseOrder g).Perm (g.map Prod.fst)) ∧
    validateSteps reverseOrder exampleSteps = some none ∧
    StepsValid exampleSteps ∧
    validateSteps reverseOrder cyclicSteps = some (some "circular dependency detected") ∧
    ¬ StepsValid cyclicSteps := by
  have hperm : ∀ g, (reverseOrder g).Perm (g.map Prod.fst) := fun g => List.reverse_perm _
  have h1 : validateSteps reverseOrder exampleSteps = some none := by decide
  have h2 : validateSteps reverseOrder cyclicSteps =
      some (some "circular dependency detected") := by decide
  obtain ⟨r, hr, hiff, _⟩ := validateSteps_correct reverseOrder exampleSteps hperm
  obtain ⟨r2, hr2, hiff2, _⟩ := validateSteps_correct reverseOrder cyclicSteps hperm
  rw [h1] at hr
  rw [h2] at hr2
  have e1 : r = none := (Option.some.inj hr).symm
  have e2 : r2 = some "circular dependency detected" := (Option.some.inj hr2).symm
  refine ⟨hperm, h1, hiff.mp e1, h2, fun hv => ?_⟩
  have := hiff2.mpr hv
  rw [e2] at this
  cases this

end Gateway
